import Mathlib

/-!
omniterm: session registry and command-completion synchronizer.

A shallow embedding of the terminal session registry of
`pkg/service/agent_service.go` (`TerminalManager`, `TerminalSession`) and of the
parts of `pkg/service/terminal_service.go` that act on it (`writeToTerminal`,
`handleSetSessionId`), followed by the properties proved about them.

Conventions of the embedding

* A Go `string` / `[]byte` that is inspected byte by byte (output chunks, commands,
  reports) is a `GoString`, a list of bytes.  Identifiers (session ids, asset ids) are
  only ever compared for equality and are Lean `String`s.
* A Go pointer (`*Terminal`, `*websocket.Conn`) is an address (`TermPtr`, `ConnPtr`);
  `nil` is `none`.  The `Terminal` objects live in a heap `TermPtr → Terminal`.
* A Go `map[string]*TerminalSession` is a partial function `String → Option _`; mutating
  the session an entry points to is an update of the map at that key.
* Locks are not modelled: every operation is one atomic step of a sequential state.
* The map `map[string]*models.Asset` of the asset store (`pkg/service/asset_service.go`)
  is the list of its values, because its loops visit it in an order; an assignment
  through an asset pointer is an update of the asset stored under that id.
* Calls on libraries that can fail (`pty.New`, `ssh.Dial`, `saveAssets`, ...) take their
  result from an argument, and the calls issued on a backend are recorded in a trace.
-/

namespace Omniterm

/-! ## Data model -/

/-- A Go string seen as its bytes. -/
abbrev GoString := List UInt8

/-- The bytes of an ASCII literal. -/
def ascii (s : String) : GoString := s.toList.map (fun c => UInt8.ofNat c.toNat)

/-- Address of a `Terminal` object (`*Terminal`). -/
abbrev TermPtr := Nat

/-- Address of a websocket connection (`*websocket.Conn`), the outbound sink. -/
abbrev ConnPtr := Nat

/-- The struct `TerminalSession` (its mutex left out). -/
structure TerminalSession where
  ID : String
  AssetID : String
  Output : List GoString
  LastCmd : GoString
  conn : Option ConnPtr
  term : Option TermPtr
deriving DecidableEq, Repr

/-- The struct `TerminalManager`: the map `terminals` (mutex and logger left out). -/
structure TerminalManager where
  terminals : String → Option TerminalSession

/-- The registry with no entry. -/
def TerminalManager.empty : TerminalManager := ⟨fun _ => none⟩

/-- The map assignment `tm.terminals[k] = v`. -/
def TerminalManager.set (tm : TerminalManager) (k : String) (v : TerminalSession) :
    TerminalManager :=
  ⟨fun k' => if k' = k then some v else tm.terminals k'⟩

/-- The map deletion `delete(tm.terminals, k)`. -/
def TerminalManager.delete (tm : TerminalManager) (k : String) : TerminalManager :=
  ⟨fun k' => if k' = k then none else tm.terminals k'⟩

/-- The history cap, the literal `1000000` of `AppendOutput`. -/
@[irreducible] def outputCap : Nat := 1000000

/-! ## Session registry operations (`agent_service.go`) -/

/-- The method `TerminalManager.RegisterTerminal`: stores a new session value under `sessionID`. -/
def TerminalManager.RegisterTerminal (tm : TerminalManager) (sessionID assetID : String) :
    TerminalManager :=
  tm.set sessionID
    { ID := sessionID, AssetID := assetID, Output := [], LastCmd := [],
      conn := none, term := none }

/-- The method `TerminalManager.SetTerminalConnection`. -/
def TerminalManager.SetTerminalConnection (tm : TerminalManager) (sessionID : String)
    (conn : Option ConnPtr) : TerminalManager :=
  match tm.terminals sessionID with
  | none => tm
  | some session => tm.set sessionID { session with conn := conn }

/-- The method `TerminalManager.AppendOutput`: append the chunk, then keep the last
`1000000` chunks when the history grew beyond that. -/
def TerminalManager.AppendOutput (tm : TerminalManager) (sessionID : String)
    (output : GoString) : TerminalManager :=
  match tm.terminals sessionID with
  | none => tm
  | some session =>
    let out := session.Output ++ [output]
    tm.set sessionID
      { session with
        Output := if out.length > outputCap then out.drop (out.length - outputCap) else out }

/-- The method `TerminalManager.SetLastCommand`. -/
def TerminalManager.SetLastCommand (tm : TerminalManager) (sessionID : String)
    (cmd : GoString) : TerminalManager :=
  match tm.terminals sessionID with
  | none => tm
  | some session => tm.set sessionID { session with LastCmd := cmd }

/-- The method `TerminalManager.GetLastCommand`. -/
def TerminalManager.GetLastCommand (tm : TerminalManager) (sessionID : String) : GoString :=
  match tm.terminals sessionID with
  | none => []
  | some session => session.LastCmd

/-- The method `TerminalManager.MigrateSession`: the history, last command and
terminal of the old entry are stored under the new identifier, then the old identifier is deleted;
without an old entry a fresh one is stored. -/
def TerminalManager.MigrateSession (tm : TerminalManager)
    (oldSessionID newSessionID assetID : String) (conn : Option ConnPtr) : TerminalManager :=
  match tm.terminals oldSessionID with
  | some oldSession =>
    (tm.set newSessionID
      { ID := newSessionID, AssetID := assetID, Output := oldSession.Output,
        LastCmd := oldSession.LastCmd, conn := conn, term := oldSession.term }).delete
      oldSessionID
  | none =>
    tm.set newSessionID
      { ID := newSessionID, AssetID := assetID, Output := [], LastCmd := [],
        conn := conn, term := none }

/-- A run of `AppendOutput` calls on one session, one per chunk, in order. -/
def TerminalManager.appendAll (tm : TerminalManager) (sessionID : String)
    (chunks : List GoString) : TerminalManager :=
  chunks.foldl (fun t c => t.AppendOutput sessionID c) tm

/-! ## The backend terminal (`terminal_service.go`) -/

/-- The string type `ConnectionType`: its two named constants, and `unset` for every
other value (the zero value `""` a `Terminal` has before `Start`). -/
inductive ConnectionType where
  | ConnectionTypeLocal
  | ConnectionTypeSSH
  | unset
deriving DecidableEq, Repr

/-- The fields of the struct `Terminal` that the registry and the write path read.
A backend resource field holds `true` when the Go field is non-nil. -/
structure Terminal where
  conn : Option ConnPtr
  assetID : String
  sessionID : String
  paused : Bool
  localCmd : Bool
  localTty : Bool
  sshClient : Bool
  sshSession : Bool
  sshStdin : Bool
  connType : ConnectionType
  rows : Int
  cols : Int
deriving DecidableEq, Repr

/-- The backend resource a write call is issued on. -/
inductive BackendSink where
  | localTty
  | sshStdin
deriving DecidableEq, Repr

/-- One `Write(data)` call issued on a backend resource of the terminal at `term`. -/
structure BackendWrite where
  term : TermPtr
  sink : BackendSink
  data : GoString
deriving DecidableEq, Repr

/-- The process state the session code acts on: the global registry
`GlobalTerminalManager`, the `Terminal` objects by address, and the backend write calls
issued so far, oldest first. -/
structure World where
  tm : TerminalManager
  heap : TermPtr → Terminal
  writes : List BackendWrite

/-- The method `TerminalManager.AttachTerminal`.  The session is looked up again after the
registration, as in the source; that second lookup always finds the entry. -/
def TerminalManager.AttachTerminal (tm : TerminalManager) (heap : TermPtr → Terminal)
    (sessionID : String) (term : Option TermPtr) : TerminalManager :=
  match term with
  | none => tm
  | some p =>
    let tm1 :=
      match tm.terminals sessionID with
      | some _ => tm
      | none => tm.RegisterTerminal sessionID (heap p).assetID
    match tm1.terminals sessionID with
    | some session => tm1.set sessionID { session with term := some p }
    | none => tm1

/-- The UTF-8 encodings of the runes for which `unicode.IsSpace` holds: the six ASCII
spaces, U+0085, U+00A0, U+1680, U+2000..U+200A, U+2028, U+2029, U+202F, U+205F,
U+3000. -/
def spaceEncodings : List GoString :=
  [[0x09], [0x0A], [0x0B], [0x0C], [0x0D], [0x20], [0xC2, 0x85], [0xC2, 0xA0],
   [0xE1, 0x9A, 0x80],
   [0xE2, 0x80, 0x80], [0xE2, 0x80, 0x81], [0xE2, 0x80, 0x82], [0xE2, 0x80, 0x83],
   [0xE2, 0x80, 0x84], [0xE2, 0x80, 0x85], [0xE2, 0x80, 0x86], [0xE2, 0x80, 0x87],
   [0xE2, 0x80, 0x88], [0xE2, 0x80, 0x89], [0xE2, 0x80, 0x8A],
   [0xE2, 0x80, 0xA8], [0xE2, 0x80, 0xA9], [0xE2, 0x80, 0xAF], [0xE2, 0x81, 0x9F],
   [0xE3, 0x80, 0x80]]

/-- Width of the white-space rune `s` starts with, `0` when it starts with none.
(A rune decodes to a white-space rune exactly when its bytes are one of
`spaceEncodings`: Go's decoder rejects over-long forms.) -/
def leadingSpaceWidth (encs : List GoString) (s : GoString) : Nat :=
  match encs.find? (fun e => e.isPrefixOf s) with
  | some e => e.length
  | none => 0

/-- Strip white-space runes from the front; `fuel` bounds the number of runes. -/
def trimLeftSpace (encs : List GoString) : Nat → GoString → GoString
  | 0, s => s
  | fuel + 1, s =>
    match leadingSpaceWidth encs s with
    | 0 => s
    | w => trimLeftSpace encs fuel (s.drop w)

/-- The library function `strings.TrimSpace`: the string without its leading and
trailing white-space runes.  The trailing runes are stripped on the reversed bytes. -/
def TrimSpace (s : GoString) : GoString :=
  let l := trimLeftSpace spaceEncodings s.length s
  (trimLeftSpace (spaceEncodings.map List.reverse) l.length l.reverse).reverse

/-- The method `Terminal.writeToTerminal`: records the last command when the input holds a line
terminator and is not blank, then issues the write on the resource of the terminal's
kind when that resource is there.  A failing write is only logged. -/
def writeToTerminal (w : World) (t : TermPtr) (data : GoString) : World :=
  let term := w.heap t
  let tm :=
    if data.contains 0x0D || data.contains 0x0A then
      if (TrimSpace data).length > 0 then w.tm.SetLastCommand term.sessionID (TrimSpace data)
      else w.tm
    else w.tm
  let writes :=
    match term.connType with
    | .ConnectionTypeLocal =>
      if term.localTty then w.writes ++ [⟨t, .localTty, data⟩] else w.writes
    | .ConnectionTypeSSH =>
      if term.sshStdin then w.writes ++ [⟨t, .sshStdin, data⟩] else w.writes
    | .unset => w.writes
  { w with tm := tm, writes := writes }

/-- The method `Terminal.handleSetSessionId` for the terminal at address `t`. -/
def handleSetSessionId (w : World) (t : TermPtr) (newSessionID : String) : World :=
  let term := w.heap t
  let oldSessionID := term.sessionID
  let heap : TermPtr → Terminal :=
    fun p => if p = t then { term with sessionID := newSessionID } else w.heap p
  let tm := w.tm.MigrateSession oldSessionID newSessionID term.assetID term.conn
  { w with tm := tm.AttachTerminal heap newSessionID (some t), heap := heap }

/-! ## Command-completion synchronizer (`ExecTerminalCommand`, `agent_service.go`) -/

/-- The struct `ExecCommandInput`. -/
structure ExecCommandInput where
  TerminalId : String
  Command : GoString
  TimeoutSeconds : Int
deriving DecidableEq, Repr

/-- The sentinel `marker` of `ExecTerminalCommand`. -/
def marker : GoString := ascii "__OMNITERM_EXIT_CODE__"

/-- The character class `[0-9]`. -/
def isDigit (b : UInt8) : Bool := 0x30 ≤ b && b ≤ 0x39

/-- The call `exitCodeRegex.FindStringSubmatch(s)` for the expression `marker([0-9]+)`, the
marker being a literal: the group `m[1]` of the leftmost match, the digit run taken
greedily; `none` when there is no match (`len(m) != 2`). -/
def FindStringSubmatch (marker : GoString) : GoString → Option GoString
  | [] => none
  | c :: cs =>
    if marker.isPrefixOf (c :: cs) &&
        !(((c :: cs).drop marker.length).takeWhile isDigit).isEmpty then
      some (((c :: cs).drop marker.length).takeWhile isDigit)
    else FindStringSubmatch marker cs

/-- The number a digit string denotes in base ten. -/
def decimalValue (ds : GoString) : Nat :=
  ds.foldl (fun n d => 10 * n + (d.toNat - 48)) 0

/-- The largest value of the Go type `int` (64 bits). -/
def maxInt : Nat := 9223372036854775807

/-- The call `fmt.Sscanf(tok, "%d", &exitCode)` on a digit string `tok`, its result
ignored: the variable receives the value of `tok`, and keeps its old value when the
value does not fit the type `int` (the scan fails before it stores anything). -/
def Sscanf (tok : GoString) (exitCode : Int) : Int :=
  if decimalValue tok ≤ maxInt then (decimalValue tok : Int) else exitCode

/-- Worker of `ReplaceAll`: `skip` is the number of bytes of the occurrence found last
that are still to be passed over. -/
def replaceAux (old new : GoString) : Nat → GoString → GoString
  | _, [] => []
  | skip + 1, _ :: cs => replaceAux old new skip cs
  | 0, c :: cs =>
    if old.isPrefixOf (c :: cs) then new ++ replaceAux old new (old.length - 1) cs
    else c :: replaceAux old new 0 cs

/-- The library function `strings.ReplaceAll(s, old, new)` for a non-empty `old`: the
occurrences of `old` are found from left to right without overlap and each is replaced
by `new`. -/
def ReplaceAll (s old new : GoString) : GoString := replaceAux old new 0 s

/-- The field `Output` read through a session pointer held for `sessionID`. -/
def TerminalManager.output (tm : TerminalManager) (sessionID : String) : List GoString :=
  match tm.terminals sessionID with
  | some session => session.Output
  | none => []

/-- The field `term` read through a session pointer held for `sessionID`. -/
def TerminalManager.termOf (tm : TerminalManager) (sessionID : String) : Option TermPtr :=
  match tm.terminals sessionID with
  | some session => session.term
  | none => none

/-- The slice expression `xs[n:]`, which panics (`none`) when `n > len(xs)`. -/
def sliceFrom {α : Type} (xs : List α) (n : Nat) : Option (List α) :=
  if n ≤ xs.length then some (xs.drop n) else none

/-- What the rest of the process does while `ExecTerminalCommand` runs: the output
chunks the reader loops append to the session (through `AppendOutput`).
`polls` has one batch for each iteration of the polling loop that starts before the
deadline: the chunks appended since the previous read of the history;
`beforeFinal` are the chunks appended between the last of these reads and the read
that follows the loop; `afterInterrupt` those appended between that read and the read
that follows the interrupt. -/
structure ExecEnv where
  polls : List (List GoString)
  beforeFinal : List GoString
  afterInterrupt : List GoString

/-- The three reports `ExecTerminalCommand` returns with a nil error. -/
inductive ExecReport where
  | completed (command : GoString) (exitCode : Int) (output : GoString)
  | timedOut (command : GoString) (output : GoString)
  | notDetected (command : GoString) (output : GoString)
deriving DecidableEq, Repr

/-- The string of a report, as `fmt.Sprintf` builds it. -/
def ExecReport.render : ExecReport → GoString
  | .completed command exitCode output =>
    ascii "Command completed\nCommand: " ++ command ++ ascii "\nExit Code: " ++
      ascii (toString exitCode) ++ ascii "\nOutput:\n" ++ output
  | .timedOut command output =>
    ascii "Command timed out, attempted interrupt (Ctrl+C).\nCommand: " ++ command ++
      ascii "\nOutput:\n" ++ output
  | .notDetected command output =>
    ascii "Command executed but exit code not detected (possibly timeout).\nCommand: " ++
      command ++ ascii "\nOutput:\n" ++ output

/-- The two errors of `ExecTerminalCommand`: "terminal_id and command are required" and
"terminal not ready: <id>". -/
inductive ExecError where
  | required
  | notReady (terminalId : String)
deriving DecidableEq, Repr

/-- How a call of `ExecTerminalCommand` ends: a report with a nil error, an error, or a
run-time panic of a slice expression. -/
inductive ExecOutcome where
  | ok (report : ExecReport)
  | err (e : ExecError)
  | slicePanic
deriving DecidableEq, Repr

/-- The polling loop of `ExecTerminalCommand`, one iteration per batch of `polls`: the
variable `exitCode` when the loop is left, by `break` on the first read in which the
expression matches or because the deadline has passed. -/
def pollLoop (sessionID : String) (startLen : Nat) :
    TerminalManager → List (List GoString) → TerminalManager × Int
  | tm, [] => (tm, -1)
  | tm, batch :: rest =>
    let tm1 := tm.appendAll sessionID batch
    let currentLen := (tm1.output sessionID).length
    let newData :=
      if currentLen > startLen then ((tm1.output sessionID).drop startLen).flatten else []
    match (if newData ≠ [] then FindStringSubmatch marker newData else none) with
    | some m1 => (tm1, Sscanf m1 (-1))
    | none => pollLoop sessionID startLen tm1 rest

/-- The function `ExecTerminalCommand` from the polling loop on: `w1` is the state after the first
write, `startLen` the low-water mark. -/
def execAwait (w1 : World) (sessionID : String) (command : GoString) (startLen : Nat)
    (env : ExecEnv) : World × ExecOutcome :=
  let loop := pollLoop sessionID startLen w1.tm env.polls
  let tm3 := loop.1.appendAll sessionID env.beforeFinal
  match sliceFrom (tm3.output sessionID) startLen with
  | none => ({ w1 with tm := tm3 }, .slicePanic)
  | some chunks =>
    let allOutput := chunks.flatten
    let exitCode :=
      if loop.2 = -1 then
        match FindStringSubmatch marker allOutput with
        | some m1 => Sscanf m1 loop.2
        | none => loop.2
      else loop.2
    let allOutput := ReplaceAll allOutput marker []
    if exitCode = -1 then
      match tm3.termOf sessionID with
      | some t =>
        let w4 := writeToTerminal { w1 with tm := tm3 } t [0x03]
        let tm5 := w4.tm.appendAll sessionID env.afterInterrupt
        match sliceFrom (tm5.output sessionID) startLen with
        | none => ({ w4 with tm := tm5 }, .slicePanic)
        | some chunks2 =>
          ({ w4 with tm := tm5 },
            .ok (.timedOut command (ReplaceAll chunks2.flatten marker [])))
      | none => ({ w1 with tm := tm3 }, .ok (.notDetected command allOutput))
    else ({ w1 with tm := tm3 }, .ok (.completed command exitCode allOutput))

/-- The function `ExecTerminalCommand`: the state it leaves and how it ends.  The timeout only
fixes the deadline, that is how many polls `env` holds; the sleeps are not modelled. -/
def ExecTerminalCommand (w : World) (params : ExecCommandInput) (env : ExecEnv) :
    World × ExecOutcome :=
  if params.TerminalId = "" ∨ params.Command = [] then (w, .err .required)
  else
    match w.tm.terminals params.TerminalId with
    | none => (w, .err (.notReady params.TerminalId))
    | some session =>
      match session.term with
      | none => (w, .err (.notReady params.TerminalId))
      | some t =>
        let startLen := session.Output.length
        let augmentedCmd := params.Command ++ ascii "; echo " ++ marker ++ ascii "$?"
        let w1 := writeToTerminal w t (augmentedCmd ++ ascii "\n")
        execAwait w1 params.TerminalId params.Command startLen env

/-- The chunks of the session's history from index `startLen` on, concatenated. -/
def observed (tm : TerminalManager) (sessionID : String) (startLen : Nat) : GoString :=
  ((tm.output sessionID).drop startLen).flatten

/-- The history beyond the low-water mark once the chunks `appended` have been
appended to the session since the mark was taken. -/
def capturedAfter (tm : TerminalManager) (sessionID : String) (appended : List GoString) :
    GoString :=
  observed (tm.appendAll sessionID appended) sessionID (tm.output sessionID).length

/-- The chunks appended since the mark at the read of poll `j` (counted from 0). -/
def ExecEnv.atPoll (env : ExecEnv) (j : Nat) : List GoString :=
  (env.polls.take (j + 1)).flatten

/-- The chunks appended since the mark at the read after the loop, when the loop was
left after `k` polls. -/
def ExecEnv.atFinal (env : ExecEnv) (k : Nat) : List GoString :=
  (env.polls.take k).flatten ++ env.beforeFinal

/-- The chunks appended since the mark at the read after the interrupt, when the loop
was left after `k` polls. -/
def ExecEnv.atInterrupt (env : ExecEnv) (k : Nat) : List GoString :=
  (env.polls.take k).flatten ++ env.beforeFinal ++ env.afterInterrupt

/-- The chunks appended since the mark at read `k`: the reads `0 .. n-1` are those of
the `n` polls, every later one is the read after the loop. -/
def ExecEnv.readAt (env : ExecEnv) (k : Nat) : List GoString :=
  if k < env.polls.length then env.atPoll k else env.atFinal env.polls.length

/-- The chunks appended since the mark at the read after the loop, when the loop was
left on read `k`. -/
def ExecEnv.finalAfter (env : ExecEnv) (k : Nat) : List GoString :=
  env.atFinal (min (k + 1) env.polls.length)

/-- The bytes of the first write: the command, the sentinel-echoing suffix and a line
feed. -/
def augmented (command : GoString) : GoString :=
  command ++ ascii "; echo " ++ marker ++ ascii "$?" ++ ascii "\n"

/-- The text `s` holds the marker `m` immediately followed by a decimal digit. -/
def HasMarkerDigit (m s : GoString) : Prop :=
  ∃ pre d rest, s = pre ++ m ++ d :: rest ∧ isDigit d = true

/-- In `s` the leftmost occurrence of the marker `m` that a digit follows comes after
`pre`, and `ds` is the maximal digit run that follows it. -/
def LeftmostMarkerDigits (m s pre ds rest : GoString) : Prop :=
  s = pre ++ m ++ ds ++ rest ∧ ds ≠ [] ∧ (∀ d ∈ ds, isDigit d = true) ∧
  (∀ d rest', rest = d :: rest' → isDigit d = false) ∧
  ∀ pre' d rest', s = pre' ++ m ++ d :: rest' → isDigit d = true → pre.length ≤ pre'.length

/-- The backend resource a started terminal writes to: the pty of a local terminal,
the input stream of a remote shell; `none` when the resource of its kind is nil. -/
def Terminal.sink (t : Terminal) : Option BackendSink :=
  match t.connType with
  | .ConnectionTypeLocal => if t.localTty then some .localTty else none
  | .ConnectionTypeSSH => if t.sshStdin then some .sshStdin else none
  | .unset => none

/-- The last `outputCap` chunks of the history `old` followed by the chunks `appended`. -/
def retained (old appended : List GoString) : List GoString :=
  (old ++ appended).drop ((old ++ appended).length - outputCap)

/-! ## Wire messages (`pkg/message/term.go`) -/

/-- Modelled from the spec: the struct `Base` that every message struct embeds is not
among the sources.  The wire frame envelope is `{"type": <discriminant>, ...fields}`
and the code builds `message.Base{Type: "TermOutputRequest"}`, so `Base` carries the
discriminant in a string field `Type` (here `Type_`, the name being reserved). -/
structure Base where
  Type_ : String
deriving DecidableEq, Repr

/-- The struct `TermResize`. -/
structure TermResize extends Base where
  Rows : Int
  Cols : Int
deriving DecidableEq, Repr

/-- The struct `TermInput`. -/
structure TermInput extends Base where
  Data : GoString
deriving DecidableEq, Repr

/-- The struct `TermPause`. -/
structure TermPause extends Base where
  Pause : Bool
deriving DecidableEq, Repr

/-- The struct `TermOutputRequest`. -/
structure TermOutputRequest extends Base where
  RequestID : String
  Lines : Int
deriving DecidableEq, Repr

/-- The struct `TermOutputResponse`. -/
structure TermOutputResponse extends Base where
  RequestID : String
  Output : List GoString
  Success : Bool
  Error : GoString
deriving DecidableEq, Repr

/-- The struct `TermSetSessionId`. -/
structure TermSetSessionId extends Base where
  SessionId : String
deriving DecidableEq, Repr

/-- The six struct types `init` registers, as `reflect.Type` values. -/
inductive MsgKind where
  | TermResize
  | TermInput
  | TermPause
  | TermOutputRequest
  | TermOutputResponse
  | TermSetSessionId
deriving DecidableEq, Repr

/-- The function `getTypeName`: the name of the struct type. -/
def getTypeName : MsgKind → String
  | .TermResize => "TermResize"
  | .TermInput => "TermInput"
  | .TermPause => "TermPause"
  | .TermOutputRequest => "TermOutputRequest"
  | .TermOutputResponse => "TermOutputResponse"
  | .TermSetSessionId => "TermSetSessionId"

/-- The function `RegisterMsgType` on the map `msgTypes`. -/
def RegisterMsgType (types : String → Option MsgKind) (msgType : MsgKind) :
    String → Option MsgKind :=
  fun name => if name = getTypeName msgType then some msgType else types name

/-- The map `msgTypes` once `init` has run its six registrations. -/
def msgTypes : String → Option MsgKind :=
  [MsgKind.TermResize, .TermInput, .TermPause, .TermOutputRequest, .TermOutputResponse,
    .TermSetSessionId].foldl RegisterMsgType (fun _ => none)

/-- The struct a `reflect.Type` of the registry stands for. -/
def MsgKind.Struct : MsgKind → Type
  | .TermResize => Omniterm.TermResize
  | .TermInput => Omniterm.TermInput
  | .TermPause => Omniterm.TermPause
  | .TermOutputRequest => Omniterm.TermOutputRequest
  | .TermOutputResponse => Omniterm.TermOutputResponse
  | .TermSetSessionId => Omniterm.TermSetSessionId

/-- What `ParseMessage` returns as `interface{}`: a pointer to one of the six structs. -/
inductive Message where
  | resize (m : TermResize)
  | input (m : TermInput)
  | pause (m : TermPause)
  | outputRequest (m : TermOutputRequest)
  | outputResponse (m : TermOutputResponse)
  | setSessionId (m : TermSetSessionId)
deriving DecidableEq, Repr

/-- The value `msgPtr.Interface()` for a struct allocated with `reflect.New(msgType)`. -/
def Message.ofKind : (k : MsgKind) → k.Struct → Message
  | .TermResize, m => .resize m
  | .TermInput, m => .input m
  | .TermPause, m => .pause m
  | .TermOutputRequest, m => .outputRequest m
  | .TermOutputResponse, m => .outputResponse m
  | .TermSetSessionId, m => .setSessionId m

/-- The struct type behind a returned message. -/
def Message.kind : Message → MsgKind
  | .resize _ => .TermResize
  | .input _ => .TermInput
  | .pause _ => .TermPause
  | .outputRequest _ => .TermOutputRequest
  | .outputResponse _ => .TermOutputResponse
  | .setSessionId _ => .TermSetSessionId

/-- The library function `json.Unmarshal` at the types `ParseMessage` calls it with:
into a `Base`, and into a freshly allocated struct of a registered type.  The decoder
itself is outside the repository and is a parameter; a failure carries its message. -/
structure JsonDecoder where
  unmarshalBase : GoString → Except GoString Base
  unmarshal : (k : MsgKind) → GoString → Except GoString k.Struct

/-- The two kinds of error `ParseMessage` returns: the decoder's, and "unknown message
type: <type>". -/
inductive ParseError where
  | json (e : GoString)
  | unknownType (type : String)
deriving DecidableEq, Repr

/-- The function `ParseMessage`. -/
def ParseMessage (json : JsonDecoder) (data : GoString) : Except ParseError Message :=
  match json.unmarshalBase data with
  | .error e => .error (.json e)
  | .ok base =>
    match msgTypes base.Type_ with
    | none => .error (.unknownType base.Type_)
    | some msgType =>
      match json.unmarshal msgType data with
      | .error e => .error (.json e)
      | .ok msg => .ok (Message.ofKind msgType msg)

/-! ## Output correlation manager (`agent_service.go`) -/

/-- The struct `OutputRequest`.  The channel `response`, of capacity one, is the value
it buffers: `none` while it is empty.  The time is in seconds. -/
structure OutputRequest where
  requestID : String
  response : Option TermOutputResponse
  timeout : Nat
deriving DecidableEq, Repr

/-- The struct `TerminalOutputManager`: the map `pendingRequests`. -/
structure TerminalOutputManager where
  pendingRequests : String → Option OutputRequest

/-- The map assignment `tom.pendingRequests[k] = v`. -/
def TerminalOutputManager.set (tom : TerminalOutputManager) (k : String) (v : OutputRequest) :
    TerminalOutputManager :=
  ⟨fun k' => if k' = k then some v else tom.pendingRequests k'⟩

/-- The map deletion `delete(tom.pendingRequests, k)`. -/
def TerminalOutputManager.delete (tom : TerminalOutputManager) (k : String) :
    TerminalOutputManager :=
  ⟨fun k' => if k' = k then none else tom.pendingRequests k'⟩

/-- The method `TerminalOutputManager.HandleOutputResponse`: the non-blocking send
`select { case request.response <- response: default: }` stores the response when the
channel is empty and drops it when the channel is full. -/
def TerminalOutputManager.HandleOutputResponse (tom : TerminalOutputManager)
    (response : TermOutputResponse) : TerminalOutputManager :=
  match tom.pendingRequests response.RequestID with
  | none => tom
  | some request =>
    match request.response with
    | none => tom.set response.RequestID { request with response := some response }
    | some _ => tom

/-- One `WriteMessage` call on a websocket connection: a text frame carrying the JSON
of a message, or a binary frame carrying bytes. -/
inductive WireFrame where
  | text (msg : Message)
  | binary (data : GoString)
deriving DecidableEq, Repr

/-- A frame together with the connection it is written on. -/
structure SentFrame where
  conn : ConnPtr
  frame : WireFrame
deriving DecidableEq, Repr

/-- What `RequestTerminalOutput` takes from outside: the identifier `uuid.New()`
yields, the clock (in seconds), whether `json.Marshal` and `conn.WriteMessage` fail,
and the responses the inbound loop hands to `HandleOutputResponse`, in order, while
the call waits, before the five seconds are over. -/
structure RequestEnv where
  requestID : String
  now : Nat
  marshalFails : Bool
  sendFails : Bool
  arrivals : List TermOutputResponse

/-- The errors of `RequestTerminalOutput`. -/
inductive RequestError where
  | sessionNotFound (terminalId : String)
  | noConnection (terminalId : String)
  | marshal
  | send
  | frontend (error : GoString)
  | timeout
deriving DecidableEq, Repr

/-- The wait `select { case response := <-responseChan: ... case <-time.After(...): }`:
the responses that arrive are handled one by one; the wait ends with the buffered
response as soon as the channel of the request holds one, and with `none` (the timer
fires) when the arrivals are over and the channel is still empty. -/
def awaitResponse (requestID : String) :
    TerminalOutputManager → List TermOutputResponse →
      TerminalOutputManager × Option TermOutputResponse
  | tom, [] => (tom, none)
  | tom, r :: rest =>
    let tom1 := tom.HandleOutputResponse r
    match tom1.pendingRequests requestID with
    | some request =>
      match request.response with
      | some response => (tom1, some response)
      | none => awaitResponse requestID tom1 rest
    | none => awaitResponse requestID tom1 rest

/-- The outcome of `RequestTerminalOutput`: the manager it leaves, the `WriteMessage`
calls it issued, and the returned pair as one value. -/
structure RequestOutcome where
  tom : TerminalOutputManager
  frames : List SentFrame
  result : Except RequestError (List GoString)

/-- The method `TerminalManager.RequestTerminalOutput` on the global manager
`GlobalOutputManager`. -/
def TerminalManager.RequestTerminalOutput (tm : TerminalManager) (tom : TerminalOutputManager)
    (terminalId : String) (lines : Int) (env : RequestEnv) : RequestOutcome :=
  match tm.terminals terminalId with
  | none => ⟨tom, [], .error (.sessionNotFound terminalId)⟩
  | some session =>
    match session.conn with
    | none => ⟨tom, [], .error (.noConnection terminalId)⟩
    | some conn =>
      let requestID := env.requestID
      let tom1 := tom.set requestID
        { requestID := requestID, response := none, timeout := env.now + 5 }
      let request : TermOutputRequest :=
        { Type_ := "TermOutputRequest", RequestID := requestID, Lines := lines }
      if env.marshalFails then ⟨tom1.delete requestID, [], .error .marshal⟩
      else
        let frames := [⟨conn, .text (.outputRequest request)⟩]
        if env.sendFails then ⟨tom1.delete requestID, frames, .error .send⟩
        else
          let waited := awaitResponse requestID tom1 env.arrivals
          match waited.2 with
          | some response =>
            if response.Success then ⟨waited.1.delete requestID, frames, .ok response.Output⟩
            else ⟨waited.1.delete requestID, frames, .error (.frontend response.Error)⟩
          | none => ⟨waited.1.delete requestID, frames, .error .timeout⟩

/-! ## The duplex pump (`terminal_service.go`) -/

/-- The constant `maxChunkSize` of `sendDataToWebSocket`. -/
def maxChunkSize : Nat := 8192

/-- The loop `for i := 0; i < len(data); i += maxChunkSize` of `sendDataToWebSocket`
from the index `i` on: the chunks `data[i:end]` handed to `WriteMessage`, in order, and
whether the loop was left because a write failed.  `writeFails k` tells whether the
write call number `k` fails.  The loop runs at most `len(data)` times, which is what
`fuel` is given. -/
def sendChunks (data : GoString) (writeFails : Nat → Bool) : Nat → Nat → List GoString × Bool
  | 0, _ => ([], false)
  | fuel + 1, i =>
    if i < data.length then
      let end_ := if i + maxChunkSize > data.length then data.length else i + maxChunkSize
      let chunk := (data.drop i).take (end_ - i)
      if writeFails (i / maxChunkSize) then ([chunk], true)
      else
        let rest := sendChunks data writeFails fuel (i + maxChunkSize)
        (chunk :: rest.1, rest.2)
    else ([], false)

/-- The two errors of `sendDataToWebSocket`: "websocket connection is nil" and "failed
to write websocket message". -/
inductive SendError where
  | connNil
  | write
deriving DecidableEq, Repr

/-- The outcome of `sendDataToWebSocket`: the state it leaves, the `WriteMessage` calls
it issued, and the returned error (`none` for nil). -/
structure SendOutcome where
  world : World
  frames : List SentFrame
  err : Option SendError

/-- The method `Terminal.sendDataToWebSocket` for the terminal at address `t`. -/
def sendDataToWebSocket (w : World) (t : TermPtr) (data : GoString)
    (writeFails : Nat → Bool) : SendOutcome :=
  match (w.heap t).conn with
  | none => ⟨w, [], some .connNil⟩
  | some conn =>
    let tm := if data.length > 0 then w.tm.AppendOutput (w.heap t).sessionID data else w.tm
    let sent := sendChunks data writeFails data.length 0
    ⟨{ w with tm := tm }, sent.1.map (fun chunk => ⟨conn, .binary chunk⟩),
      if sent.2 then some .write else none⟩

/-- A resize call on a backend resource, its arguments in the order of the library
signature: `Pty.Resize(width, height)` of the pty, `Session.WindowChange(h, w)` of the
remote session. -/
inductive ResizeCall where
  | ptyResize (width height : Int)
  | windowChange (h w : Int)
deriving DecidableEq, Repr

/-- A resize call together with the terminal whose resource it is issued on. -/
structure BackendResize where
  term : TermPtr
  call : ResizeCall
deriving DecidableEq, Repr

/-- The state the inbound loop acts on: the session state, the global output manager
`GlobalOutputManager`, and the resize calls issued so far, oldest first. -/
structure Pump where
  world : World
  tom : TerminalOutputManager
  resizes : List BackendResize

/-- The method `Terminal.resizeTerminal` for the terminal at address `t`.
`resizeFails` tells whether the backend call returns an error: it only selects the
line that is logged. -/
def resizeTerminal (st : Pump) (t : TermPtr) (rows cols : Int) (resizeFails : Bool) : Pump :=
  let term := st.world.heap t
  let heap : TermPtr → Terminal :=
    fun p => if p = t then { term with rows := rows, cols := cols } else st.world.heap p
  let st1 : Pump := { st with world := { st.world with heap := heap } }
  match term.connType with
  | .ConnectionTypeLocal =>
    if term.localTty then
      let st2 : Pump := { st1 with resizes := st.resizes ++ [⟨t, .ptyResize cols rows⟩] }
      if resizeFails then st2 else st2
    else st1
  | .ConnectionTypeSSH =>
    if term.sshSession then
      let st2 : Pump := { st1 with resizes := st.resizes ++ [⟨t, .windowChange rows cols⟩] }
      if resizeFails then st2 else st2
    else st1
  | .unset => st1

/-- The constant `websocket.TextMessage`. -/
def TextMessage : Int := 1

/-- The constant `websocket.BinaryMessage`. -/
def BinaryMessage : Int := 2

/-- What `t.conn.ReadMessage()` returns: an error, or a message type and its bytes. -/
inductive ReadResult where
  | err
  | msg (msgType : Int) (msg : GoString)
deriving DecidableEq, Repr

/-- One iteration of the loop of `Terminal.readFromWebSocket` for the terminal at
address `t`: the state it leaves, and whether the loop goes on (`true`) or the method
returns (`false`).  `ctxDone` tells whether the context is cancelled, `read` is what
`ReadMessage` returns. -/
def readFromWebSocketStep (json : JsonDecoder) (st : Pump) (t : TermPtr) (ctxDone : Bool)
    (read : ReadResult) (resizeFails : Bool) : Pump × Bool :=
  if ctxDone then (st, false)
  else
    match read with
    | .err => (st, false)
    | .msg msgType msg =>
      if msgType = TextMessage then
        match ParseMessage json msg with
        | .error _ => (st, true)
        | .ok m =>
          match m with
          | .setSessionId typedMsg =>
            ({ st with world := handleSetSessionId st.world t typedMsg.SessionId }, true)
          | .input typedMsg =>
            ({ st with world := writeToTerminal st.world t typedMsg.Data }, true)
          | .resize typedMsg =>
            (resizeTerminal st t typedMsg.Rows typedMsg.Cols resizeFails, true)
          | .pause typedMsg =>
            ({ st with
                world := { st.world with
                  heap := fun p =>
                    if p = t then { st.world.heap t with paused := typedMsg.Pause }
                    else st.world.heap p } }, true)
          | .outputResponse typedMsg =>
            ({ st with tom := st.tom.HandleOutputResponse typedMsg }, true)
          | .outputRequest _ => (st, true)
      else if msgType = BinaryMessage then
        ({ st with world := writeToTerminal st.world t msg }, true)
      else (st, true)

/-! ## Remote-shell authentication (`startSSHConnection`) -/

/-- A value of the map `asset.Config` (`map[string]interface{}`): a string, a number
(`float64`, of which only the integral part is used), or a value of another type. -/
inductive ConfigValue where
  | str (s : GoString)
  | num (n : Int)
  | other
deriving DecidableEq, Repr

/-- The map `asset.Config`. -/
abbrev Config := String → Option ConfigValue

/-- The type assertion `config[key].(string)`: the string, when the key is there and
holds a string. -/
def Config.string (config : Config) (key : String) : Option GoString :=
  match config key with
  | some (.str s) => some s
  | _ => none

/-- An `ssh.Signer`, identified by a number. -/
abbrev Signer := Nat

/-- An `ssh.AuthMethod`: `ssh.Password(p)` or `ssh.PublicKeys(key)`. -/
inductive AuthMethod where
  | Password (password : GoString)
  | PublicKeys (key : Signer)
deriving DecidableEq, Repr

/-- What loading a key takes from outside the repository: `os.ReadFile` (`none` when it
fails) and `ssh.ParsePrivateKey` (`none` when it fails). -/
structure KeyEnv where
  ReadFile : GoString → Option GoString
  ParsePrivateKey : GoString → Option Signer

/-- The method `Terminal.parsePrivateKey`. -/
def parsePrivateKey (env : KeyEnv) (keyData : GoString) : Option Signer :=
  match env.ParsePrivateKey keyData with
  | none => none
  | some signer => some signer

/-- The method `Terminal.loadPrivateKey`. -/
def loadPrivateKey (env : KeyEnv) (path : GoString) : Option Signer :=
  match env.ReadFile path with
  | none => none
  | some key => parsePrivateKey env key

/-- The list `sshConfig.Auth` that `startSSHConnection` builds before it dials. -/
def sshAuthMethods (env : KeyEnv) (config : Config) : List AuthMethod :=
  let auth : List AuthMethod := []
  let auth : List AuthMethod :=
    match config.string "password" with
    | some password => if password ≠ [] then auth ++ [.Password password] else auth
    | none => auth
  let auth : List AuthMethod :=
    match config.string "private_key_path" with
    | some privateKeyPath =>
      if privateKeyPath ≠ [] then
        match loadPrivateKey env privateKeyPath with
        | some key => auth ++ [.PublicKeys key]
        | none => auth
      else auth
    | none => auth
  let auth : List AuthMethod :=
    match config.string "private_key" with
    | some privateKey =>
      if privateKey ≠ [] then
        match parsePrivateKey env privateKey with
        | some key => auth ++ [.PublicKeys key]
        | none => auth
      else auth
    | none => auth
  if auth.length = 0 then auth ++ [.Password []] else auth

/-- The height (number of rows) a resize call hands to the backend. -/
def ResizeCall.height : ResizeCall → Int
  | .ptyResize _ height => height
  | .windowChange h _ => h

/-- The width (number of columns) a resize call hands to the backend. -/
def ResizeCall.width : ResizeCall → Int
  | .ptyResize width _ => width
  | .windowChange _ w => w

/-- The non-empty string a profile supplies under `key`, if it supplies one. -/
def Config.supplied (config : Config) (key : String) : Option GoString :=
  match config.string key with
  | some s => if s ≠ [] then some s else none
  | none => none

/-- The authentication methods a profile yields before the fallback: the supplied
password, the key that loads from the supplied path, the supplied inline key that
parses, in this order. -/
def credentialMethods (env : KeyEnv) (config : Config) : List AuthMethod :=
  ((config.supplied "password").toList.map AuthMethod.Password) ++
  (((config.supplied "private_key_path").bind (loadPrivateKey env)).toList.map
    AuthMethod.PublicKeys) ++
  (((config.supplied "private_key").bind (parsePrivateKey env)).toList.map
    AuthMethod.PublicKeys)

/-- The six discriminants the registry knows. -/
def registeredNames : List String :=
  ["TermResize", "TermInput", "TermPause", "TermOutputRequest", "TermOutputResponse",
    "TermSetSessionId"]

/-- The resize calls `resizeTerminal` issues for a terminal `term` at address `t`: one
on the resource of its kind when that resource is there, none otherwise. -/
def resizeCalls (term : Terminal) (t : TermPtr) (rows cols : Int) : List BackendResize :=
  match term.connType with
  | .ConnectionTypeLocal => if term.localTty then [⟨t, .ptyResize cols rows⟩] else []
  | .ConnectionTypeSSH => if term.sshSession then [⟨t, .windowChange rows cols⟩] else []
  | .unset => []

/-! ## Assets (`pkg/models/asset.go`, `pkg/service/asset_service.go`) -/

/-- The string type `AssetType`: its three named constants, and `other` for every other
value. -/
inductive AssetType where
  | AssetTypeFolder
  | AssetTypeLocal
  | AssetTypeSSH
  | other
deriving DecidableEq, Repr

/-- The fields of the struct `Asset` that the tree operations and `Terminal.Start` read or
write.  A nil `*string` is `none`; `UpdatedAt` is a clock reading. -/
structure Asset where
  ID : String
  Type_ : AssetType
  Config : Omniterm.Config
  ParentID : Option String
  PrevID : Option String
  NextID : Option String
  UpdatedAt : Nat

/-- The struct `AssetService`: the map `s.assets` as the list of its values, each stored
under its own `ID`.  The order of the list is the order in which the loop of `findTail`
or `findHead` visits the map (a call of `MoveAsset` runs at most one of them); Go
leaves that order open, so what holds for every list holds for every order.  The
loops of `DeleteAsset` take their order as an argument. -/
structure AssetService where
  assets : List Asset

/-- The map read `s.assets[id]`: the asset and `ok`, or `none` when the key is absent. -/
def AssetService.lookup (s : AssetService) (id : String) : Option Asset :=
  s.assets.find? (fun a => a.ID = id)

/-- An assignment to fields of the asset stored under `id`, made through its pointer. -/
def AssetService.update (s : AssetService) (id : String) (f : Asset → Asset) :
    AssetService :=
  ⟨s.assets.map (fun a => if a.ID = id then f a else a)⟩

/-- The builtin `delete(s.assets, id)`. -/
def AssetService.remove (s : AssetService) (id : String) : AssetService :=
  ⟨s.assets.filter (fun a => a.ID ≠ id)⟩

/-- The keys of the map `s.assets`. -/
def AssetService.keys (s : AssetService) : List String :=
  s.assets.map (fun a => a.ID)

/-- The method `AssetService.GetAsset`; `none` is the error `asset not found`. -/
def AssetService.GetAsset (s : AssetService) (id : String) : Option Asset :=
  match s.lookup id with
  | none => none
  | some asset => some asset

/-! ## Starting and releasing the backend (`terminal_service.go`) -/

/-- The calls of `Start` that can fail: `pty.New`, `cmd.Start`, `ssh.Dial`,
`client.NewSession`, `session.RequestPty`, the three pipe calls and `session.Shell`. -/
inductive SetupStep where
  | ptyNew
  | cmdStart
  | dial
  | newSession
  | requestPty
  | stdinPipe
  | stdoutPipe
  | stderrPipe
  | shell
deriving DecidableEq, Repr

/-- A host-level resource of a backend. -/
inductive BackendResource where
  | pty
  | process
  | client
  | session
deriving DecidableEq, Repr

/-- One call `Start` issues on the backend libraries: a setup step with its result, or a
`Close` on a resource. -/
inductive SetupEvent where
  | attempt (step : SetupStep) (ok : Bool)
  | close (r : BackendResource)
deriving DecidableEq, Repr

/-- The errors `Start` returns, one for each `fmt.Errorf` of `Start`, `startLocalShell`
and `startSSHConnection`. -/
inductive StartError where
  | getAsset
  | unsupportedType
  | createPty
  | startShell
  | hostNotSpecified
  | usernameNotSpecified
  | connect
  | createSession
  | requestPty
  | stdinPipe
  | stdoutPipe
  | stderrPipe
  | startRemoteShell
deriving DecidableEq, Repr

/-- What one call of `Start` leaves: the terminal, the backend calls issued (oldest
first), whether `readyChan` was closed, and the error returned (`none` for `nil`). -/
structure StartOutcome where
  term : Terminal
  events : List SetupEvent
  ready : Bool
  err : Option StartError
deriving DecidableEq, Repr

/-- The method `Terminal.startLocalShell`.  `fails` tells which library calls fail.  The
shell path, the working directory and the environment are arguments of the command and
do not change which calls are issued. -/
def startLocalShell (t : Terminal) (fails : SetupStep → Bool) : StartOutcome :=
  if fails .ptyNew then ⟨t, [.attempt .ptyNew false], false, some .createPty⟩
  else
    let t := { t with localTty := true }
    let events := [SetupEvent.attempt .ptyNew true]
    if fails .cmdStart then
      ⟨t, events ++ [.attempt .cmdStart false, .close .pty], false, some .startShell⟩
    else
      let t := { t with localCmd := true }
      ⟨t, events ++ [.attempt .cmdStart true], true, none⟩

/-- The method `Terminal.startSSHConnection`.  The address, the user, the timeout and the
list `sshAuthMethods` are arguments of the dial and do not change which calls are
issued. -/
def startSSHConnection (t : Terminal) (asset : Asset) (fails : SetupStep → Bool) :
    StartOutcome :=
  let config := asset.Config
  match config.string "host" with
  | none => ⟨t, [], false, some .hostNotSpecified⟩
  | some host =>
    if host = [] then ⟨t, [], false, some .hostNotSpecified⟩
    else
      match config.string "username" with
      | none => ⟨t, [], false, some .usernameNotSpecified⟩
      | some username =>
        if username = [] then ⟨t, [], false, some .usernameNotSpecified⟩
        else if fails .dial then ⟨t, [.attempt .dial false], false, some .connect⟩
        else
          let t := { t with sshClient := true }
          let events := [SetupEvent.attempt .dial true]
          if fails .newSession then
            ⟨t, events ++ [.attempt .newSession false, .close .client], false,
              some .createSession⟩
          else
            let t := { t with sshSession := true }
            let events := events ++ [.attempt .newSession true]
            if fails .requestPty then
              ⟨t, events ++ [.attempt .requestPty false, .close .session, .close .client],
                false, some .requestPty⟩
            else
              let events := events ++ [.attempt .requestPty true]
              if fails .stdinPipe then
                ⟨t, events ++ [.attempt .stdinPipe false, .close .session, .close .client],
                  false, some .stdinPipe⟩
              else
                let t := { t with sshStdin := true }
                let events := events ++ [.attempt .stdinPipe true]
                if fails .stdoutPipe then
                  ⟨t, events ++
                    [.attempt .stdoutPipe false, .close .session, .close .client],
                    false, some .stdoutPipe⟩
                else
                  let events := events ++ [.attempt .stdoutPipe true]
                  if fails .stderrPipe then
                    ⟨t, events ++
                      [.attempt .stderrPipe false, .close .session, .close .client],
                      false, some .stderrPipe⟩
                  else
                    let events := events ++ [.attempt .stderrPipe true]
                    if fails .shell then
                      ⟨t, events ++
                        [.attempt .shell false, .close .session, .close .client],
                        false, some .startRemoteShell⟩
                    else ⟨t, events ++ [.attempt .shell true], true, none⟩

/-- The method `Terminal.Start` for a terminal `t` over the asset store `s`. -/
def Start (s : AssetService) (t : Terminal) (fails : SetupStep → Bool) : StartOutcome :=
  match s.GetAsset t.assetID with
  | none => ⟨t, [], false, some .getAsset⟩
  | some asset =>
    match asset.Type_ with
    | .AssetTypeLocal => startLocalShell { t with connType := .ConnectionTypeLocal } fails
    | .AssetTypeSSH =>
      startSSHConnection { t with connType := .ConnectionTypeSSH } asset fails
    | _ => ⟨t, [], false, some .unsupportedType⟩

/-- The resource a setup step hands over when it succeeds. -/
def SetupStep.acquires : SetupStep → Option BackendResource
  | .ptyNew => some .pty
  | .cmdStart => some .process
  | .dial => some .client
  | .newSession => some .session
  | _ => none

/-- The resources held and not yet closed after a sequence of backend calls, starting
from the resources `held`. -/
def openResources : List BackendResource → List SetupEvent → List BackendResource
  | held, [] => held
  | held, .attempt step true :: rest => openResources (held ++ step.acquires.toList) rest
  | held, .attempt _ false :: rest => openResources held rest
  | held, .close r :: rest => openResources (held.erase r) rest

/-- The setup steps a sequence of backend calls attempted, in order. -/
def attempts : List SetupEvent → List SetupStep
  | [] => []
  | .attempt step _ :: rest => step :: attempts rest
  | .close _ :: rest => attempts rest

/-- One release call of `cleanup`: `Process.Kill`, `Wait`, the `Close` of the pty, of
the session, of the client. -/
inductive ReleaseCall where
  | processKill
  | processWait
  | ttyClose
  | sessionClose
  | clientClose
deriving DecidableEq, Repr

/-- The method `Terminal.cleanup`, with the release calls issued so far (oldest first).
It tests the resource fields and assigns none of them; a failing call is only
logged. -/
def cleanup (t : Terminal) (calls : List ReleaseCall) : Terminal × List ReleaseCall :=
  match t.connType with
  | .ConnectionTypeLocal =>
    let calls := if t.localCmd then calls ++ [.processKill, .processWait] else calls
    let calls := if t.localTty then calls ++ [.ttyClose] else calls
    (t, calls)
  | .ConnectionTypeSSH =>
    let calls := if t.sshSession then calls ++ [.sessionClose] else calls
    let calls := if t.sshClient then calls ++ [.clientClose] else calls
    (t, calls)
  | .unset => (t, calls)

/-! ## Masking (`pkg/utils/mask.go`) -/

/-- The function `MaskSensitiveString`. -/
def MaskSensitiveString (s : GoString) : GoString :=
  if s.length > 8 then s.take 4 ++ ascii "******" ++ s.drop (s.length - 4)
  else if s ≠ [] then ascii "****"
  else []

/-! ## Chat model selection (`model_service.go`, `agent_service.go`) -/

/-- The struct `ModelConfig`. -/
structure ModelConfig where
  ID : GoString
  Provider : GoString
  Model : GoString
  Name : GoString
  BaseUrl : GoString
  ApiKey : GoString
  Extra : Config

/-- The method `ModelService.GetModelConfig`.  `loaded` is the result of
`models.LoadModels` (`none` when it fails).  The result is `.error ()` for a load error,
`.ok none` for the pair `nil, nil` the source returns when no model matches, and
`.ok (some mm)` for the first model whose `Name` or `Model` is `modelName`. -/
def GetModelConfig (loaded : Option (List ModelConfig)) (modelName : GoString) :
    Except Unit (Option ModelConfig) :=
  match loaded with
  | none => .error ()
  | some currentModels =>
    .ok (currentModels.find? (fun mm => mm.Name = modelName || mm.Model = modelName))

/-- The struct `ark.ChatModelConfig` as `getChatModel` fills it; the time-out is in
seconds. -/
structure ChatModelConfig where
  BaseURL : GoString
  Region : GoString
  Timeout : Nat
  RetryTimes : Nat
  APIKey : GoString
  Model : GoString
deriving DecidableEq, Repr

/-- The errors `getChatModel` returns. -/
inductive ChatModelError where
  | selectedModelRequired
  | getModelConfig
  | createModel
  | unsupportedProvider
deriving DecidableEq, Repr

/-- How a call of `getChatModel` ends: with a chat model (identified by the
configuration it was made from), with an error, or with a run-time panic, on the read
of a field through a nil `*ModelConfig` or on the failed type assertion
`Extra["region"].(string)`. -/
inductive ChatModelOutcome where
  | model (cfg : ChatModelConfig)
  | err (e : ChatModelError)
  | nilDereference
  | assertionPanic
deriving DecidableEq, Repr

/-- The method `AIAgentService.getChatModel` for the query parameter `selectedModel`.
`newChatModelFails` tells whether `ark.NewChatModel` fails. -/
def getChatModel (loaded : Option (List ModelConfig)) (selectedModel : GoString)
    (newChatModelFails : Bool) : ChatModelOutcome :=
  if selectedModel = [] then .err .selectedModelRequired
  else
    match GetModelConfig loaded selectedModel with
    | .error _ => .err .getModelConfig
    | .ok none => .nilDereference
    | .ok (some modelConfig) =>
      if modelConfig.Provider = ascii "ark" then
        match modelConfig.Extra.string "region" with
        | none => .assertionPanic
        | some region =>
          let cfg : ChatModelConfig :=
            { BaseURL := modelConfig.BaseUrl, Region := region, Timeout := 120,
              RetryTimes := 3, APIKey := modelConfig.ApiKey, Model := modelConfig.Model }
          if newChatModelFails then .err .createModel else .model cfg
      else .err .unsupportedProvider

/-! ## The asset tree (`asset_service.go`) -/

/-- The method `AssetService.findTail`: of the assets under `parentID` whose `NextID` is
nil, the one the loop visits last.  (The test on the two parent pointers, both nil or
both set and equal, is equality of the optional ids.) -/
def AssetService.findTail (s : AssetService) (parentID : Option String) : Option Asset :=
  s.assets.foldl
    (fun tail a =>
      if a.ParentID = parentID then
        if a.NextID = none then some a else tail
      else tail)
    none

/-- The method `AssetService.findHead`: the first asset the loop visits that is under
`parentID` and whose `PrevID` is nil. -/
def AssetService.findHead (s : AssetService) (parentID : Option String) : Option Asset :=
  s.assets.find? (fun a => a.ParentID = parentID && a.PrevID = none)

/-- The method `AssetService.detach` for the pointer to the asset stored under `id`.
Every field is read when its statement runs, so an asset that is its own neighbour is
handled as in the source. -/
def AssetService.detach (s : AssetService) (id : String) : AssetService :=
  match s.lookup id with
  | none => s
  | some a =>
    let s1 :=
      match a.PrevID with
      | some prevID =>
        match s.lookup prevID with
        | some _ => s.update prevID (fun prev => { prev with NextID := a.NextID })
        | none => s
      | none => s
    match s1.lookup id with
    | none => s1
    | some a1 =>
      let s2 :=
        match a1.NextID with
        | some nextID =>
          match s1.lookup nextID with
          | some _ => s1.update nextID (fun next => { next with PrevID := a1.PrevID })
          | none => s1
        | none => s1
      s2.update id (fun a => { a with PrevID := none, NextID := none })

/-- The method `AssetService.insertAppend` for the pointer to the asset stored under
`id`. -/
def AssetService.insertAppend (s : AssetService) (id : String) : AssetService :=
  match s.lookup id with
  | none => s
  | some a =>
    match s.findTail a.ParentID with
    | some tail =>
      (s.update tail.ID (fun tail => { tail with NextID := some a.ID })).update id
        (fun a => { a with PrevID := some tail.ID })
    | none => s

/-- The struct `MoveAssetRequest`. -/
structure MoveAssetRequest where
  NewParentID : Option String
  TargetSiblingID : Option String
  Position : GoString
deriving DecidableEq, Repr

/-- The library function `strings.ToLower` on the ASCII letters.  (Go also lowers
letters outside ASCII; the only ASCII letters it produces from them are `i` and `k`,
which none of the words `MoveAsset` compares the result with contains.) -/
def ToLower (s : GoString) : GoString :=
  s.map (fun b => if 0x41 ≤ b ∧ b ≤ 0x5A then b + 0x20 else b)

/-- How the walk up the ancestors of the new parent ends: at the moved asset, at the
end of the chain (a root, a missing asset or an id seen before), or not within the
number of steps given. -/
inductive WalkResult where
  | found
  | done
  | outOfFuel
deriving DecidableEq, Repr

/-- The loop `for curID != nil` of `MoveAsset`, entered with `curID` pointing to `cur`
and the set `visited`. -/
def AssetService.ancestorWalk (s : AssetService) (id : String) :
    Nat → List String → String → WalkResult
  | 0, _, _ => .outOfFuel
  | fuel + 1, visited, cur =>
    if cur ∈ visited then .done
    else if cur = id then .found
    else
      match s.lookup cur with
      | none => .done
      | some curAsset =>
        match curAsset.ParentID with
        | none => .done
        | some parentID => ancestorWalk s id fuel (cur :: visited) parentID

/-- The errors `MoveAsset` returns. -/
inductive MoveError where
  | notFound
  | intoItself
  | intoDescendant
  | targetNotFound
  | targetNotSameParent
  | invalidPosition
  | save
deriving DecidableEq, Repr

/-- How a call of `MoveAsset` ends: it returns the pointer to the asset stored under
`a`, it returns an error, or its ancestor loop did not end. -/
inductive MoveResult where
  | ok (a : String)
  | err (e : MoveError)
  | outOfFuel
deriving DecidableEq, Repr

/-- The statements of `MoveAsset` that link the detached asset `id`, now under
`parentID`, at the lowered position `pos` relative to `ref`; `none` for the error
`invalid position`. -/
def AssetService.link (s : AssetService) (id : String) (parentID : Option String)
    (ref : Option Asset) (pos : GoString) : Option AssetService :=
  if pos = ascii "before" then
    match ref with
    | none =>
      match s.findHead parentID with
      | some head =>
        some ((s.update head.ID (fun head => { head with PrevID := some id })).update id
          (fun a => { a with NextID := some head.ID }))
      | none => some s
    | some ref =>
      let s1 :=
        match ref.PrevID with
        | some prevID =>
          match s.lookup prevID with
          | some prev =>
            (s.update prev.ID (fun prev => { prev with NextID := some id })).update id
              (fun a => { a with PrevID := some prev.ID })
          | none => s
        | none => s
      some ((s1.update id (fun a => { a with NextID := some ref.ID })).update ref.ID
        (fun ref => { ref with PrevID := some id }))
  else if pos = ascii "after" then
    match ref with
    | none => some (s.insertAppend id)
    | some ref =>
      let s1 :=
        match ref.NextID with
        | some nextID =>
          match s.lookup nextID with
          | some next =>
            (s.update next.ID (fun next => { next with PrevID := some id })).update id
              (fun a => { a with NextID := some next.ID })
          | none => s
        | none => s
      some ((s1.update id (fun a => { a with PrevID := some ref.ID })).update ref.ID
        (fun ref => { ref with NextID := some id }))
  else if pos = ascii "append" ∨ pos = [] then some (s.insertAppend id)
  else none

/-- The method `AssetService.MoveAsset`.  `now` is the clock reading and `saveFails`
tells whether `saveAssets` fails.  The store is returned as the call leaves it in
memory, also when an error is returned.  Where the source reads `a.ParentID` after the
assignment `a.ParentID = req.NewParentID`, the model writes `req.NewParentID`. -/
def AssetService.MoveAsset (s : AssetService) (id : String) (req : MoveAssetRequest)
    (now : Nat) (saveFails : Bool) : AssetService × MoveResult :=
  match s.lookup id with
  | none => (s, .err .notFound)
  | some _ =>
    let check : Option MoveResult :=
      match req.NewParentID with
      | none => none
      | some newParentID =>
        if newParentID = id then some (.err .intoItself)
        else
          match s.ancestorWalk id (s.assets.length + 1) [] newParentID with
          | .found => some (.err .intoDescendant)
          | .done => none
          | .outOfFuel => some .outOfFuel
    match check with
    | some r => (s, r)
    | none =>
      let s := (s.detach id).update id (fun a => { a with ParentID := req.NewParentID })
      let target : Except MoveError (Option Asset) :=
        match req.TargetSiblingID with
        | none => .ok none
        | some targetSiblingID =>
          match s.lookup targetSiblingID with
          | none => .error .targetNotFound
          | some ref =>
            if ref.ParentID ≠ req.NewParentID then .error .targetNotSameParent
            else .ok (some ref)
      match target with
      | .error e => (s, .err e)
      | .ok ref =>
        match s.link id req.NewParentID ref (ToLower req.Position) with
        | none => (s, .err .invalidPosition)
        | some s =>
          let s := s.update id (fun a => { a with UpdatedAt := now })
          if saveFails then (s, .err .save) else (s, .ok id)

/-- The errors `DeleteAsset` returns. -/
inductive DeleteError where
  | notFound
  | save
deriving DecidableEq, Repr

/-- The loop `for cid, child := range s.assets` of `DeleteAsset(id)` over the keys still
to visit.  `del` is the recursive call; a key removed before the loop reaches it is not
visited.  `none` when a recursive call does not return. -/
def AssetService.deleteChildren (del : AssetService → String → Option AssetService)
    (id : String) : List String → AssetService → Option AssetService
  | [], s => some s
  | cid :: rest, s =>
    match s.lookup cid with
    | none => deleteChildren del id rest s
    | some child =>
      if child.ParentID = some id then
        match del s cid with
        | some s1 => deleteChildren del id rest s1
        | none => none
      else deleteChildren del id rest s

/-- The method `AssetService.DeleteAsset`, with the depth `fuel` the recursion may reach:
the store left and the error returned (`none` for `nil`), or `none` when the recursion
goes deeper.  `saveFails` tells whether `saveAssets` fails, and `order st id` is the
order in which the `range` loop of the call on `id` visits the keys of the map in the
state `st` (Go chooses it afresh for every loop). -/
def AssetService.DeleteAsset (saveFails : Bool) (order : AssetService → String → List String) :
    Nat → AssetService → String → Option (AssetService × Option DeleteError)
  | 0, _, _ => none
  | fuel + 1, s, id =>
    match s.lookup id with
    | none => some (s, some .notFound)
    | some _ =>
      let s1 := s.detach id
      match AssetService.deleteChildren
          (fun st cid => (DeleteAsset saveFails order fuel st cid).map Prod.fst) id
          (order s1 id) s1 with
      | none => none
      | some s2 => some (s2.remove id, if saveFails then some .save else none)

/-- The parent relation of a store: `x` is stored and its `ParentID` points to `y`. -/
def ParentOf (s : AssetService) (x y : String) : Prop :=
  ∃ a, s.lookup x = some a ∧ a.ParentID = some y

/-- The parent relation has no cycle: no asset is among its own ancestors. -/
def Acyclic (s : AssetService) : Prop :=
  ∀ x, ¬ Relation.TransGen (ParentOf s) x x

/-- The link condition on one asset `a` of the store: the asset its `NextID` names is
stored, has the parent of `a`, points back to `a` with `PrevID` and is not `a`; and the
same for `PrevID` with `NextID`. -/
def AssetService.linkedAt (s : AssetService) (a : Asset) : Bool :=
  (match a.NextID with
    | none => true
    | some n =>
      match s.lookup n with
      | none => false
      | some b => b.ParentID = a.ParentID && b.PrevID = some a.ID && n ≠ a.ID) &&
  (match a.PrevID with
    | none => true
    | some p =>
      match s.lookup p with
      | none => false
      | some b => b.ParentID = a.ParentID && b.NextID = some a.ID && p ≠ a.ID)

/-- The sibling links of the store form well-formed doubly linked lists. -/
def AssetService.wellLinked (s : AssetService) : Bool :=
  s.assets.all (fun a => s.linkedAt a)

/-- A byte string made of white-space runes only (the empty string included). -/
def WhitespaceOnly (s : GoString) : Prop :=
  ∃ ws : List GoString, (∀ e ∈ ws, e ∈ spaceEncodings) ∧ s = ws.flatten

/-- What holds of a call of `Start` that returned an error: no resource it acquired is
still open, readiness was not signalled, and no setup step was attempted twice. -/
def StartOutcome.released (o : StartOutcome) : Prop :=
  openResources [] o.events = [] ∧ o.ready = false ∧ (attempts o.events).Nodup

/-- An asset without its sibling links. -/
def Asset.unlink (a : Asset) : Asset :=
  { a with PrevID := none, NextID := none }

/-- The asset stored under `x`, without its sibling links. -/
def AssetService.node (s : AssetService) (x : String) : Option Asset :=
  (s.lookup x).map Asset.unlink

/-- The `ParentID` of the asset stored under `x`. -/
def AssetService.parents (s : AssetService) (x : String) : Option (Option String) :=
  (s.lookup x).map (fun a => a.ParentID)

/-- The store `t` is the store `s` without the assets whose key satisfies `D`, up to
the sibling links of the assets that are left. -/
def Removed (s t : AssetService) (D : String → Prop) : Prop :=
  (∀ k, D k → t.lookup k = none) ∧ (∀ k, ¬ D k → t.node k = s.node k)

/-- The text `out` is the text `s` with the occurrences of `old` cut out that a single
pass from left to right finds without overlap: `s` is a sequence of pieces, each
followed by `old`, and a last part; a piece followed by `old` holds `old` only at its
end, the last part holds no `old`, and `out` is the pieces and the last part joined.
(An occurrence of `old` that the cuts bring together stays in `out`.) -/
def CutsOut (old s out : GoString) : Prop :=
  ∃ pieces : List GoString, ∃ last : GoString,
    s = (pieces.map (fun p => p ++ old)).flatten ++ last ∧
    (∀ p ∈ pieces, ∀ a b, p ++ old = a ++ old ++ b → b = []) ∧
    ¬ old <:+: last ∧
    out = pieces.flatten ++ last

/-! ## Sample states -/

/-- A registry holding one fresh session `s1` of asset `a1`. -/
def tmOne : TerminalManager := TerminalManager.empty.RegisterTerminal "s1" "a1"

/-- A started local terminal of asset `a1` whose session identifier is `s1`. -/
def termLocal : Terminal :=
  { conn := some 1, assetID := "a1", sessionID := "s1", paused := false,
    localCmd := true, localTty := true, sshClient := false, sshSession := false,
    sshStdin := false, connType := .ConnectionTypeLocal, rows := 24, cols := 80 }

/-- A registry whose session `s1` has the history `x`, the last command `ls`, the sink
`1` and the terminal at address `0` attached. -/
def tmBusy : TerminalManager :=
  TerminalManager.empty.set "s1"
    { ID := "s1", AssetID := "a1", Output := [ascii "x"], LastCmd := ascii "ls",
      conn := some 1, term := some 0 }

/-- The state in which `tmBusy` is the registry and every address holds `termLocal`. -/
def worldBusy : World := { tm := tmBusy, heap := fun _ => termLocal, writes := [] }

/-- The call `exec("s1", "echo hi", 30)`. -/
def paramsEchoHi : ExecCommandInput :=
  { TerminalId := "s1", Command := ascii "echo hi", TimeoutSeconds := 30 }

/-- The backend echoes `hi`, a line feed, the marker and `0` in one chunk before the
first poll, and nothing afterwards. -/
def envEchoHi : ExecEnv :=
  { polls := [[ascii "hi\n" ++ marker ++ ascii "0"]], beforeFinal := [],
    afterInterrupt := [] }

/-- The backend echoes the marker followed by the digits of `2^63` before the first
poll. -/
def envHuge : ExecEnv :=
  { polls := [[marker ++ ascii "9223372036854775808"]], beforeFinal := [],
    afterInterrupt := [] }

/-- The backend stays silent for two polls and prints `late` after the interrupt. -/
def envSilent : ExecEnv :=
  { polls := [[], []], beforeFinal := [], afterInterrupt := [ascii "late"] }

/-- The output manager with no pending request. -/
def tomEmpty : TerminalOutputManager := ⟨fun _ => none⟩

/-- The output manager in which the request `r1` is pending, its channel empty. -/
def tomPending : TerminalOutputManager :=
  tomEmpty.set "r1" { requestID := "r1", response := none, timeout := 5 }

/-- A successful response to the request `r1` carrying one line. -/
def respOk : TermOutputResponse :=
  { Type_ := "TermOutputResponse", RequestID := "r1", Output := [ascii "line"],
    Success := true, Error := [] }

/-- A failed response to the request `r1`. -/
def respFail : TermOutputResponse :=
  { Type_ := "TermOutputResponse", RequestID := "r1", Output := [],
    Success := false, Error := ascii "no buffer" }

/-- The request gets the identifier `r1`, is sent, and no response arrives in time. -/
def reqEnvTimeout : RequestEnv :=
  { requestID := "r1", now := 0, marshalFails := false, sendFails := false, arrivals := [] }

/-- The request gets the identifier `r1`, is sent, and `respOk` arrives in time. -/
def reqEnvAnswered : RequestEnv :=
  { requestID := "r1", now := 0, marshalFails := false, sendFails := false,
    arrivals := [respOk] }

/-- A text frame announcing the input `ls`. -/
def frameInput : GoString := ascii "\x7b\"type\":\"TermInput\",\"data\":\"ls\"\x7d"

/-- A text frame with a discriminant that is not registered. -/
def frameUnknown : GoString := ascii "\x7b\"type\":\"Nope\"\x7d"

/-- A decoder that knows the frames `frameInput`, `frameUnknown` and the empty object,
and rejects every other text. -/
def jsonSample : JsonDecoder where
  unmarshalBase := fun data =>
    if data = frameInput then .ok ⟨"TermInput"⟩
    else if data = frameUnknown then .ok ⟨"Nope"⟩
    else if data = ascii "\x7b\x7d" then .ok ⟨""⟩
    else .error (ascii "invalid character")
  unmarshal := fun k data =>
    match k with
    | .TermInput =>
      if data = frameInput then .ok { Type_ := "TermInput", Data := ascii "ls" }
      else .error (ascii "invalid character")
    | _ => .error (ascii "invalid character")

/-- A started remote-shell terminal of asset `a2` whose session identifier is `s2`. -/
def termSSH : Terminal :=
  { conn := some 2, assetID := "a2", sessionID := "s2", paused := false,
    localCmd := false, localTty := false, sshClient := true, sshSession := true,
    sshStdin := true, connType := .ConnectionTypeSSH, rows := 24, cols := 80 }

/-- The state of the inbound loop over `worldBusy`, nothing pending, no resize yet. -/
def pumpBusy : Pump := { world := worldBusy, tom := tomEmpty, resizes := [] }

/-- The state of the inbound loop in which every address holds `termSSH`. -/
def pumpSSH : Pump :=
  { world := { tm := tmBusy, heap := fun _ => termSSH, writes := [] }, tom := tomEmpty,
    resizes := [] }

/-- A key environment in which no file can be read and no key parses. -/
def keyEnvNone : KeyEnv := { ReadFile := fun _ => none, ParsePrivateKey := fun _ => none }

/-- A key environment in which the file `id` holds the text `k1`, and the texts `k1`
and `k2` parse to the signers `1` and `2`. -/
def keyEnvTwo : KeyEnv :=
  { ReadFile := fun path => if path = ascii "id" then some (ascii "k1") else none,
    ParsePrivateKey := fun key =>
      if key = ascii "k1" then some 1 else if key = ascii "k2" then some 2 else none }

/-- A profile that supplies a key path and nothing else. -/
def configKeyPath : Config :=
  fun key => if key = "private_key_path" then some (.str (ascii "missing")) else none

/-- A profile that supplies a password, a key path and an inline key. -/
def configFull : Config :=
  fun key =>
    if key = "password" then some (.str (ascii "pw"))
    else if key = "private_key_path" then some (.str (ascii "id"))
    else if key = "private_key" then some (.str (ascii "k2"))
    else none

/-- One configured model of the provider `ark`. -/
def modelArk : ModelConfig :=
  { ID := ascii "m1", Provider := ascii "ark", Model := ascii "doubao-pro",
    Name := ascii "Doubao", BaseUrl := ascii "https://ark.example/api",
    ApiKey := ascii "sk-0123456789",
    Extra := fun k => if k = "region" then some (.str (ascii "cn-beijing")) else none }

/-- A store with the local asset `a1` and, after it, the remote asset `a2` with host and
user name. -/
def storeHosts : AssetService :=
  ⟨[{ ID := "a1", Type_ := .AssetTypeLocal, Config := fun _ => none, ParentID := none,
      PrevID := none, NextID := some "a2", UpdatedAt := 0 },
    { ID := "a2", Type_ := .AssetTypeSSH,
      Config := fun k =>
        if k = "host" then some (.str (ascii "10.0.0.7"))
        else if k = "username" then some (.str (ascii "root"))
        else none,
      ParentID := none, PrevID := some "a1", NextID := none, UpdatedAt := 0 }]⟩

/-- A terminal as `NewTerminal` makes it for the asset `assetID`: no backend resource,
no connection type yet, 24 rows and 80 columns. -/
def termFresh (assetID : String) : Terminal :=
  { conn := some 1, assetID := assetID, sessionID := "temp-1", paused := false,
    localCmd := false, localTty := false, sshClient := false, sshSession := false,
    sshStdin := false, connType := .unset, rows := 24, cols := 80 }

/-- A store with two root assets linked in order: the empty folder `f`, then the local
asset `x`. -/
def storeFolder : AssetService :=
  ⟨[{ ID := "f", Type_ := .AssetTypeFolder, Config := fun _ => none, ParentID := none,
      PrevID := none, NextID := some "x", UpdatedAt := 0 },
    { ID := "x", Type_ := .AssetTypeLocal, Config := fun _ => none, ParentID := none,
      PrevID := some "f", NextID := none, UpdatedAt := 0 }]⟩

/-- The parent and the two sibling links of the asset stored under `id`. -/
def AssetService.linksOf (s : AssetService) (id : String) :
    Option (Option String × Option String × Option String) :=
  (s.lookup id).map (fun a => (a.ParentID, a.PrevID, a.NextID))

/-- A store with the roots `r` and `z`, the children `a` and `b` of `r`, and the child
`c` of `a`; the siblings are linked in this order. -/
def storeTree : AssetService :=
  ⟨[{ ID := "r", Type_ := .AssetTypeFolder, Config := fun _ => none, ParentID := none,
      PrevID := none, NextID := some "z", UpdatedAt := 0 },
    { ID := "a", Type_ := .AssetTypeFolder, Config := fun _ => none, ParentID := some "r",
      PrevID := none, NextID := some "b", UpdatedAt := 0 },
    { ID := "b", Type_ := .AssetTypeLocal, Config := fun _ => none, ParentID := some "r",
      PrevID := some "a", NextID := none, UpdatedAt := 0 },
    { ID := "c", Type_ := .AssetTypeLocal, Config := fun _ => none, ParentID := some "a",
      PrevID := none, NextID := none, UpdatedAt := 0 },
    { ID := "z", Type_ := .AssetTypeFolder, Config := fun _ => none, ParentID := none,
      PrevID := some "r", NextID := none, UpdatedAt := 0 }]⟩

/-- The depth of the assets of `storeTree`. -/
def depthTree (x : String) : Nat :=
  if x = "c" then 2 else if x = "a" ∨ x = "b" then 1 else 0

/-- The backend stays silent during both polls and echoes the marker and `0` after the
deadline, before the read that follows the loop. -/
def envLate : ExecEnv :=
  { polls := [[], []], beforeFinal := [marker ++ ascii "0"], afterInterrupt := [] }

/-- The marker with the marker inserted after its first 15 bytes. -/
def nestedMarker : GoString :=
  ascii "__OMNITERM_EXIT" ++ marker ++ ascii "_CODE__"

/-- The backend prints `nestedMarker` before the first poll and nothing afterwards. -/
def envNested : ExecEnv :=
  { polls := [[nestedMarker]], beforeFinal := [], afterInterrupt := [] }

/-! ## Theorems -/

theorem outputCap_eq : outputCap = 1000000 := by
  unfold outputCap
  rfl

@[simp] theorem set_same (tm : TerminalManager) (k : String) (v : TerminalSession) :
    (tm.set k v).terminals k = some v := by
  simp [TerminalManager.set]

theorem set_other (tm : TerminalManager) (k k' : String) (v : TerminalSession) (h : k' ≠ k) :
    (tm.set k v).terminals k' = tm.terminals k' := by
  simp [TerminalManager.set, h]

@[simp] theorem delete_same (tm : TerminalManager) (k : String) :
    (tm.delete k).terminals k = none := by
  simp [TerminalManager.delete]

theorem delete_other (tm : TerminalManager) (k k' : String) (h : k' ≠ k) :
    (tm.delete k).terminals k' = tm.terminals k' := by
  simp [TerminalManager.delete, h]

/-- The history one `AppendOutput` leaves: the last `outputCap` chunks of the old
history followed by the new chunk. -/
theorem AppendOutput_lookup (tm : TerminalManager) (id : String) (s : TerminalSession)
    (c : GoString) (h : tm.terminals id = some s) :
    (tm.AppendOutput id c).terminals id =
      some { s with
        Output := (s.Output ++ [c]).drop ((s.Output ++ [c]).length - outputCap) } := by
  unfold TerminalManager.AppendOutput
  rw [h]
  simp only [set_same]
  by_cases hc : (s.Output ++ [c]).length > outputCap
  · rw [if_pos hc]
  · rw [if_neg hc]
    have h0 : (s.Output ++ [c]).length - outputCap = 0 := by omega
    rw [h0, List.drop_zero]

/-- The history a run of `AppendOutput` calls leaves: the last `outputCap` chunks of
the old history followed by the appended chunks, all other fields untouched. -/
theorem appendAll_lookup (chunks : List GoString) :
    ∀ (tm : TerminalManager) (id : String) (s : TerminalSession),
      tm.terminals id = some s → s.Output.length ≤ outputCap →
      (tm.appendAll id chunks).terminals id =
        some { s with
          Output := (s.Output ++ chunks).drop ((s.Output ++ chunks).length - outputCap) } := by
  induction chunks with
  | nil =>
    intro tm id s h hle
    have h0 : (s.Output ++ ([] : List GoString)).length - outputCap = 0 := by
      simp only [List.append_nil]; omega
    simp only [TerminalManager.appendAll, List.foldl_nil, h]
    rw [h0, List.drop_zero, List.append_nil]
  | cons c cs ih =>
    intro tm id s h hle
    have h1 := AppendOutput_lookup tm id s c h
    have hlen : ((s.Output ++ [c]).drop ((s.Output ++ [c]).length - outputCap)).length
        ≤ outputCap := by
      rw [List.length_drop]; omega
    have h2 := ih (tm.AppendOutput id c) id _ h1 hlen
    simp only [TerminalManager.appendAll, List.foldl_cons] at h2 ⊢
    rw [h2]
    congr 2
    have hk : (s.Output ++ [c]).length - outputCap ≤ (s.Output ++ [c]).length := by omega
    rw [← List.drop_append_of_le_length hk, List.drop_drop]
    simp only [List.append_assoc, List.singleton_append, List.length_append, List.length_drop,
      List.length_cons, List.length_nil]
    congr 1
    simp only [List.length_append, List.length_cons, List.length_nil] at hk
    omega

/-- Claim C1: starting from a registered session with an empty history, after every
call of a sequence of `AppendOutput` calls (after the first `k` chunks, for every `k`)
the session is still registered and its retained history holds at most `1000000`
chunks. -/
theorem C1_history_length_le_cap (tm : TerminalManager) (id : String) (s : TerminalSession)
    (chunks : List GoString) (k : Nat)
    (hreg : tm.terminals id = some s) (hempty : s.Output = []) :
    ∃ s', (tm.appendAll id (chunks.take k)).terminals id = some s' ∧
      s'.Output.length ≤ 1000000 := by
  rw [← outputCap_eq]
  have hle : s.Output.length ≤ outputCap := by rw [hempty]; exact Nat.zero_le _
  refine ⟨_, appendAll_lookup (chunks.take k) tm id s hreg hle, ?_⟩
  show ((s.Output ++ chunks.take k).drop _).length ≤ outputCap
  rw [List.length_drop]
  omega

theorem C1_history_length_le_cap_witness :
    ∃ s', (tmOne.appendAll "s1" ([ascii "a", ascii "b", ascii "c"].take 2)).terminals "s1"
        = some s' ∧ s'.Output.length ≤ 1000000 :=
  C1_history_length_le_cap tmOne "s1"
    { ID := "s1", AssetID := "a1", Output := [], LastCmd := [], conn := none, term := none }
    [ascii "a", ascii "b", ascii "c"] 2 rfl rfl

/-- Claim C2 (FIFO eviction): after appending the chunks `c1..cn` one by one to a
registered session whose history was empty, the retained history is exactly the last
`min n 1000000` chunks of `c1..cn`, in their original order and unaltered. -/
theorem C2_fifo_eviction (tm : TerminalManager) (id : String) (s : TerminalSession)
    (chunks : List GoString)
    (hreg : tm.terminals id = some s) (hempty : s.Output = []) :
    ∃ s', (tm.appendAll id chunks).terminals id = some s' ∧
      s'.Output = chunks.drop (chunks.length - min chunks.length 1000000) := by
  rw [← outputCap_eq]
  have hle : s.Output.length ≤ outputCap := by rw [hempty]; exact Nat.zero_le _
  refine ⟨_, appendAll_lookup chunks tm id s hreg hle, ?_⟩
  show (s.Output ++ chunks).drop _ = _
  rw [hempty, List.nil_append]
  congr 1
  show chunks.length - outputCap = chunks.length - min chunks.length outputCap
  omega

theorem C2_fifo_eviction_witness :
    ∃ s', (tmOne.appendAll "s1" [ascii "a", ascii "b", ascii "c"]).terminals "s1" = some s' ∧
      s'.Output = [ascii "a", ascii "b", ascii "c"].drop
        ([ascii "a", ascii "b", ascii "c"].length
          - min [ascii "a", ascii "b", ascii "c"].length 1000000) :=
  C2_fifo_eviction tmOne "s1"
    { ID := "s1", AssetID := "a1", Output := [], LastCmd := [], conn := none, term := none }
    [ascii "a", ascii "b", ascii "c"] rfl rfl

/-! ### Registry operations -/

/-- Migration with `MigrateSession` between distinct identifiers when the old entry exists. -/
theorem MigrateSession_distinct (tm : TerminalManager) (A B profileId : String)
    (sink : Option ConnPtr) (hAB : A ≠ B) (s : TerminalSession)
    (hs : tm.terminals A = some s) :
    (tm.MigrateSession A B profileId sink).terminals B =
        some { ID := B, AssetID := profileId, Output := s.Output, LastCmd := s.LastCmd,
               conn := sink, term := s.term } ∧
      (tm.MigrateSession A B profileId sink).terminals A = none := by
  unfold TerminalManager.MigrateSession
  rw [hs]
  constructor
  · rw [delete_other _ _ _ (Ne.symm hAB), set_same]
  · rw [delete_same]

/-- Claim C3: for distinct identifiers `A` and `B`, if an entry `s` exists under `A`
then after `MigrateSession A B profileId sink` the identifier `B` resolves to an entry
with the history, last command and backend connection of `s`, bound to `profileId`
and `sink`, and `A` resolves to nothing; if no entry exists under `A`, `B` resolves
to a fresh entry (empty history, empty last command, no backend connection) with the
given `profileId` and `sink`. -/
theorem C3_migrate_session (tm : TerminalManager) (A B profileId : String)
    (sink : Option ConnPtr) (hAB : A ≠ B) :
    (∀ s, tm.terminals A = some s →
      (tm.MigrateSession A B profileId sink).terminals B =
          some { ID := B, AssetID := profileId, Output := s.Output, LastCmd := s.LastCmd,
                 conn := sink, term := s.term } ∧
        (tm.MigrateSession A B profileId sink).terminals A = none) ∧
    (tm.terminals A = none →
      (tm.MigrateSession A B profileId sink).terminals B =
        some { ID := B, AssetID := profileId, Output := [], LastCmd := [],
               conn := sink, term := none }) := by
  constructor
  · intro s hs
    exact MigrateSession_distinct tm A B profileId sink hAB s hs
  · intro hnone
    unfold TerminalManager.MigrateSession
    rw [hnone]
    simp only [set_same]

theorem C3_migrate_session_witness :
    ((tmBusy.MigrateSession "s1" "s2" "a2" (some 5)).terminals "s2" =
        some { ID := "s2", AssetID := "a2", Output := [ascii "x"], LastCmd := ascii "ls",
               conn := some 5, term := some 0 } ∧
      (tmBusy.MigrateSession "s1" "s2" "a2" (some 5)).terminals "s1" = none) ∧
    (tmBusy.MigrateSession "s3" "s2" "a2" (some 5)).terminals "s2" =
      some { ID := "s2", AssetID := "a2", Output := [], LastCmd := [],
             conn := some 5, term := none } :=
  ⟨(C3_migrate_session tmBusy "s1" "s2" "a2" (some 5) (by decide)).1
      { ID := "s1", AssetID := "a1", Output := [ascii "x"], LastCmd := ascii "ls",
        conn := some 1, term := some 0 } rfl,
   (C3_migrate_session tmBusy "s3" "s2" "a2" (some 5) (by decide)).2 rfl⟩

/-- Attaching with `AttachTerminal` and a terminal: the entry found or registered, with the terminal
bound to it. -/
theorem AttachTerminal_lookup (tm : TerminalManager) (heap : TermPtr → Terminal)
    (id : String) (p : TermPtr) :
    (tm.AttachTerminal heap id (some p)).terminals id =
      some { (match tm.terminals id with
              | some s => s
              | none => { ID := id, AssetID := (heap p).assetID, Output := [], LastCmd := [],
                          conn := none, term := none }) with term := some p } := by
  unfold TerminalManager.AttachTerminal
  cases h : tm.terminals id with
  | none => simp [TerminalManager.RegisterTerminal]
  | some s => simp [h]

/-- Attaching with `AttachTerminal` leaves every other identifier as it was. -/
theorem AttachTerminal_other (tm : TerminalManager) (heap : TermPtr → Terminal)
    (id k : String) (term : Option TermPtr) (hk : k ≠ id) :
    (tm.AttachTerminal heap id term).terminals k = tm.terminals k := by
  unfold TerminalManager.AttachTerminal
  cases term with
  | none => rfl
  | some p =>
    cases h : tm.terminals id with
    | none => simp [TerminalManager.RegisterTerminal, set_other _ _ _ _ hk]
    | some s => simp [h, set_other _ _ _ _ hk]

/-- Claim C5, as the code has it: after `RegisterTerminal sessionId profileId` the
identifier resolves to a fresh entry (empty history, empty last command, no sink, no
backend connection, the given `profileId`) whether or not an entry existed before, and
every other identifier resolves as before. -/
theorem C5_register_fresh (tm : TerminalManager) (sessionId profileId : String) :
    (tm.RegisterTerminal sessionId profileId).terminals sessionId =
        some { ID := sessionId, AssetID := profileId, Output := [], LastCmd := [],
               conn := none, term := none } ∧
    ∀ k, k ≠ sessionId →
      (tm.RegisterTerminal sessionId profileId).terminals k = tm.terminals k := by
  constructor
  · simp [TerminalManager.RegisterTerminal]
  · intro k hk
    simp [TerminalManager.RegisterTerminal, set_other _ _ _ _ hk]

theorem C5_register_fresh_witness :
    (tmBusy.RegisterTerminal "s2" "a2").terminals "s2" =
        some { ID := "s2", AssetID := "a2", Output := [], LastCmd := [],
               conn := none, term := none } ∧
    (tmBusy.RegisterTerminal "s2" "a2").terminals "s1" = tmBusy.terminals "s1" :=
  ⟨(C5_register_fresh tmBusy "s2" "a2").1,
   (C5_register_fresh tmBusy "s2" "a2").2 "s1" (by decide)⟩

/-- Claim C5 fails as stated: registering `s1` again in `tmBusy`, where `s1` has the
history `x`, the last command `ls`, a sink and a terminal, does not leave that entry
unchanged: the history, the last command, the sink and the backend connection are
gone. -/
theorem C5_register_overwrites :
    tmBusy.terminals "s1" =
        some { ID := "s1", AssetID := "a1", Output := [ascii "x"], LastCmd := ascii "ls",
               conn := some 1, term := some 0 } ∧
    (tmBusy.RegisterTerminal "s1" "a1").terminals "s1" =
        some { ID := "s1", AssetID := "a1", Output := [], LastCmd := [],
               conn := none, term := none } ∧
    (tmBusy.RegisterTerminal "s1" "a1").terminals "s1" ≠ tmBusy.terminals "s1" := by
  refine ⟨rfl, rfl, ?_⟩
  decide

/-- Claim C6: after `AttachTerminal sessionId term` with a non-nil `term` the
identifier resolves to an entry whose backend connection is `term`; when an entry
existed before, it is that entry with only the backend connection changed (history,
last command and sink as they were), and when none existed it is a fresh entry (empty
history, empty last command, no sink) whose profile is the terminal's asset id.
`AttachTerminal` with a nil terminal leaves the registry unchanged. -/
theorem C6_attach_terminal (tm : TerminalManager) (heap : TermPtr → Terminal)
    (sessionId : String) (term : TermPtr) :
    (∃ s', (tm.AttachTerminal heap sessionId (some term)).terminals sessionId = some s' ∧
      s'.term = some term ∧
      (∀ s, tm.terminals sessionId = some s →
        s' = { s with term := some term } ∧
        s'.Output = s.Output ∧ s'.LastCmd = s.LastCmd ∧ s'.conn = s.conn) ∧
      (tm.terminals sessionId = none →
        s' = { ID := sessionId, AssetID := (heap term).assetID, Output := [],
               LastCmd := [], conn := none, term := some term })) ∧
    tm.AttachTerminal heap sessionId none = tm := by
  refine ⟨⟨_, AttachTerminal_lookup tm heap sessionId term, rfl, ?_, ?_⟩, rfl⟩
  · intro s hs
    rw [hs]
    exact ⟨rfl, rfl, rfl, rfl⟩
  · intro hnone
    rw [hnone]

theorem C6_attach_terminal_witness :
    (∃ s', (tmBusy.AttachTerminal (fun _ => termLocal) "s1" (some 7)).terminals "s1"
        = some s' ∧
      s' = { ID := "s1", AssetID := "a1", Output := [ascii "x"], LastCmd := ascii "ls",
             conn := some 1, term := some 7 }) ∧
    (∃ s', (tmBusy.AttachTerminal (fun _ => termLocal) "s2" (some 7)).terminals "s2"
        = some s' ∧
      s' = { ID := "s2", AssetID := "a1", Output := [], LastCmd := [], conn := none,
             term := some 7 }) :=
  ⟨(C6_attach_terminal tmBusy (fun _ => termLocal) "s1" 7).1.elim
      (fun s' h => ⟨s', h.1, (h.2.2.1 _ rfl).1⟩),
   (C6_attach_terminal tmBusy (fun _ => termLocal) "s2" 7).1.elim
      (fun s' h => ⟨s', h.1, h.2.2.2 rfl⟩)⟩

/-! ### Session rename -/

/-- Renaming to a different identifier keeps the buffered state: the terminal's session
identifier becomes the new one, the new identifier resolves to the history and last
command of the old entry with this terminal as backend connection, and the old
identifier resolves to nothing. -/
theorem handleSetSessionId_distinct (w : World) (t : TermPtr) (newId : String)
    (s : TerminalSession) (hs : w.tm.terminals (w.heap t).sessionID = some s)
    (hne : (w.heap t).sessionID ≠ newId) :
    ((handleSetSessionId w t newId).heap t).sessionID = newId ∧
    (handleSetSessionId w t newId).tm.terminals newId =
      some { ID := newId, AssetID := (w.heap t).assetID, Output := s.Output,
             LastCmd := s.LastCmd, conn := (w.heap t).conn, term := some t } ∧
    (handleSetSessionId w t newId).tm.terminals (w.heap t).sessionID = none := by
  have hm := (MigrateSession_distinct w.tm _ newId (w.heap t).assetID (w.heap t).conn hne s hs)
  refine ⟨by simp [handleSetSessionId], ?_, ?_⟩
  · show (TerminalManager.AttachTerminal _ _ newId (some t)).terminals newId = _
    rw [AttachTerminal_lookup, hm.1]
  · show (TerminalManager.AttachTerminal _ _ newId (some t)).terminals _ = _
    rw [AttachTerminal_other _ _ _ _ _ hne, hm.2]

/-- Claim C4 fails on the code when the announced identifier is the terminal's current
one: in `worldBusy` the terminal at address `0` has the session identifier `s1`, whose
entry holds the history `x` and the last command `ls`; after the rename to `s1` the
identifier resolves to an entry with an empty history and an empty last command. -/
theorem C4_rename_same_id_loses_state :
    (worldBusy.heap 0).sessionID = "s1" ∧
    worldBusy.tm.terminals "s1" =
      some { ID := "s1", AssetID := "a1", Output := [ascii "x"], LastCmd := ascii "ls",
             conn := some 1, term := some 0 } ∧
    (handleSetSessionId worldBusy 0 "s1").tm.terminals "s1" =
      some { ID := "s1", AssetID := "a1", Output := [], LastCmd := [],
             conn := none, term := some 0 } := by
  refine ⟨rfl, rfl, ?_⟩
  decide

/-! ### The sentinel scan -/

/-- The expression matches at the very start of `s` exactly when `s` is the marker
followed by a digit. -/
theorem matchesHere_iff (m s : GoString) :
    (m.isPrefixOf s && !((s.drop m.length).takeWhile isDigit).isEmpty) = true ↔
      ∃ d rest, s = m ++ d :: rest ∧ isDigit d = true := by
  constructor
  · intro h
    rw [Bool.and_eq_true] at h
    obtain ⟨hp, hd⟩ := h
    rw [ List.isPrefixOf_iff_prefix] at hp
    obtain ⟨t, rfl⟩ := hp
    rw [List.drop_left] at hd
    cases t with
    | nil => simp at hd
    | cons d rest =>
      refine ⟨d, rest, rfl, ?_⟩
      cases hdig : isDigit d with
      | true => rfl
      | false => simp [List.takeWhile_cons, hdig] at hd
  · rintro ⟨d, rest, rfl, hd⟩
    rw [Bool.and_eq_true]
    refine ⟨?_, ?_⟩
    · rw [ List.isPrefixOf_iff_prefix]
      exact List.prefix_append _ _
    · rw [List.drop_left]
      simp [List.takeWhile_cons, hd]

/-- The scan finds nothing exactly when the text holds no marker followed by a digit. -/
theorem FindStringSubmatch_eq_none (m : GoString) :
    ∀ s : GoString, FindStringSubmatch m s = none ↔ ¬ HasMarkerDigit m s := by
  intro s
  induction s with
  | nil =>
    constructor
    · rintro - ⟨pre, d, rest, h, -⟩
      have := congrArg List.length h
      simp at this
      omega
    · intro _
      rfl
  | cons c cs ih =>
    unfold FindStringSubmatch
    by_cases hc : (m.isPrefixOf (c :: cs) &&
        !(((c :: cs).drop m.length).takeWhile isDigit).isEmpty) = true
    · rw [if_pos hc]
      constructor
      · intro h
        cases h
      · intro hno
        exfalso
        obtain ⟨d, rest, hs, hd⟩ := (matchesHere_iff m (c :: cs)).1 hc
        exact hno ⟨[], d, rest, by simpa using hs, hd⟩
    · rw [if_neg hc, ih]
      constructor
      · rintro hno ⟨pre, d, rest, hs, hd⟩
        cases pre with
        | nil =>
          exact hc ((matchesHere_iff m (c :: cs)).2 ⟨d, rest, by simpa using hs, hd⟩)
        | cons a pre' =>
          simp only [List.cons_append, List.cons.injEq] at hs
          exact hno ⟨pre', d, rest, hs.2, hd⟩
      · rintro hno ⟨pre, d, rest, hs, hd⟩
        exact hno ⟨c :: pre, d, rest, by simp [hs], hd⟩

/-- The scan returns the maximal digit run after the leftmost marker that a digit
follows. -/
theorem FindStringSubmatch_eq_some (m : GoString) :
    ∀ (pre s ds rest : GoString), LeftmostMarkerDigits m s pre ds rest →
      FindStringSubmatch m s = some ds := by
  intro pre
  induction pre with
  | nil =>
    rintro s ds rest ⟨hs, hne, hall, hrest, -⟩
    have htw : (ds ++ rest).takeWhile isDigit = ds := by
      rw [List.takeWhile_append_of_pos hall]
      cases rest with
      | nil => simp
      | cons d rest' => simp [List.takeWhile_cons, hrest d rest' rfl]
    cases s with
    | nil =>
      exfalso
      have := congrArg List.length hs
      cases ds with
      | nil => exact hne rfl
      | cons d ds' =>
        simp at this
        omega
    | cons c cs =>
      unfold FindStringSubmatch
      rw [hs]
      simp only [List.nil_append, List.append_assoc]
      have hp : m.isPrefixOf (m ++ (ds ++ rest)) = true := by
        rw [ List.isPrefixOf_iff_prefix]
        exact List.prefix_append _ _
      rw [List.drop_left, htw, hp]
      cases ds with
      | nil => exact absurd rfl hne
      | cons d ds' => simp
  | cons a pre' ih =>
    rintro s ds rest ⟨hs, hne, hall, hrest, hleft⟩
    rw [hs]
    simp only [List.cons_append]
    unfold FindStringSubmatch
    have hc : ¬ (m.isPrefixOf (a :: (pre' ++ m ++ ds ++ rest)) &&
        !(((a :: (pre' ++ m ++ ds ++ rest)).drop m.length).takeWhile isDigit).isEmpty)
          = true := by
      intro hc
      obtain ⟨d, rest', hs', hd⟩ := (matchesHere_iff m _).1 hc
      have := hleft [] d rest' (by rw [hs]; simpa using hs') hd
      simp at this
    rw [if_neg hc]
    apply ih _ ds rest
    refine ⟨rfl, hne, hall, hrest, ?_⟩
    intro pre'' d rest' hs' hd
    have := hleft (a :: pre'') d rest'
      (by rw [hs]; simp only [List.cons_append, hs']) hd
    simpa using this

/-! ### Removing the marker -/

theorem replaceAux_cons_zero (old new : GoString) (c : UInt8) (cs : GoString) :
    replaceAux old new 0 (c :: cs) =
      if old.isPrefixOf (c :: cs) then new ++ replaceAux old new (old.length - 1) cs
      else c :: replaceAux old new 0 cs := rfl

theorem replaceAux_cons_succ (old new : GoString) (k : Nat) (c : UInt8) (cs : GoString) :
    replaceAux old new (k + 1) (c :: cs) = replaceAux old new k cs := rfl

/-- Once an occurrence is found, its bytes are passed over. -/
theorem replaceAux_skip (old new : GoString) :
    ∀ (xs t : GoString), replaceAux old new xs.length (xs ++ t) = replaceAux old new 0 t := by
  intro xs
  induction xs with
  | nil => intro t; rfl
  | cons x xs ih =>
    intro t
    rw [List.length_cons, List.cons_append, replaceAux_cons_succ]
    exact ih t

/-- A digit string holds no occurrence of a text that starts with a non-digit. -/
theorem replaceAux_digits (o : UInt8) (old new : GoString) (ho : isDigit o = false) :
    ∀ t : GoString, (∀ d ∈ t, isDigit d = true) → replaceAux (o :: old) new 0 t = t := by
  intro t
  induction t with
  | nil => intro _; rfl
  | cons c cs ih =>
    intro hall
    have hc : isDigit c = true := hall c (List.mem_cons_self _ _)
    have hne : o ≠ c := by
      rintro rfl
      rw [ho] at hc
      cases hc
    have hp : (o :: old).isPrefixOf (c :: cs) = false := by
      simp [List.isPrefixOf, hne]
    rw [replaceAux_cons_zero, hp, ih (fun d hd => hall d (List.mem_cons_of_mem _ hd))]
    simp

/-- When the text `p ++ old` holds `old` only as its suffix, the replacement copies `p`,
replaces that occurrence and goes on behind it. -/
theorem replaceAux_leading (old new : GoString) (hold : old ≠ []) :
    ∀ (p t : GoString), (∀ a b, p ++ old = a ++ old ++ b → b = []) →
      replaceAux old new 0 (p ++ old ++ t) = p ++ new ++ replaceAux old new 0 t := by
  intro p
  induction p with
  | nil =>
    intro t _
    cases old with
    | nil => exact absurd rfl hold
    | cons o old' =>
      have hp : (o :: old').isPrefixOf (o :: (old' ++ t)) = true := by
        rw [ List.isPrefixOf_iff_prefix]
        exact ⟨t, by simp⟩
      rw [List.nil_append, List.cons_append, replaceAux_cons_zero, hp, if_pos rfl,
        List.length_cons, Nat.add_sub_cancel, replaceAux_skip, List.nil_append]
  | cons c p ih =>
    intro t hocc
    have hp : old.isPrefixOf (c :: (p ++ old ++ t)) = false := by
      cases h : old.isPrefixOf (c :: (p ++ old ++ t)) with
      | false => rfl
      | true =>
        exfalso
        rw [ List.isPrefixOf_iff_prefix] at h
        have h1 : old <+: (c :: p ++ old) := by
          have h2 : (c :: p ++ old) <+: (c :: (p ++ old ++ t)) := ⟨t, by simp⟩
          exact List.prefix_of_prefix_length_le h h2 (by simp; omega)
        obtain ⟨b, hb⟩ := h1
        have hb' := hocc [] b (by simpa using hb.symm)
        subst hb'
        have := congrArg List.length hb
        simp at this
        omega
    rw [List.cons_append, List.cons_append, replaceAux_cons_zero, hp, ih t]
    · simp
    · intro a b hab
      exact hocc (c :: a) b (by simp [hab])

/-- A text without an occurrence of `old` is copied unchanged. -/
theorem replaceAux_no_occurrence (old new : GoString) :
    ∀ s : GoString, ¬ old <:+: s → replaceAux old new 0 s = s := by
  intro s
  induction s with
  | nil => intro _; rfl
  | cons c cs ih =>
    intro hno
    have hp : old.isPrefixOf (c :: cs) = false := by
      cases h : old.isPrefixOf (c :: cs) with
      | false => rfl
      | true =>
        rw [ List.isPrefixOf_iff_prefix] at h
        exact absurd h.isInfix hno
    rw [replaceAux_cons_zero, hp, ih (fun h => hno (List.infix_cons h))]
    simp

/-- A text that holds `old` splits at the leftmost occurrence: before its end, the part
up to and including that occurrence holds no other one. -/
theorem leftmost_occurrence (old : GoString) (hold : old ≠ []) :
    ∀ s : GoString, old <:+: s →
      ∃ p t, s = p ++ old ++ t ∧ ∀ a b, p ++ old = a ++ old ++ b → b = [] := by
  intro s
  induction s with
  | nil =>
    intro h
    exact absurd (List.infix_nil.1 h) hold
  | cons c cs ih =>
    intro h
    by_cases hpre : old <+: c :: cs
    · obtain ⟨t, ht⟩ := hpre
      refine ⟨[], t, by rw [List.nil_append, ht], ?_⟩
      intro a b hab
      have hl := congrArg List.length hab
      simp only [List.nil_append, List.length_append] at hl
      exact List.length_eq_zero.1 (by omega)
    · rcases List.infix_cons_iff.1 h with h1 | h1
      · exact absurd h1 hpre
      · obtain ⟨p, t, hs, hleft⟩ := ih h1
        refine ⟨c :: p, t, by rw [hs]; simp, ?_⟩
        intro a b hab
        cases a with
        | nil =>
          exfalso
          apply hpre
          have h2 : old <+: c :: p ++ old := ⟨b, by simpa using hab.symm⟩
          have h3 : (c :: p ++ old) <+: c :: cs := ⟨t, by rw [hs]; simp⟩
          exact h2.trans h3
        | cons x a =>
          simp only [List.cons_append, List.cons.injEq] at hab
          exact hleft a b (by simpa using hab.2)

/-- The library function `strings.ReplaceAll` with the empty replacement cuts the
occurrences of a non-empty `old` out of the text, found from left to right without
overlap. -/
theorem ReplaceAll_cuts (old : GoString) (hold : old ≠ []) (s : GoString) :
    CutsOut old s (ReplaceAll s old []) := by
  have key : ∀ (n : Nat) (s : GoString), s.length ≤ n →
      CutsOut old s (replaceAux old [] 0 s) := by
    intro n
    induction n with
    | zero =>
      intro s hs
      have h0 : s = [] := List.length_eq_zero.1 (by omega)
      subst h0
      refine ⟨[], [], rfl, by simp, ?_, rfl⟩
      intro h
      exact hold (List.infix_nil.1 h)
    | succ n ih =>
      intro s hs
      by_cases hocc : old <:+: s
      · obtain ⟨p, t, hst, hleft⟩ := leftmost_occurrence old hold s hocc
        have hlen : t.length ≤ n := by
          have h1 := congrArg List.length hst
          simp only [List.length_append] at h1
          have h2 : 0 < old.length := List.length_pos.2 hold
          omega
        obtain ⟨pieces, last, ht, hpieces, hlast, hout⟩ := ih t hlen
        refine ⟨p :: pieces, last, ?_, ?_, hlast, ?_⟩
        · rw [List.map_cons, List.flatten_cons, List.append_assoc, ← ht, hst]
        · intro q hq
          rcases List.mem_cons.1 hq with rfl | hq
          · exact hleft
          · exact hpieces q hq
        · rw [hst, replaceAux_leading old [] hold p t hleft, hout, List.append_nil,
            List.flatten_cons, List.append_assoc]
      · refine ⟨[], s, rfl, by simp, hocc, ?_⟩
        rw [replaceAux_no_occurrence old [] s hocc]
        rfl
  exact key s.length s (Nat.le_refl _)

/-- What cutting `old` out of `s` leaves is determined by `s`. -/
theorem CutsOut.unique (old : GoString) :
    ∀ (s out1 out2 : GoString), CutsOut old s out1 → CutsOut old s out2 → out1 = out2 := by
  have key : ∀ (pieces1 : List GoString) (last1 : GoString) (pieces2 : List GoString)
      (last2 : GoString),
      (pieces1.map (fun p => p ++ old)).flatten ++ last1 =
        (pieces2.map (fun p => p ++ old)).flatten ++ last2 →
      (∀ p ∈ pieces1, ∀ a b, p ++ old = a ++ old ++ b → b = []) →
      (∀ p ∈ pieces2, ∀ a b, p ++ old = a ++ old ++ b → b = []) →
      ¬ old <:+: last1 → ¬ old <:+: last2 →
      pieces1.flatten ++ last1 = pieces2.flatten ++ last2 := by
    intro pieces1
    induction pieces1 with
    | nil =>
      intro last1 pieces2 last2 heq _ _ h1 _
      cases pieces2 with
      | nil => simpa using heq
      | cons q qs =>
        exfalso
        apply h1
        rw [show last1 = q ++ old ++ ((qs.map (fun p => p ++ old)).flatten ++ last2) by
          simpa using heq]
        exact ⟨q, _, rfl⟩
    | cons p ps ih =>
      intro last1 pieces2 last2 heq hp1 hp2 h1 h2
      cases pieces2 with
      | nil =>
        exfalso
        apply h2
        rw [show last2 = p ++ old ++ ((ps.map (fun p => p ++ old)).flatten ++ last1) by
          simpa using heq.symm]
        exact ⟨p, _, rfl⟩
      | cons q qs =>
        have heq2 : (p ++ old) ++ ((ps.map (fun p => p ++ old)).flatten ++ last1) =
            (q ++ old) ++ ((qs.map (fun p => p ++ old)).flatten ++ last2) := by
          simpa using heq
        have hpq : p ++ old = q ++ old := by
          have hpp : (p ++ old) <+: (p ++ old) ++
              ((ps.map (fun p => p ++ old)).flatten ++ last1) := List.prefix_append _ _
          have hqq : (q ++ old) <+: (p ++ old) ++
              ((ps.map (fun p => p ++ old)).flatten ++ last1) := by
            rw [heq2]
            exact List.prefix_append _ _
          rcases List.prefix_or_prefix_of_prefix hpp hqq with ⟨b, hb⟩ | ⟨b, hb⟩
          · have hb0 := hp2 q (List.mem_cons_self _ _) p b hb.symm
            rw [hb0, List.append_nil] at hb
            exact hb
          · have hb0 := hp1 p (List.mem_cons_self _ _) q b hb.symm
            rw [hb0, List.append_nil] at hb
            exact hb.symm
        have hpq2 : p = q := List.append_cancel_right hpq
        subst hpq2
        have hrest := List.append_cancel_left heq2
        have := ih last1 qs last2 hrest
          (fun x hx => hp1 x (List.mem_cons_of_mem _ hx))
          (fun x hx => hp2 x (List.mem_cons_of_mem _ hx)) h1 h2
        rw [List.flatten_cons, List.flatten_cons, List.append_assoc, List.append_assoc, this]
  rintro s out1 out2 ⟨pieces1, last1, hs1, hp1, hl1, rfl⟩ ⟨pieces2, last2, hs2, hp2, hl2, rfl⟩
  exact key pieces1 last1 pieces2 last2 (hs1.symm.trans hs2) hp1 hp2 hl1 hl2

/-! ### The registry while a command runs -/

theorem appendAll_append (tm : TerminalManager) (id : String) (a b : List GoString) :
    (tm.appendAll id a).appendAll id b = tm.appendAll id (a ++ b) := by
  simp [TerminalManager.appendAll, List.foldl_append]

theorem retained_length_ge (old appended : List GoString) (h : old.length ≤ outputCap) :
    old.length ≤ (retained old appended).length := by
  unfold retained
  rw [List.length_drop, List.length_append]
  omega

theorem output_appendAll (tm : TerminalManager) (id : String) (s : TerminalSession)
    (cs : List GoString) (hs : tm.terminals id = some s) (hcap : s.Output.length ≤ outputCap) :
    (tm.appendAll id cs).output id = retained s.Output cs := by
  unfold TerminalManager.output
  rw [appendAll_lookup cs tm id s hs hcap]
  rfl

theorem termOf_appendAll (tm : TerminalManager) (id : String) (s : TerminalSession)
    (cs : List GoString) (hs : tm.terminals id = some s) (hcap : s.Output.length ≤ outputCap) :
    (tm.appendAll id cs).termOf id = s.term := by
  unfold TerminalManager.termOf
  rw [appendAll_lookup cs tm id s hs hcap]

/-- Calling `SetLastCommand` on any identifier leaves the history and the backend connection
of every entry as they were. -/
theorem SetLastCommand_lookup (tm : TerminalManager) (id k : String) (c : GoString)
    (s : TerminalSession) (hs : tm.terminals id = some s) :
    ∃ s1, (tm.SetLastCommand k c).terminals id = some s1 ∧ s1.Output = s.Output ∧
      s1.term = s.term := by
  unfold TerminalManager.SetLastCommand
  cases hk : tm.terminals k with
  | none => exact ⟨s, hs, rfl, rfl⟩
  | some sk =>
    by_cases hid : id = k
    · subst hid
      rw [hs] at hk
      cases hk
      exact ⟨_, set_same _ _ _, rfl, rfl⟩
    · exact ⟨s, by simp only [set_other _ _ _ _ hid, hs], rfl, rfl⟩

theorem writeToTerminal_lookup (w : World) (t : TermPtr) (data : GoString) (id : String)
    (s : TerminalSession) (hs : w.tm.terminals id = some s) :
    ∃ s1, (writeToTerminal w t data).tm.terminals id = some s1 ∧ s1.Output = s.Output ∧
      s1.term = s.term := by
  unfold writeToTerminal
  dsimp only
  split
  · split
    · exact SetLastCommand_lookup _ _ _ _ _ hs
    · exact ⟨s, hs, rfl, rfl⟩
  · exact ⟨s, hs, rfl, rfl⟩

theorem writeToTerminal_writes (w : World) (t : TermPtr) (data : GoString) :
    (writeToTerminal w t data).writes =
      w.writes ++ (match (w.heap t).sink with
        | some k => [⟨t, k, data⟩]
        | none => []) := by
  unfold writeToTerminal Terminal.sink
  dsimp only
  cases (w.heap t).connType with
  | ConnectionTypeLocal => cases (w.heap t).localTty <;> simp
  | ConnectionTypeSSH => cases (w.heap t).sshStdin <;> simp
  | unset => simp

theorem writeToTerminal_heap (w : World) (t : TermPtr) (data : GoString) :
    (writeToTerminal w t data).heap = w.heap := rfl

/-- The interrupt byte holds no line terminator, so writing it leaves the registry. -/
theorem writeToTerminal_interrupt_tm (w : World) (t : TermPtr) :
    (writeToTerminal w t [0x03]).tm = w.tm := by
  unfold writeToTerminal
  have h : (([0x03] : GoString).contains 0x0D || ([0x03] : GoString).contains 0x0A) = false := by
    decide
  simp only [h]
  rfl

/-! ### The polling loop -/

/-- One iteration of the loop: the guard on the length and the test for an empty
string change nothing of what the scan sees. -/
theorem pollLoop_cons (id : String) (startLen : Nat) (tm : TerminalManager)
    (batch : List GoString) (rest : List (List GoString)) :
    pollLoop id startLen tm (batch :: rest) =
      match FindStringSubmatch marker (observed (tm.appendAll id batch) id startLen) with
      | some m1 => (tm.appendAll id batch, Sscanf m1 (-1))
      | none => pollLoop id startLen (tm.appendAll id batch) rest := by
  have hdata :
      (if ((tm.appendAll id batch).output id).length > startLen
        then (((tm.appendAll id batch).output id).drop startLen).flatten else [])
        = observed (tm.appendAll id batch) id startLen := by
    unfold observed
    split
    · rfl
    · rename_i h
      rw [List.drop_eq_nil_of_le (by omega)]
      rfl
  have hscan : ∀ x : GoString,
      (if x ≠ [] then FindStringSubmatch marker x else none) = FindStringSubmatch marker x := by
    intro x
    cases x with
    | nil => rfl
    | cons c cs => simp
  rw [pollLoop]
  simp only [hdata, hscan]

/-- The loop runs through all its polls when none of its reads holds a match. -/
theorem pollLoop_none (id : String) (startLen : Nat) :
    ∀ (polls : List (List GoString)) (tm : TerminalManager),
      (∀ j, j < polls.length →
        FindStringSubmatch marker
          (observed (tm.appendAll id (polls.take (j + 1)).flatten) id startLen) = none) →
      pollLoop id startLen tm polls = (tm.appendAll id polls.flatten, -1) := by
  intro polls
  induction polls with
  | nil =>
    intro tm _
    rfl
  | cons batch rest ih =>
    intro tm h
    have h0 := h 0 (by simp)
    simp only [List.take_succ_cons, List.take_zero, List.flatten_cons, List.flatten_nil,
      List.append_nil] at h0
    rw [pollLoop_cons, h0]
    simp only
    rw [ih (tm.appendAll id batch), appendAll_append, List.flatten_cons]
    intro j hj
    have hj' := h (j + 1) (by simpa using hj)
    rw [appendAll_append]
    simpa [List.take_succ_cons, List.flatten_cons] using hj'

/-- The loop is left at the first poll whose read holds a match, with the value the
scan of that read yields. -/
theorem pollLoop_some (id : String) (startLen : Nat) (ds : GoString) :
    ∀ (polls : List (List GoString)) (tm : TerminalManager) (k : Nat), k < polls.length →
      (∀ j, j < k →
        FindStringSubmatch marker
          (observed (tm.appendAll id (polls.take (j + 1)).flatten) id startLen) = none) →
      FindStringSubmatch marker
          (observed (tm.appendAll id (polls.take (k + 1)).flatten) id startLen) = some ds →
      pollLoop id startLen tm polls =
        (tm.appendAll id (polls.take (k + 1)).flatten, Sscanf ds (-1)) := by
  intro polls
  induction polls with
  | nil =>
    intro tm k hk
    simp at hk
  | cons batch rest ih =>
    intro tm k hk hnone hsome
    cases k with
    | zero =>
      simp only [Nat.zero_add, List.take_succ_cons, List.take_zero, List.flatten_cons,
        List.flatten_nil, List.append_nil] at hsome ⊢
      rw [pollLoop_cons, hsome]
    | succ k =>
      have h0 := hnone 0 (by omega)
      simp only [Nat.zero_add, List.take_succ_cons, List.take_zero, List.flatten_cons,
        List.flatten_nil, List.append_nil] at h0
      rw [pollLoop_cons, h0]
      simp only
      rw [ih (tm.appendAll id batch) k (by simpa using hk), appendAll_append]
      · simp [List.take_succ_cons, List.flatten_cons]
      · intro j hj
        have hj' := hnone (j + 1) (by omega)
        rw [appendAll_append]
        simpa [List.take_succ_cons, List.flatten_cons] using hj'
      · rw [appendAll_append]
        simpa [List.take_succ_cons, List.flatten_cons] using hsome

/-! ### The report -/

theorem sliceFrom_appendAll (tm : TerminalManager) (id : String) (s : TerminalSession)
    (cs : List GoString) (hs : tm.terminals id = some s) (hcap : s.Output.length ≤ outputCap) :
    sliceFrom ((tm.appendAll id cs).output id) s.Output.length =
      some (((tm.appendAll id cs).output id).drop s.Output.length) := by
  unfold sliceFrom
  rw [if_pos]
  rw [output_appendAll tm id s cs hs hcap]
  exact retained_length_ge _ _ hcap

theorem Sscanf_fits (ds : GoString) (old : Int) (hfit : decimalValue ds ≤ maxInt) :
    Sscanf ds old = (decimalValue ds : Int) := by
  unfold Sscanf
  rw [if_pos hfit]

theorem Sscanf_overflow (ds : GoString) (old : Int) (hbig : maxInt < decimalValue ds) :
    Sscanf ds old = old := by
  unfold Sscanf
  rw [if_neg (by omega)]

/-- The report when the match is first seen by the poll `k`. -/
theorem execAwait_completed_poll (w1 : World) (id : String) (cmd : GoString) (env : ExecEnv)
    (s1 : TerminalSession) (k : Nat) (ds : GoString)
    (hs : w1.tm.terminals id = some s1) (hcap : s1.Output.length ≤ outputCap)
    (hk : k < env.polls.length)
    (hnone : ∀ j, j < k → FindStringSubmatch marker
      (observed (w1.tm.appendAll id (env.atPoll j)) id s1.Output.length) = none)
    (hsome : FindStringSubmatch marker
      (observed (w1.tm.appendAll id (env.atPoll k)) id s1.Output.length) = some ds)
    (hfit : decimalValue ds ≤ maxInt) :
    execAwait w1 id cmd s1.Output.length env =
      ({ w1 with tm := w1.tm.appendAll id (env.atFinal (k + 1)) },
        .ok (.completed cmd (decimalValue ds)
          (ReplaceAll (observed (w1.tm.appendAll id (env.atFinal (k + 1))) id s1.Output.length)
            marker []))) := by
  have hloop := pollLoop_some id s1.Output.length ds env.polls w1.tm k hk hnone hsome
  have hne : ((decimalValue ds : Nat) : Int) ≠ -1 := by omega
  unfold execAwait
  simp only [hloop, appendAll_append, Sscanf_fits ds _ hfit]
  rw [show (env.polls.take (k + 1)).flatten ++ env.beforeFinal = env.atFinal (k + 1) from rfl,
    sliceFrom_appendAll w1.tm id s1 _ hs hcap]
  simp only [if_neg hne]
  rfl

/-- The report when no poll sees a match and the read after the loop does. -/
theorem execAwait_completed_final (w1 : World) (id : String) (cmd : GoString) (env : ExecEnv)
    (s1 : TerminalSession) (ds : GoString)
    (hs : w1.tm.terminals id = some s1) (hcap : s1.Output.length ≤ outputCap)
    (hnone : ∀ j, j < env.polls.length → FindStringSubmatch marker
      (observed (w1.tm.appendAll id (env.atPoll j)) id s1.Output.length) = none)
    (hsome : FindStringSubmatch marker
      (observed (w1.tm.appendAll id (env.atFinal env.polls.length)) id s1.Output.length)
        = some ds)
    (hfit : decimalValue ds ≤ maxInt) :
    execAwait w1 id cmd s1.Output.length env =
      ({ w1 with tm := w1.tm.appendAll id (env.atFinal env.polls.length) },
        .ok (.completed cmd (decimalValue ds)
          (ReplaceAll
            (observed (w1.tm.appendAll id (env.atFinal env.polls.length)) id s1.Output.length)
            marker []))) := by
  have hloop := pollLoop_none id s1.Output.length env.polls w1.tm hnone
  have hne : ((decimalValue ds : Nat) : Int) ≠ -1 := by omega
  have hfin : env.polls.flatten ++ env.beforeFinal = env.atFinal env.polls.length := by
    simp [ExecEnv.atFinal]
  unfold execAwait
  simp only [hloop, appendAll_append]
  rw [hfin, sliceFrom_appendAll w1.tm id s1 _ hs hcap]
  simp only [if_true]
  rw [show (((w1.tm.appendAll id (env.atFinal env.polls.length)).output id).drop
      s1.Output.length).flatten
      = observed (w1.tm.appendAll id (env.atFinal env.polls.length)) id s1.Output.length
      from rfl, hsome]
  simp only [Sscanf_fits ds _ hfit, if_neg hne]

/-- The report when neither a poll nor the read after the loop sees a match. -/
theorem execAwait_timedOut (w1 : World) (id : String) (cmd : GoString) (env : ExecEnv)
    (s1 : TerminalSession) (t : TermPtr)
    (hs : w1.tm.terminals id = some s1) (hcap : s1.Output.length ≤ outputCap)
    (ht : s1.term = some t)
    (hnone : ∀ j, j < env.polls.length → FindStringSubmatch marker
      (observed (w1.tm.appendAll id (env.atPoll j)) id s1.Output.length) = none)
    (hfinal : FindStringSubmatch marker
      (observed (w1.tm.appendAll id (env.atFinal env.polls.length)) id s1.Output.length)
        = none) :
    (execAwait w1 id cmd s1.Output.length env).2 =
        .ok (.timedOut cmd
          (ReplaceAll
            (observed (w1.tm.appendAll id (env.atInterrupt env.polls.length)) id
              s1.Output.length)
            marker [])) ∧
    (execAwait w1 id cmd s1.Output.length env).1.writes =
      w1.writes ++ (match (w1.heap t).sink with
        | some k => [⟨t, k, [0x03]⟩]
        | none => []) := by
  have hloop := pollLoop_none id s1.Output.length env.polls w1.tm hnone
  have hfin : env.polls.flatten ++ env.beforeFinal = env.atFinal env.polls.length := by
    simp [ExecEnv.atFinal]
  have hint : env.atFinal env.polls.length ++ env.afterInterrupt
      = env.atInterrupt env.polls.length := rfl
  have hterm := termOf_appendAll w1.tm id s1 (env.atFinal env.polls.length) hs hcap
  unfold execAwait
  simp only [hloop, appendAll_append]
  rw [hfin, sliceFrom_appendAll w1.tm id s1 _ hs hcap]
  simp only [if_true]
  rw [show (((w1.tm.appendAll id (env.atFinal env.polls.length)).output id).drop
      s1.Output.length).flatten
      = observed (w1.tm.appendAll id (env.atFinal env.polls.length)) id s1.Output.length
      from rfl, hfinal]
  simp only [if_true, hterm, ht, writeToTerminal_interrupt_tm, appendAll_append, hint]
  rw [sliceFrom_appendAll w1.tm id s1 _ hs hcap]
  simp only [writeToTerminal_writes]
  exact ⟨rfl, trivial⟩

/-! ### `ExecTerminalCommand` on a ready session -/

theorem exec_start (w : World) (params : ExecCommandInput) (env : ExecEnv)
    (s : TerminalSession) (t : TermPtr)
    (hid : params.TerminalId ≠ "") (hcmd : params.Command ≠ [])
    (hs : w.tm.terminals params.TerminalId = some s) (ht : s.term = some t) :
    ExecTerminalCommand w params env =
      execAwait (writeToTerminal w t (augmented params.Command)) params.TerminalId
        params.Command s.Output.length env := by
  unfold ExecTerminalCommand
  rw [if_neg (by simp [hid, hcmd])]
  simp only [hs, ht]
  rfl

/-- What a read sees does not depend on the last-command updates made since the mark
was taken. -/
theorem observed_eq_capturedAfter (tm tm1 : TerminalManager) (id : String)
    (s s1 : TerminalSession) (cs : List GoString)
    (hs : tm.terminals id = some s) (hs1 : tm1.terminals id = some s1)
    (hout : s1.Output = s.Output) (hcap : s.Output.length ≤ outputCap) :
    observed (tm1.appendAll id cs) id s1.Output.length = capturedAfter tm id cs := by
  unfold capturedAfter observed
  rw [output_appendAll tm1 id s1 cs hs1 (by rw [hout]; exact hcap),
    output_appendAll tm id s cs hs hcap, hout]
  have h0 : tm.output id = s.Output := by
    unfold TerminalManager.output
    rw [hs]
  rw [h0]

/-- While the history stays below the cap, what a read sees is the concatenation of
the chunks appended since the mark. -/
theorem capturedAfter_below_cap (tm : TerminalManager) (id : String) (s : TerminalSession)
    (cs : List GoString) (hs : tm.terminals id = some s)
    (hroom : s.Output.length + cs.length ≤ outputCap) :
    capturedAfter tm id cs = cs.flatten := by
  unfold capturedAfter observed
  have h0 : tm.output id = s.Output := by
    unfold TerminalManager.output
    rw [hs]
  rw [output_appendAll tm id s cs hs (by omega), h0]
  unfold retained
  have hz : (s.Output ++ cs).length - outputCap = 0 := by
    rw [List.length_append]
    omega
  rw [hz, List.drop_zero, List.drop_left]

theorem execAwait_writes (w1 : World) (id : String) (cmd : GoString) (n : Nat)
    (env : ExecEnv) : ∃ later, (execAwait w1 id cmd n env).1.writes = w1.writes ++ later := by
  unfold execAwait
  dsimp only
  repeat' split
  all_goals first
    | exact ⟨_, writeToTerminal_writes _ _ _⟩
    | exact ⟨[], (List.append_nil _).symm⟩

/-- The success report: the match is first seen by read `k`, and the digit run it
yields fits the type `int`. -/
theorem exec_completed (w : World) (params : ExecCommandInput) (env : ExecEnv)
    (s : TerminalSession) (t : TermPtr) (k : Nat) (pre ds rest : GoString)
    (hid : params.TerminalId ≠ "") (hcmd : params.Command ≠ [])
    (hs : w.tm.terminals params.TerminalId = some s) (ht : s.term = some t)
    (hcap : s.Output.length ≤ outputCap) (hk : k ≤ env.polls.length)
    (hnone : ∀ j, j < k →
      ¬ HasMarkerDigit marker (capturedAfter w.tm params.TerminalId (env.readAt j)))
    (hmatch : LeftmostMarkerDigits marker
      (capturedAfter w.tm params.TerminalId (env.readAt k)) pre ds rest)
    (hfit : decimalValue ds ≤ maxInt) :
    (ExecTerminalCommand w params env).2 =
        .ok (.completed params.Command (decimalValue ds)
          (ReplaceAll (capturedAfter w.tm params.TerminalId (env.finalAfter k)) marker [])) ∧
    (ExecTerminalCommand w params env).1.writes =
      (writeToTerminal w t (augmented params.Command)).writes := by
  obtain ⟨s1, hs1, hout, -⟩ :=
    writeToTerminal_lookup w t (augmented params.Command) params.TerminalId s hs
  have hcap1 : s1.Output.length ≤ outputCap := by rw [hout]; exact hcap
  have hobs : ∀ cs, observed ((writeToTerminal w t (augmented params.Command)).tm.appendAll
      params.TerminalId cs) params.TerminalId s1.Output.length
        = capturedAfter w.tm params.TerminalId cs :=
    fun cs => observed_eq_capturedAfter _ _ _ s s1 cs hs hs1 hout hcap
  have hfound := FindStringSubmatch_eq_some marker pre _ ds rest hmatch
  have hnone' : ∀ j, j < k → FindStringSubmatch marker
      (observed ((writeToTerminal w t (augmented params.Command)).tm.appendAll
        params.TerminalId (env.atPoll j)) params.TerminalId s1.Output.length) = none := by
    intro j hj
    rw [hobs, FindStringSubmatch_eq_none]
    have := hnone j hj
    rwa [ExecEnv.readAt, if_pos (by omega)] at this
  rw [exec_start w params env s t hid hcmd hs ht, ← hout]
  rcases Nat.lt_or_ge k env.polls.length with hlt | hge
  · rw [ExecEnv.readAt, if_pos hlt] at hfound
    have hfin : env.finalAfter k = env.atFinal (k + 1) := by
      unfold ExecEnv.finalAfter
      rw [Nat.min_eq_left (by omega)]
    rw [execAwait_completed_poll _ _ _ env s1 k ds hs1 hcap1 hlt hnone'
      (by rw [hobs]; exact hfound) hfit, hobs, hfin]
    exact ⟨rfl, rfl⟩
  · have hkn : k = env.polls.length := by omega
    subst hkn
    rw [ExecEnv.readAt, if_neg (by omega)] at hfound
    have hfin : env.finalAfter env.polls.length = env.atFinal env.polls.length := by
      unfold ExecEnv.finalAfter
      rw [Nat.min_eq_right (by omega)]
    rw [execAwait_completed_final _ _ _ env s1 ds hs1 hcap1 hnone'
      (by rw [hobs]; exact hfound) hfit, hobs, hfin]
    exact ⟨rfl, rfl⟩

/-- Claim C7: on a ready session (the terminal identifier and the command are not
empty, the identifier has an entry, a terminal is attached to it and that terminal is
started, so that its kind has a backend resource `k`), the first backend write of
`ExecTerminalCommand` is one write call on that resource whose payload is exactly
`command ++ "; echo " ++ marker ++ "$?" ++ "\n"`. -/
theorem C7_first_backend_write (w : World) (params : ExecCommandInput) (env : ExecEnv)
    (s : TerminalSession) (t : TermPtr) (k : BackendSink)
    (hid : params.TerminalId ≠ "") (hcmd : params.Command ≠ [])
    (hs : w.tm.terminals params.TerminalId = some s) (ht : s.term = some t)
    (hsink : (w.heap t).sink = some k) :
    ∃ later, (ExecTerminalCommand w params env).1.writes =
      w.writes ++
        ⟨t, k, params.Command ++ ascii "; echo " ++ marker ++ ascii "$?" ++ ascii "\n"⟩
          :: later := by
  rw [exec_start w params env s t hid hcmd hs ht]
  obtain ⟨later, h⟩ := execAwait_writes (writeToTerminal w t (augmented params.Command))
    params.TerminalId params.Command s.Output.length env
  refine ⟨later, ?_⟩
  rw [h, writeToTerminal_writes, hsink]
  simp [augmented]

theorem C7_first_backend_write_witness :
    ∃ later, (ExecTerminalCommand worldBusy paramsEchoHi envEchoHi).1.writes =
      worldBusy.writes ++
        ⟨0, .localTty, ascii "echo hi; echo __OMNITERM_EXIT_CODE__$?\n"⟩ :: later :=
  C7_first_backend_write worldBusy paramsEchoHi envEchoHi
    { ID := "s1", AssetID := "a1", Output := [ascii "x"], LastCmd := ascii "ls",
      conn := some 1, term := some 0 }
    0 .localTty (by decide) (by decide) rfl rfl rfl

/-! ### The sentinel echoed once -/

theorem marker_cons : marker = 0x5F :: ascii "_OMNITERM_EXIT_CODE__" := by decide

theorem marker_ne_nil : marker ≠ [] := by decide

/-- The marker found in `p ++ marker` before the end of `p`, when it occurs there with
something behind it. -/
theorem occurrence_before_end (m p a b : GoString) (h : p ++ m = a ++ m ++ b) (hb : b ≠ []) :
    a.length < p.length ∧ m.isPrefixOf ((p ++ m).drop a.length) = true := by
  have hl := congrArg List.length h
  simp only [List.length_append] at hl
  have hbl : 0 < b.length := List.length_pos.2 hb
  refine ⟨by omega, ?_⟩
  rw [h, List.append_assoc, List.drop_left, List.isPrefixOf_iff_prefix]
  exact List.prefix_append _ _

/-- The echo `p ++ marker ++ d` of a digit string `d`, the marker occurring nowhere
before the end of `p`: the leftmost marker a digit follows comes after `p`, and `d` is
the digit run. -/
theorem leftmost_of_single_echo (m p d : GoString)
    (hp : ∀ i, i < p.length → m.isPrefixOf ((p ++ m).drop i) = false)
    (hd : d ≠ []) (hdig : ∀ x ∈ d, isDigit x = true) :
    LeftmostMarkerDigits m (p ++ m ++ d) p d [] := by
  refine ⟨by simp, hd, hdig, ?_, ?_⟩
  · intro x rest' h
    cases h
  · intro pre' d0 rest' h _
    by_contra hlt
    have hlt' : pre'.length < p.length := by omega
    have h1 : (pre' ++ m) <+: (p ++ m ++ d) := ⟨d0 :: rest', by rw [h]⟩
    have h2 : (p ++ m) <+: (p ++ m ++ d) := List.prefix_append _ _
    obtain ⟨b, hb⟩ := List.prefix_of_prefix_length_le h1 h2
      (by simp only [List.length_append]; omega)
    have hne : b ≠ [] := by
      rintro rfl
      have := congrArg List.length hb
      simp only [List.length_append, List.length_nil] at this
      omega
    have := (occurrence_before_end m p pre' b hb.symm hne).2
    rw [hp pre'.length hlt'] at this
    cases this

/-- Removing the marker from the echo `p ++ marker ++ d` leaves `p ++ d`. -/
theorem ReplaceAll_single_echo (p d : GoString)
    (hp : ∀ i, i < p.length → marker.isPrefixOf ((p ++ marker).drop i) = false)
    (hdig : ∀ x ∈ d, isDigit x = true) :
    ReplaceAll (p ++ marker ++ d) marker [] = p ++ d := by
  unfold ReplaceAll
  rw [replaceAux_leading marker [] marker_ne_nil p d]
  · rw [marker_cons, replaceAux_digits 0x5F _ [] (by decide) d hdig, List.append_nil]
  · intro a b hab
    by_contra hb
    obtain ⟨hlt, hocc⟩ := occurrence_before_end marker p a b hab hb
    rw [hp a.length hlt] at hocc
    cases hocc

/-- Claim C8, as the code has it: let `p` be an output such that the marker occurs in
`p ++ marker` nowhere before the end of `p` (in particular `p` does not contain the
marker) and `d` a non-empty decimal digit string whose value fits the type `int`.  If
the history captured beyond the low-water mark is `p ++ marker ++ d` at the read `k`
that first sees a match and at the read the report is built from, then
`ExecTerminalCommand` returns the success report with the status the digits denote and
the output `p ++ d`: the marker text is removed, the digits stay. -/
theorem C8_marker_removed_digits_kept (w : World) (params : ExecCommandInput) (env : ExecEnv)
    (s : TerminalSession) (t : TermPtr) (p d : GoString) (k : Nat)
    (hid : params.TerminalId ≠ "") (hcmd : params.Command ≠ [])
    (hs : w.tm.terminals params.TerminalId = some s) (ht : s.term = some t)
    (hcap : s.Output.length ≤ outputCap)
    (hp : ∀ i, i < p.length → marker.isPrefixOf ((p ++ marker).drop i) = false)
    (hd : d ≠ []) (hdig : ∀ x ∈ d, isDigit x = true) (hfit : decimalValue d ≤ maxInt)
    (hk : k ≤ env.polls.length)
    (hnone : ∀ j, j < k →
      ¬ HasMarkerDigit marker (capturedAfter w.tm params.TerminalId (env.readAt j)))
    (hseen : capturedAfter w.tm params.TerminalId (env.readAt k) = p ++ marker ++ d)
    (hfinal : capturedAfter w.tm params.TerminalId (env.finalAfter k) = p ++ marker ++ d) :
    (ExecTerminalCommand w params env).2 =
      .ok (.completed params.Command (decimalValue d) (p ++ d)) := by
  have hm : LeftmostMarkerDigits marker
      (capturedAfter w.tm params.TerminalId (env.readAt k)) p d [] := by
    rw [hseen]
    exact leftmost_of_single_echo marker p d hp hd hdig
  rw [(exec_completed w params env s t k p d [] hid hcmd hs ht hcap hk hnone hm hfit).1,
    hfinal, ReplaceAll_single_echo p d hp hdig]

set_option maxRecDepth 100000 in
theorem C8_marker_removed_digits_kept_witness :
    (ExecTerminalCommand worldBusy paramsEchoHi envEchoHi).2 =
      .ok (.completed paramsEchoHi.Command (decimalValue (ascii "0"))
        (ascii "hi\n" ++ ascii "0")) :=
  C8_marker_removed_digits_kept worldBusy paramsEchoHi envEchoHi
    { ID := "s1", AssetID := "a1", Output := [ascii "x"], LastCmd := ascii "ls",
      conn := some 1, term := some 0 }
    0 (ascii "hi\n") (ascii "0") 0 (by decide) (by decide) rfl rfl
    (by rw [outputCap_eq]; decide) (by decide) (by decide) (by decide) (by decide)
    (by decide) (fun j hj => absurd hj (Nat.not_lt_zero j)) (by decide!) (by decide!)

set_option maxRecDepth 100000 in
/-- Claim C8 fails as stated: the backend echoes `hi`, a line feed, the marker and `0`.
The history captured beyond the low-water mark is `p ++ marker ++ d` for `p` the bytes
of `hi` and a line feed, which do not contain the marker, and `d = 0`; the report has
the status `0`, and its output is `p` followed by `0`, not `p`. -/
theorem C8_output_keeps_digits :
    capturedAfter worldBusy.tm "s1" (envEchoHi.readAt 0) = ascii "hi\n" ++ marker ++ ascii "0" ∧
    (∀ a b, ascii "hi\n" ≠ a ++ marker ++ b) ∧
    (ExecTerminalCommand worldBusy paramsEchoHi envEchoHi).2 =
      .ok (.completed (ascii "echo hi") 0 (ascii "hi\n0")) ∧
    ascii "hi\n0" ≠ ascii "hi\n" := by
  refine ⟨by decide!, ?_, by decide!, by decide⟩
  intro a b h
  have := congrArg List.length h
  simp only [List.length_append] at this
  have h3 : (ascii "hi\n").length = 3 := by decide
  have h22 : marker.length = 22 := by decide
  omega

/-- Claim C9, as the code has it: on a ready session, let `k` be the first read (a poll,
or the read after the loop) whose history beyond the low-water mark holds the marker
immediately followed by a decimal digit, and `ds` the maximal digit run after the
leftmost such marker occurrence in that read.  If the value of `ds` fits the type `int`
(it is at most `2^63 - 1`), `ExecTerminalCommand` returns the success report
("Command completed") whose exit code is the decimal value of `ds`, and it issues no
backend write besides the first one: no interrupt byte is sent. -/
theorem C9_success_report (w : World) (params : ExecCommandInput) (env : ExecEnv)
    (s : TerminalSession) (t : TermPtr) (k : Nat) (pre ds rest : GoString)
    (hid : params.TerminalId ≠ "") (hcmd : params.Command ≠ [])
    (hs : w.tm.terminals params.TerminalId = some s) (ht : s.term = some t)
    (hcap : s.Output.length ≤ outputCap) (hk : k ≤ env.polls.length)
    (hnone : ∀ j, j < k →
      ¬ HasMarkerDigit marker (capturedAfter w.tm params.TerminalId (env.readAt j)))
    (hmatch : LeftmostMarkerDigits marker
      (capturedAfter w.tm params.TerminalId (env.readAt k)) pre ds rest)
    (hfit : decimalValue ds ≤ 9223372036854775807) :
    (ExecTerminalCommand w params env).2 =
        .ok (.completed params.Command (decimalValue ds)
          (ReplaceAll (capturedAfter w.tm params.TerminalId (env.finalAfter k)) marker [])) ∧
    (ExecTerminalCommand w params env).1.writes =
      w.writes ++ (match (w.heap t).sink with
        | some sk =>
          [⟨t, sk, params.Command ++ ascii "; echo " ++ marker ++ ascii "$?" ++ ascii "\n"⟩]
        | none => []) := by
  have h := exec_completed w params env s t k pre ds rest hid hcmd hs ht hcap hk hnone
    hmatch hfit
  refine ⟨h.1, ?_⟩
  rw [h.2, writeToTerminal_writes]
  rfl

set_option maxRecDepth 100000 in
theorem C9_success_report_witness :
    (ExecTerminalCommand worldBusy paramsEchoHi envEchoHi).2 =
        .ok (.completed paramsEchoHi.Command (decimalValue (ascii "0"))
          (ReplaceAll (capturedAfter worldBusy.tm paramsEchoHi.TerminalId
            (envEchoHi.finalAfter 0)) marker [])) ∧
    (ExecTerminalCommand worldBusy paramsEchoHi envEchoHi).1.writes =
      worldBusy.writes ++ (match (worldBusy.heap 0).sink with
        | some sk =>
          [⟨0, sk, paramsEchoHi.Command ++ ascii "; echo " ++ marker ++ ascii "$?" ++
            ascii "\n"⟩]
        | none => []) :=
  C9_success_report worldBusy paramsEchoHi envEchoHi
    { ID := "s1", AssetID := "a1", Output := [ascii "x"], LastCmd := ascii "ls",
      conn := some 1, term := some 0 }
    0 0 (ascii "hi\n") (ascii "0") [] (by decide) (by decide) rfl rfl
    (by rw [outputCap_eq]; decide) (by decide)
    (fun j hj => absurd hj (Nat.not_lt_zero j))
    (by
      have h : capturedAfter worldBusy.tm paramsEchoHi.TerminalId (envEchoHi.readAt 0)
          = ascii "hi\n" ++ marker ++ ascii "0" := by decide!
      rw [h]
      exact leftmost_of_single_echo marker (ascii "hi\n") (ascii "0") (by decide)
        (by decide) (by decide))
    (by decide)

set_option maxRecDepth 100000 in
/-- Claim C9 fails as stated: the backend echoes the marker followed by the digits
`9223372036854775808` (the number `2^63`).  The history captured beyond the low-water
mark holds the marker immediately followed by a digit, yet the call returns the
timed-out report, not the success report, and sends the interrupt byte. -/
theorem C9_overflowing_digits_time_out :
    HasMarkerDigit marker (capturedAfter worldBusy.tm "s1" (envHuge.readAt 0)) ∧
    (ExecTerminalCommand worldBusy paramsEchoHi envHuge).2 =
      .ok (.timedOut (ascii "echo hi") (ascii "9223372036854775808")) ∧
    (ExecTerminalCommand worldBusy paramsEchoHi envHuge).1.writes =
      [⟨0, .localTty, ascii "echo hi; echo __OMNITERM_EXIT_CODE__$?\n"⟩,
       ⟨0, .localTty, [0x03]⟩] := by
  refine ⟨⟨[], 0x39, ascii "223372036854775808", by decide!, by decide⟩, by decide!,
    by decide!⟩

/-- The timed-out report starts with the sentence that flags the interrupt. -/
theorem render_timedOut_begins (command output : GoString) :
    ∃ tail, (ExecReport.timedOut command output).render =
      ascii "Command timed out, attempted interrupt (Ctrl+C)." ++ tail := by
  refine ⟨ascii "\nCommand: " ++ command ++ ascii "\nOutput:\n" ++ output, ?_⟩
  have h : ascii "Command timed out, attempted interrupt (Ctrl+C).\nCommand: "
      = ascii "Command timed out, attempted interrupt (Ctrl+C)." ++ ascii "\nCommand: " := by
    decide
  unfold ExecReport.render
  rw [h]
  simp only [List.append_assoc]

/-- Claim C10, as the code has it: on a ready session whose terminal is started, if no
read of the history beyond the low-water mark that is made before the report is
decided - no poll before the deadline, nor the read that follows the loop after the
deadline - holds the marker followed by a digit, `ExecTerminalCommand` issues exactly
one write after the first one, the single byte `0x03`, and returns with a nil error
the report "Command timed out, attempted interrupt (Ctrl+C)." followed by the command
and by the output `out`: everything accumulated beyond the low-water mark at the read
after the interrupt, with the occurrences of the marker cut out that one pass from
left to right finds without overlap. -/
theorem C10_timeout_interrupt (w : World) (params : ExecCommandInput) (env : ExecEnv)
    (s : TerminalSession) (t : TermPtr) (sk : BackendSink)
    (hid : params.TerminalId ≠ "") (hcmd : params.Command ≠ [])
    (hs : w.tm.terminals params.TerminalId = some s) (ht : s.term = some t)
    (hcap : s.Output.length ≤ outputCap) (hsink : (w.heap t).sink = some sk)
    (hnone : ∀ j, j ≤ env.polls.length →
      ¬ HasMarkerDigit marker (capturedAfter w.tm params.TerminalId (env.readAt j))) :
    ∃ out : GoString,
      CutsOut marker
        (capturedAfter w.tm params.TerminalId (env.atInterrupt env.polls.length)) out ∧
      (ExecTerminalCommand w params env).2 = .ok (.timedOut params.Command out) ∧
      (ExecTerminalCommand w params env).1.writes =
        w.writes ++
          [⟨t, sk, params.Command ++ ascii "; echo " ++ marker ++ ascii "$?" ++ ascii "\n"⟩,
           ⟨t, sk, [0x03]⟩] ∧
      (ExecReport.timedOut params.Command out).render =
        ascii "Command timed out, attempted interrupt (Ctrl+C)." ++
          (ascii "\nCommand: " ++ params.Command ++ ascii "\nOutput:\n" ++ out) := by
  obtain ⟨s1, hs1, hout, hterm⟩ :=
    writeToTerminal_lookup w t (augmented params.Command) params.TerminalId s hs
  have hcap1 : s1.Output.length ≤ outputCap := by rw [hout]; exact hcap
  have hobs : ∀ cs, observed ((writeToTerminal w t (augmented params.Command)).tm.appendAll
      params.TerminalId cs) params.TerminalId s1.Output.length
        = capturedAfter w.tm params.TerminalId cs :=
    fun cs => observed_eq_capturedAfter _ _ _ s s1 cs hs hs1 hout hcap
  have hpolls : ∀ j, j < env.polls.length → FindStringSubmatch marker
      (observed ((writeToTerminal w t (augmented params.Command)).tm.appendAll
        params.TerminalId (env.atPoll j)) params.TerminalId s1.Output.length) = none := by
    intro j hj
    rw [hobs, FindStringSubmatch_eq_none]
    have := hnone j (by omega)
    rwa [ExecEnv.readAt, if_pos hj] at this
  have hfinal : FindStringSubmatch marker
      (observed ((writeToTerminal w t (augmented params.Command)).tm.appendAll
        params.TerminalId (env.atFinal env.polls.length)) params.TerminalId
        s1.Output.length) = none := by
    rw [hobs, FindStringSubmatch_eq_none]
    have := hnone env.polls.length (Nat.le_refl _)
    rwa [ExecEnv.readAt, if_neg (Nat.lt_irrefl _)] at this
  have h := execAwait_timedOut (writeToTerminal w t (augmented params.Command))
    params.TerminalId params.Command env s1 t hs1 hcap1 (by rw [hterm, ht]) hpolls hfinal
  refine ⟨ReplaceAll
      (capturedAfter w.tm params.TerminalId (env.atInterrupt env.polls.length)) marker [],
    ReplaceAll_cuts marker marker_ne_nil _, ?_, ?_, ?_⟩
  · rw [exec_start w params env s t hid hcmd hs ht, ← hout, h.1, hobs]
  · rw [exec_start w params env s t hid hcmd hs ht, ← hout, h.2, writeToTerminal_heap,
      writeToTerminal_writes, hsink]
    simp [augmented]
  · have hsplit : ascii "Command timed out, attempted interrupt (Ctrl+C).\nCommand: "
        = ascii "Command timed out, attempted interrupt (Ctrl+C)." ++ ascii "\nCommand: " := by
      decide
    unfold ExecReport.render
    rw [hsplit]
    simp only [List.append_assoc]

set_option maxRecDepth 100000 in
theorem C10_timeout_interrupt_witness :
    ∃ out : GoString,
      CutsOut marker
        (capturedAfter worldBusy.tm paramsEchoHi.TerminalId
          (envSilent.atInterrupt envSilent.polls.length)) out ∧
      (ExecTerminalCommand worldBusy paramsEchoHi envSilent).2 =
        .ok (.timedOut paramsEchoHi.Command out) ∧
      (ExecTerminalCommand worldBusy paramsEchoHi envSilent).1.writes =
        worldBusy.writes ++
          [⟨0, .localTty,
              paramsEchoHi.Command ++ ascii "; echo " ++ marker ++ ascii "$?" ++ ascii "\n"⟩,
           ⟨0, .localTty, [0x03]⟩] ∧
      (ExecReport.timedOut paramsEchoHi.Command out).render =
        ascii "Command timed out, attempted interrupt (Ctrl+C)." ++
          (ascii "\nCommand: " ++ paramsEchoHi.Command ++ ascii "\nOutput:\n" ++ out) :=
  C10_timeout_interrupt worldBusy paramsEchoHi envSilent
    { ID := "s1", AssetID := "a1", Output := [ascii "x"], LastCmd := ascii "ls",
      conn := some 1, term := some 0 }
    0 .localTty (by decide) (by decide) rfl rfl (by rw [outputCap_eq]; decide) rfl
    (by
      intro j _
      have h : ∀ j, capturedAfter worldBusy.tm paramsEchoHi.TerminalId (envSilent.readAt j)
          = [] := by
        intro j
        have h2 : envSilent.readAt j = [] := by
          unfold ExecEnv.readAt ExecEnv.atPoll ExecEnv.atFinal
          split
          · rename_i hlt
            have hj : j = 0 ∨ j = 1 := by
              have : envSilent.polls.length = 2 := rfl
              omega
            rcases hj with rfl | rfl <;> rfl
          · rfl
        rw [h2]
        decide!
      rw [h]
      rintro ⟨pre, d, rest, hs, -⟩
      have := congrArg List.length hs
      simp at this
      omega)

set_option maxRecDepth 100000 in
/-- Claim C10 fails as stated, in two ways.  With `envLate` no poll before the deadline
sees the marker followed by a digit (the history beyond the mark is empty at both
polls), yet the read after the loop finds the sentinel that arrived after the
deadline: the call returns the success report with exit code `0` and sends no
interrupt byte.  With `envNested` no read at all holds the marker followed by a digit
and the call times out, but the output of its report is the marker itself: cutting
the marker out of `nestedMarker` brings a marker together. -/
theorem C10_late_sentinel_completes :
    (∀ j, j < envLate.polls.length →
      ¬ HasMarkerDigit marker (capturedAfter worldBusy.tm "s1" (envLate.atPoll j))) ∧
    (ExecTerminalCommand worldBusy paramsEchoHi envLate).2 =
      .ok (.completed (ascii "echo hi") 0 (ascii "0")) ∧
    (ExecTerminalCommand worldBusy paramsEchoHi envLate).1.writes =
      [⟨0, .localTty, ascii "echo hi; echo __OMNITERM_EXIT_CODE__$?\n"⟩] ∧
    (∀ j, capturedAfter worldBusy.tm "s1" (envNested.readAt j) = nestedMarker) ∧
    ¬ HasMarkerDigit marker nestedMarker ∧
    (ExecTerminalCommand worldBusy paramsEchoHi envNested).2 =
      .ok (.timedOut (ascii "echo hi") marker) := by
  refine ⟨?_, by decide!, by decide!, ?_, ?_, by decide!⟩
  · intro j hj
    have hj2 : j = 0 ∨ j = 1 := by
      have : envLate.polls.length = 2 := rfl
      omega
    rw [← FindStringSubmatch_eq_none]
    rcases hj2 with rfl | rfl <;> decide!
  · intro j
    have h2 : envNested.readAt j = [nestedMarker] := by
      unfold ExecEnv.readAt ExecEnv.atPoll ExecEnv.atFinal
      split
      · rename_i hlt
        have hj : j = 0 := by
          have : envNested.polls.length = 1 := rfl
          omega
        rw [hj]
        rfl
      · rfl
    rw [h2]
    decide!
  · rw [← FindStringSubmatch_eq_none]
    decide!

/-! ### Errors of `ExecTerminalCommand` -/

/-- The part of `ExecTerminalCommand` behind the two guards returns no error. -/
theorem execAwait_not_err (w1 : World) (id : String) (cmd : GoString) (n : Nat)
    (env : ExecEnv) (e : ExecError) : (execAwait w1 id cmd n env).2 ≠ .err e := by
  unfold execAwait
  dsimp only
  repeat' split
  all_goals simp

/-- The registry the polling loop leaves is the one it started from with some chunks
appended. -/
theorem pollLoop_appendAll (id : String) (startLen : Nat) :
    ∀ (polls : List (List GoString)) (tm : TerminalManager),
      ∃ cs, (pollLoop id startLen tm polls).1 = tm.appendAll id cs := by
  intro polls
  induction polls with
  | nil =>
    intro tm
    exact ⟨[], rfl⟩
  | cons batch rest ih =>
    intro tm
    rw [pollLoop_cons]
    split
    · exact ⟨batch, rfl⟩
    · obtain ⟨cs, hcs⟩ := ih (tm.appendAll id batch)
      exact ⟨batch ++ cs, by rw [hcs, appendAll_append]⟩

/-- On a session whose history is within the cap no slice expression of
`ExecTerminalCommand` panics: the part behind the guards ends with a report. -/
theorem execAwait_ok (w1 : World) (id : String) (cmd : GoString) (env : ExecEnv)
    (s1 : TerminalSession) (hs : w1.tm.terminals id = some s1)
    (hcap : s1.Output.length ≤ outputCap) :
    ∃ report, (execAwait w1 id cmd s1.Output.length env).2 = .ok report := by
  obtain ⟨cs, hcs⟩ := pollLoop_appendAll id s1.Output.length env.polls w1.tm
  unfold execAwait
  simp only [hcs, appendAll_append, sliceFrom_appendAll w1.tm id s1 _ hs hcap,
    writeToTerminal_interrupt_tm]
  repeat' split
  all_goals exact ⟨_, rfl⟩

/-- Claim C11: `ExecTerminalCommand` returns an error exactly when the terminal id is
empty, the command is empty, the registry has no entry for the terminal id, or the entry
has no backend connection attached.  In each of those cases the state it leaves is the
state it was called in: no backend write is issued and the registry is unchanged.  In
every other case, the history of the session being within the cap, it returns a report
with a nil error. -/
theorem C11_exec_error_iff (w : World) (params : ExecCommandInput) (env : ExecEnv) :
    ((∃ e, (ExecTerminalCommand w params env).2 = .err e) ↔
      (params.TerminalId = "" ∨ params.Command = [] ∨
        w.tm.terminals params.TerminalId = none ∨
        ∃ s, w.tm.terminals params.TerminalId = some s ∧ s.term = none)) ∧
    ((params.TerminalId = "" ∨ params.Command = [] ∨
        w.tm.terminals params.TerminalId = none ∨
        ∃ s, w.tm.terminals params.TerminalId = some s ∧ s.term = none) →
      (ExecTerminalCommand w params env).1 = w) ∧
    (∀ s t, params.TerminalId ≠ "" → params.Command ≠ [] →
      w.tm.terminals params.TerminalId = some s → s.term = some t →
      s.Output.length ≤ outputCap →
      ∃ report, (ExecTerminalCommand w params env).2 = .ok report) := by
  have herr : (params.TerminalId = "" ∨ params.Command = [] ∨
        w.tm.terminals params.TerminalId = none ∨
        ∃ s, w.tm.terminals params.TerminalId = some s ∧ s.term = none) →
      (∃ e, (ExecTerminalCommand w params env).2 = .err e) ∧
        (ExecTerminalCommand w params env).1 = w := by
    intro h
    unfold ExecTerminalCommand
    by_cases h0 : params.TerminalId = "" ∨ params.Command = []
    · rw [if_pos h0]
      exact ⟨⟨_, rfl⟩, rfl⟩
    · rw [if_neg h0]
      rcases h with h | h | h | ⟨s, hs, ht⟩
      · exact absurd (Or.inl h) h0
      · exact absurd (Or.inr h) h0
      · rw [h]
        exact ⟨⟨_, rfl⟩, rfl⟩
      · rw [hs]
        dsimp only
        rw [ht]
        exact ⟨⟨_, rfl⟩, rfl⟩
  refine ⟨⟨?_, fun h => (herr h).1⟩, fun h => (herr h).2, ?_⟩
  · rintro ⟨e, he⟩
    by_contra hno
    simp only [not_or, not_exists, not_and] at hno
    obtain ⟨hid, hcmd, hsome, hterm⟩ := hno
    cases hs : w.tm.terminals params.TerminalId with
    | none => exact hsome hs
    | some s =>
      cases ht : s.term with
      | none => exact hterm s hs ht
      | some t =>
        rw [exec_start w params env s t hid hcmd hs ht] at he
        exact execAwait_not_err _ _ _ _ _ _ he
  · intro s t hid hcmd hs ht hcap
    obtain ⟨s1, hs1, hout, -⟩ :=
      writeToTerminal_lookup w t (augmented params.Command) params.TerminalId s hs
    rw [exec_start w params env s t hid hcmd hs ht, ← hout]
    exact execAwait_ok _ _ _ env s1 hs1 (by rw [hout]; exact hcap)

set_option maxRecDepth 100000 in
theorem C11_exec_error_iff_witness :
    (ExecTerminalCommand worldBusy
        { TerminalId := "s9", Command := ascii "ls", TimeoutSeconds := 5 } envSilent).1
        = worldBusy ∧
    ∃ report, (ExecTerminalCommand worldBusy paramsEchoHi envEchoHi).2 = .ok report :=
  ⟨(C11_exec_error_iff worldBusy
      { TerminalId := "s9", Command := ascii "ls", TimeoutSeconds := 5 } envSilent).2.1
      (Or.inr (Or.inr (Or.inl rfl))),
   (C11_exec_error_iff worldBusy paramsEchoHi envEchoHi).2.2
      { ID := "s1", AssetID := "a1", Output := [ascii "x"], LastCmd := ascii "ls",
        conn := some 1, term := some 0 }
      0 (by decide) (by decide) rfl rfl (by rw [outputCap_eq]; decide)⟩

/-! ### The output correlation manager -/

@[simp] theorem tom_set_same (tom : TerminalOutputManager) (k : String) (v : OutputRequest) :
    (tom.set k v).pendingRequests k = some v := by
  simp [TerminalOutputManager.set]

theorem tom_set_other (tom : TerminalOutputManager) (k k' : String) (v : OutputRequest)
    (h : k' ≠ k) : (tom.set k v).pendingRequests k' = tom.pendingRequests k' := by
  simp [TerminalOutputManager.set, h]

@[simp] theorem tom_delete_same (tom : TerminalOutputManager) (k : String) :
    (tom.delete k).pendingRequests k = none := by
  simp [TerminalOutputManager.delete]

theorem tom_delete_other (tom : TerminalOutputManager) (k k' : String) (h : k' ≠ k) :
    (tom.delete k).pendingRequests k' = tom.pendingRequests k' := by
  simp [TerminalOutputManager.delete, h]

/-- A response touches no entry but the one of its own correlation id. -/
theorem HandleOutputResponse_other (tom : TerminalOutputManager) (r : TermOutputResponse)
    (k : String) (hk : r.RequestID ≠ k) :
    (tom.HandleOutputResponse r).pendingRequests k = tom.pendingRequests k := by
  unfold TerminalOutputManager.HandleOutputResponse
  split
  · rfl
  · split
    · exact tom_set_other _ _ _ _ (Ne.symm hk)
    · rfl

/-- A response whose correlation id is not pending is dropped. -/
theorem HandleOutputResponse_not_pending (tom : TerminalOutputManager)
    (r : TermOutputResponse) (h : tom.pendingRequests r.RequestID = none) :
    tom.HandleOutputResponse r = tom := by
  unfold TerminalOutputManager.HandleOutputResponse
  rw [h]

/-- The wait leaves every entry that no arriving response is addressed to. -/
theorem awaitResponse_other (id k : String) :
    ∀ (arrivals : List TermOutputResponse) (tom : TerminalOutputManager),
      (∀ a ∈ arrivals, a.RequestID ≠ k) →
      (awaitResponse id tom arrivals).1.pendingRequests k = tom.pendingRequests k := by
  intro arrivals
  induction arrivals with
  | nil =>
    intro tom _
    rfl
  | cons r rest ih =>
    intro tom h
    have hr : r.RequestID ≠ k := h r (List.mem_cons_self _ _)
    have hrest : ∀ a ∈ rest, a.RequestID ≠ k := fun a ha => h a (List.mem_cons_of_mem _ ha)
    unfold awaitResponse
    dsimp only
    split
    · split
      · exact HandleOutputResponse_other tom r k hr
      · rw [ih _ hrest]
        exact HandleOutputResponse_other tom r k hr
    · rw [ih _ hrest]
      exact HandleOutputResponse_other tom r k hr

/-- Claim C12: when the registry has no entry for the terminal id, or the entry has no
outbound sink, `RequestTerminalOutput` returns an error at once: the pending-request
map is left as it was and no frame is written. -/
theorem C12_request_without_sink (tm : TerminalManager) (tom : TerminalOutputManager)
    (terminalId : String) (lines : Int) (env : RequestEnv)
    (h : tm.terminals terminalId = none ∨
      ∃ s, tm.terminals terminalId = some s ∧ s.conn = none) :
    (∃ e, (tm.RequestTerminalOutput tom terminalId lines env).result = .error e) ∧
    (tm.RequestTerminalOutput tom terminalId lines env).tom = tom ∧
    (tm.RequestTerminalOutput tom terminalId lines env).frames = [] := by
  unfold TerminalManager.RequestTerminalOutput
  rcases h with h | ⟨s, hs, hc⟩
  · rw [h]
    exact ⟨⟨_, rfl⟩, rfl, rfl⟩
  · rw [hs]
    dsimp only
    rw [hc]
    exact ⟨⟨_, rfl⟩, rfl, rfl⟩

theorem C12_request_without_sink_witness :
    (∃ e, (tmOne.RequestTerminalOutput tomPending "s1" 200 reqEnvAnswered).result
        = .error e) ∧
    (tmOne.RequestTerminalOutput tomPending "s1" 200 reqEnvAnswered).tom = tomPending ∧
    (tmOne.RequestTerminalOutput tomPending "s1" 200 reqEnvAnswered).frames = [] :=
  C12_request_without_sink tmOne tomPending "s1" 200 reqEnvAnswered
    (Or.inr ⟨{ ID := "s1", AssetID := "a1", Output := [], LastCmd := [], conn := none,
               term := none }, rfl, rfl⟩)

/-- Every return path of `RequestTerminalOutput` behind the registration ends with the
deletion of the generated id from a map that differs from the one at the call only in
entries a response was addressed to. -/
theorem RequestTerminalOutput_deletes (tm : TerminalManager) (tom : TerminalOutputManager)
    (terminalId : String) (lines : Int) (env : RequestEnv) (s : TerminalSession)
    (conn : ConnPtr) (hs : tm.terminals terminalId = some s) (hconn : s.conn = some conn) :
    ∃ X : TerminalOutputManager,
      (tm.RequestTerminalOutput tom terminalId lines env).tom = X.delete env.requestID ∧
      ∀ k, k ≠ env.requestID → (∀ a ∈ env.arrivals, a.RequestID ≠ k) →
        X.pendingRequests k = tom.pendingRequests k := by
  have hwait : ∀ k, k ≠ env.requestID → (∀ a ∈ env.arrivals, a.RequestID ≠ k) →
      (awaitResponse env.requestID
        (tom.set env.requestID
          { requestID := env.requestID, response := none, timeout := env.now + 5 })
        env.arrivals).1.pendingRequests k = tom.pendingRequests k := by
    intro k hk ha
    rw [awaitResponse_other _ _ _ _ ha, tom_set_other _ _ _ _ hk]
  unfold TerminalManager.RequestTerminalOutput
  rw [hs]
  dsimp only
  rw [hconn]
  dsimp only
  split
  · exact ⟨_, rfl, fun k hk _ => tom_set_other _ _ _ _ hk⟩
  · split
    · exact ⟨_, rfl, fun k hk _ => tom_set_other _ _ _ _ hk⟩
    · split
      · split
        · exact ⟨_, rfl, hwait⟩
        · exact ⟨_, rfl, hwait⟩
      · exact ⟨_, rfl, hwait⟩

/-- Claim C13: on every return path of `RequestTerminalOutput` that registered a pending
request (the session has a sink, so the call gets past its two guards: marshalling or
send failure, response received with success or failure, timeout), the pending-request
map no longer holds the correlation id the call generated, and every other entry, unless
a response arriving during the wait was addressed to it, is as it was at the call.
Hence a response that carries this correlation id and arrives after the return is
dropped by `HandleOutputResponse`: the manager is unchanged. -/
theorem C13_pending_entry_removed (tm : TerminalManager) (tom : TerminalOutputManager)
    (terminalId : String) (lines : Int) (env : RequestEnv) (s : TerminalSession)
    (conn : ConnPtr) (hs : tm.terminals terminalId = some s) (hconn : s.conn = some conn) :
    (tm.RequestTerminalOutput tom terminalId lines env).tom.pendingRequests env.requestID
        = none ∧
    (∀ k, k ≠ env.requestID → (∀ a ∈ env.arrivals, a.RequestID ≠ k) →
      (tm.RequestTerminalOutput tom terminalId lines env).tom.pendingRequests k
        = tom.pendingRequests k) ∧
    (∀ late : TermOutputResponse, late.RequestID = env.requestID →
      (tm.RequestTerminalOutput tom terminalId lines env).tom.HandleOutputResponse late
        = (tm.RequestTerminalOutput tom terminalId lines env).tom) := by
  obtain ⟨X, hX, hother⟩ :=
    RequestTerminalOutput_deletes tm tom terminalId lines env s conn hs hconn
  rw [hX]
  refine ⟨tom_delete_same _ _, ?_, ?_⟩
  · intro k hk ha
    rw [tom_delete_other _ _ _ hk]
    exact hother k hk ha
  · intro late hlate
    apply HandleOutputResponse_not_pending
    rw [hlate]
    exact tom_delete_same _ _

theorem C13_pending_entry_removed_witness :
    (tmBusy.RequestTerminalOutput tomEmpty "s1" 200 reqEnvTimeout).tom.pendingRequests
        reqEnvTimeout.requestID = none ∧
    (tmBusy.RequestTerminalOutput tomEmpty "s1" 200 reqEnvTimeout).tom.pendingRequests "r2"
        = tomEmpty.pendingRequests "r2" ∧
    (tmBusy.RequestTerminalOutput tomEmpty "s1" 200 reqEnvTimeout).tom.HandleOutputResponse
        respOk = (tmBusy.RequestTerminalOutput tomEmpty "s1" 200 reqEnvTimeout).tom :=
  ⟨(C13_pending_entry_removed tmBusy tomEmpty "s1" 200 reqEnvTimeout
      { ID := "s1", AssetID := "a1", Output := [ascii "x"], LastCmd := ascii "ls",
        conn := some 1, term := some 0 } 1 rfl rfl).1,
   (C13_pending_entry_removed tmBusy tomEmpty "s1" 200 reqEnvTimeout
      { ID := "s1", AssetID := "a1", Output := [ascii "x"], LastCmd := ascii "ls",
        conn := some 1, term := some 0 } 1 rfl rfl).2.1 "r2" (by decide)
      (fun a ha => absurd ha (List.not_mem_nil a)),
   (C13_pending_entry_removed tmBusy tomEmpty "s1" 200 reqEnvTimeout
      { ID := "s1", AssetID := "a1", Output := [ascii "x"], LastCmd := ascii "ls",
        conn := some 1, term := some 0 } 1 rfl rfl).2.2 respOk rfl⟩

/-- Claim C14: `HandleOutputResponse` is single-shot.  A response whose correlation id
is not pending leaves the manager unchanged; for a pending id whose response slot is
empty the slot afterwards holds that response; and for two responses `r1`, `r2` with
the same correlation id, delivering `r1` then `r2` leaves the state that delivering `r1`
alone leaves, so that `r2` is dropped and a slot that was empty holds `r1`.  The
delivery is a total function: it never blocks. -/
theorem C14_handle_single_shot (tom : TerminalOutputManager) (r1 r2 : TermOutputResponse) :
    (tom.pendingRequests r1.RequestID = none → tom.HandleOutputResponse r1 = tom) ∧
    (∀ req, tom.pendingRequests r1.RequestID = some req → req.response = none →
      (tom.HandleOutputResponse r1).pendingRequests r1.RequestID =
        some { req with response := some r1 }) ∧
    (r1.RequestID = r2.RequestID →
      (tom.HandleOutputResponse r1).HandleOutputResponse r2 = tom.HandleOutputResponse r1) ∧
    (∀ req, tom.pendingRequests r1.RequestID = some req → req.response = none →
      r1.RequestID = r2.RequestID →
      ((tom.HandleOutputResponse r1).HandleOutputResponse r2).pendingRequests r1.RequestID =
        some { req with response := some r1 }) := by
  have hfill : ∀ req, tom.pendingRequests r1.RequestID = some req → req.response = none →
      (tom.HandleOutputResponse r1).pendingRequests r1.RequestID =
        some { req with response := some r1 } := by
    intro req hreq hnone
    unfold TerminalOutputManager.HandleOutputResponse
    rw [hreq]
    dsimp only
    rw [hnone]
    exact tom_set_same _ _ _
  have htwice : r1.RequestID = r2.RequestID →
      (tom.HandleOutputResponse r1).HandleOutputResponse r2 = tom.HandleOutputResponse r1 := by
    intro hid
    cases hp : tom.pendingRequests r1.RequestID with
    | none =>
      rw [HandleOutputResponse_not_pending tom r1 hp]
      exact HandleOutputResponse_not_pending tom r2 (by rw [← hid]; exact hp)
    | some req =>
      cases hslot : req.response with
      | none =>
        have h1 := hfill req hp hslot
        generalize tom.HandleOutputResponse r1 = tom1 at h1 ⊢
        unfold TerminalOutputManager.HandleOutputResponse
        rw [← hid, h1]
      | some x =>
        have h1 : tom.HandleOutputResponse r1 = tom := by
          unfold TerminalOutputManager.HandleOutputResponse
          rw [hp]
          dsimp only
          rw [hslot]
        rw [h1]
        unfold TerminalOutputManager.HandleOutputResponse
        rw [← hid, hp]
        dsimp only
        rw [hslot]
  refine ⟨HandleOutputResponse_not_pending tom r1, hfill, htwice, ?_⟩
  intro req hreq hnone hid
  rw [htwice hid]
  exact hfill req hreq hnone

theorem C14_handle_single_shot_witness :
    (tomEmpty.HandleOutputResponse respOk = tomEmpty) ∧
    ((tomPending.HandleOutputResponse respOk).pendingRequests respOk.RequestID =
      some { ({ requestID := "r1", response := none, timeout := 5 } : OutputRequest) with
        response := some respOk }) ∧
    ((tomPending.HandleOutputResponse respOk).HandleOutputResponse respFail =
      tomPending.HandleOutputResponse respOk) ∧
    (((tomPending.HandleOutputResponse respOk).HandleOutputResponse respFail).pendingRequests
        respOk.RequestID =
      some { ({ requestID := "r1", response := none, timeout := 5 } : OutputRequest) with
        response := some respOk }) :=
  ⟨(C14_handle_single_shot tomEmpty respOk respFail).1 rfl,
   (C14_handle_single_shot tomPending respOk respFail).2.1 _ rfl rfl,
   (C14_handle_single_shot tomPending respOk respFail).2.2.1 rfl,
   (C14_handle_single_shot tomPending respOk respFail).2.2.2 _ rfl rfl rfl⟩

/-! ### Outbound frames -/

/-- The chunks the loop of `sendDataToWebSocket` writes from the index `i` on when no
write fails: they concatenate to the rest of the data, each holds between 1 and 8192
bytes, each but the last holds 8192 bytes, and there are `ceil((len - i) / 8192)` of
them. -/
theorem sendChunks_spec (data : GoString) :
    ∀ (fuel i : Nat), data.length - i ≤ fuel →
      (sendChunks data (fun _ => false) fuel i).2 = false ∧
      (sendChunks data (fun _ => false) fuel i).1.flatten = data.drop i ∧
      (∀ f ∈ (sendChunks data (fun _ => false) fuel i).1, 1 ≤ f.length ∧ f.length ≤ 8192) ∧
      (∀ f ∈ (sendChunks data (fun _ => false) fuel i).1.dropLast, f.length = 8192) ∧
      (sendChunks data (fun _ => false) fuel i).1.length = (data.length - i + 8191) / 8192 := by
  intro fuel
  induction fuel with
  | zero =>
    intro i hi
    have h0 : data.length - i = 0 := by omega
    have hstep : sendChunks data (fun _ => false) 0 i = ([], false) := rfl
    rw [hstep]
    refine ⟨rfl, ?_, ?_, ?_, ?_⟩
    · rw [List.flatten_nil, List.drop_eq_nil_of_le (by omega)]
    · intro f hf
      cases hf
    · intro f hf
      cases hf
    · rw [h0]
      rfl
  | succ fuel ih =>
    intro i hi
    by_cases hlt : i < data.length
    · obtain ⟨ih2, ihflat, ihlen, ihlast, ihcount⟩ := ih (i + 8192) (by omega)
      have hstep : sendChunks data (fun _ => false) (fuel + 1) i =
          ((data.drop i).take ((if i + 8192 > data.length then data.length else i + 8192) - i)
              :: (sendChunks data (fun _ => false) fuel (i + 8192)).1,
            (sendChunks data (fun _ => false) fuel (i + 8192)).2) := by
        rw [sendChunks]
        simp [hlt, maxChunkSize]
      rw [hstep]
      have hclen : ((data.drop i).take
          ((if i + 8192 > data.length then data.length else i + 8192) - i)).length
            = min 8192 (data.length - i) := by
        rw [List.length_take, List.length_drop]
        split <;> omega
      refine ⟨ih2, ?_, ?_, ?_, ?_⟩
      · rw [List.flatten_cons, ihflat]
        by_cases hbig : i + 8192 > data.length
        · rw [if_pos hbig, List.drop_eq_nil_of_le (by omega : data.length ≤ i + 8192),
            List.append_nil, List.take_of_length_le (by rw [List.length_drop])]
        · rw [if_neg hbig]
          have h8 : i + 8192 - i = 8192 := by omega
          rw [h8, ← List.drop_drop, List.take_append_drop]
      · intro f hf
        rcases List.mem_cons.1 hf with rfl | hf'
        · rw [hclen]
          omega
        · exact ihlen f hf'
      · intro f hf
        cases hrest : (sendChunks data (fun _ => false) fuel (i + 8192)).1 with
        | nil =>
          rw [hrest] at hf
          simp at hf
        | cons g gs =>
          rw [hrest, List.dropLast_cons₂] at hf
          have hcount := ihcount
          rw [hrest] at hcount
          simp only [List.length_cons] at hcount
          rcases List.mem_cons.1 hf with rfl | hf'
          · rw [hclen]
            omega
          · apply ihlast
            rw [hrest]
            exact hf'
      · rw [List.length_cons, ihcount]
        omega
    · have h0 : data.length - i = 0 := by omega
      have hstep : sendChunks data (fun _ => false) (fuel + 1) i = ([], false) := by
        rw [sendChunks]
        simp [hlt]
      rw [hstep]
      refine ⟨rfl, ?_, ?_, ?_, ?_⟩
      · rw [List.flatten_nil, List.drop_eq_nil_of_le (by omega)]
      · intro f hf
        cases hf
      · intro f hf
        cases hf
      · rw [h0]
        rfl

/-- Claim C15: when the terminal has a sink and every write succeeds,
`sendDataToWebSocket` returns a nil error and the frames it writes are binary frames
on the sink whose payloads partition `data`: their concatenation in order is `data`,
every payload has between 1 and 8192 bytes, every payload but the last has exactly 8192
bytes, and their number is `ceil(len(data) / 8192)` (no frame for empty data). -/
theorem C15_frames_partition_data (w : World) (t : TermPtr) (data : GoString) (conn : ConnPtr)
    (hconn : (w.heap t).conn = some conn) :
    ∃ chunks : List GoString,
      (sendDataToWebSocket w t data (fun _ => false)).frames =
        chunks.map (fun chunk => ⟨conn, .binary chunk⟩) ∧
      (sendDataToWebSocket w t data (fun _ => false)).err = none ∧
      chunks.flatten = data ∧
      (∀ f ∈ chunks, 1 ≤ f.length ∧ f.length ≤ 8192) ∧
      (∀ f ∈ chunks.dropLast, f.length = 8192) ∧
      chunks.length = (data.length + 8191) / 8192 := by
  obtain ⟨h2, hflat, hlen, hlast, hcount⟩ :=
    sendChunks_spec data data.length 0 (by omega)
  refine ⟨(sendChunks data (fun _ => false) data.length 0).1, ?_, ?_, ?_, hlen, hlast, ?_⟩
  · unfold sendDataToWebSocket
    rw [hconn]
  · unfold sendDataToWebSocket
    rw [hconn]
    simp only [h2]
    rfl
  · rw [hflat, List.drop_zero]
  · rw [hcount, Nat.sub_zero]

theorem C15_frames_partition_data_witness :
    ∃ chunks : List GoString,
      (sendDataToWebSocket worldBusy 0 (List.replicate 8193 7) (fun _ => false)).frames =
        chunks.map (fun chunk => ⟨1, .binary chunk⟩) ∧
      (sendDataToWebSocket worldBusy 0 (List.replicate 8193 7) (fun _ => false)).err = none ∧
      chunks.flatten = List.replicate 8193 7 ∧
      (∀ f ∈ chunks, 1 ≤ f.length ∧ f.length ≤ 8192) ∧
      (∀ f ∈ chunks.dropLast, f.length = 8192) ∧
      chunks.length = ((List.replicate 8193 (7 : UInt8)).length + 8191) / 8192 :=
  C15_frames_partition_data worldBusy 0 (List.replicate 8193 7) 1 rfl

/-! ### Decoding and dispatching inbound frames -/

/-- The registry maps exactly the six struct names, each to its own struct type. -/
theorem msgTypes_eq_some_iff (name : String) (k : MsgKind) :
    msgTypes name = some k ↔ name = getTypeName k := by
  constructor
  · intro h
    simp only [msgTypes, List.foldl, RegisterMsgType, getTypeName] at h
    split_ifs at h with h1 h2 h3 h4 h5 h6
    all_goals
      cases h
      assumption
  · rintro rfl
    cases k <;> rfl

/-- A name that is none of the six is not in the registry. -/
theorem msgTypes_eq_none (name : String) (h : name ∉ registeredNames) :
    msgTypes name = none := by
  cases hk : msgTypes name with
  | none => rfl
  | some k =>
    exfalso
    apply h
    rw [(msgTypes_eq_some_iff name k).1 hk]
    cases k <;> decide

/-- Claim C16: `ParseMessage` decodes by discriminant.  For every text frame that does
not decode to a `Base` whose `Type` is one of `TermResize`, `TermInput`, `TermPause`,
`TermOutputRequest`, `TermOutputResponse`, `TermSetSessionId` (a frame that does not
decode at all, one with another type, one with no type and hence the empty string) it
returns an error and no message.  For every frame whose `Type` is the name of one of
the six structs and that decodes into that struct, it returns that struct, of exactly
that type, as the decoder filled it. -/
theorem C16_parse_by_discriminant (json : JsonDecoder) (data : GoString) :
    ((∀ base, json.unmarshalBase data = .ok base → base.Type_ ∉ registeredNames) →
      ∃ e, ParseMessage json data = .error e) ∧
    (∀ base k msg, json.unmarshalBase data = .ok base → base.Type_ = getTypeName k →
      json.unmarshal k data = .ok msg →
      ParseMessage json data = .ok (Message.ofKind k msg) ∧
        (Message.ofKind k msg).kind = k) ∧
    (∀ k, getTypeName k ∈ registeredNames) := by
  refine ⟨?_, ?_, ?_⟩
  · intro h
    unfold ParseMessage
    cases hb : json.unmarshalBase data with
    | error e => exact ⟨_, rfl⟩
    | ok base =>
      dsimp only
      rw [msgTypes_eq_none _ (h base hb)]
      exact ⟨_, rfl⟩
  · intro base k msg hb hk hm
    unfold ParseMessage
    rw [hb]
    dsimp only
    rw [(msgTypes_eq_some_iff base.Type_ k).2 hk]
    dsimp only
    rw [hm]
    exact ⟨rfl, by cases k <;> rfl⟩
  · intro k
    cases k <;> decide

theorem C16_parse_by_discriminant_witness :
    (∃ e, ParseMessage jsonSample frameUnknown = .error e) ∧
    (ParseMessage jsonSample frameInput =
        .ok (Message.ofKind .TermInput { Type_ := "TermInput", Data := ascii "ls" }) ∧
      (Message.ofKind .TermInput { Type_ := "TermInput", Data := ascii "ls" }).kind
        = .TermInput) :=
  ⟨(C16_parse_by_discriminant jsonSample frameUnknown).1
      (fun base hb => by
        have h : base = ⟨"Nope"⟩ := by
          have h2 : jsonSample.unmarshalBase frameUnknown = .ok ⟨"Nope"⟩ := rfl
          rw [h2] at hb
          cases hb
          rfl
        rw [h]
        decide),
   (C16_parse_by_discriminant jsonSample frameInput).2.1 ⟨"TermInput"⟩ .TermInput
      { Type_ := "TermInput", Data := ascii "ls" } rfl rfl rfl⟩

/-- Claim C17: for an inbound text frame that `ParseMessage` rejects (it does not
decode, or its discriminant is unknown), one iteration of the inbound loop leaves the
whole state as it was - no backend write, no resize call, the pause flag, the session
identifier of the terminal, the session registry and the pending-request map
unchanged - and the loop goes on to read the next frame. -/
theorem C17_rejected_frame_skipped (json : JsonDecoder) (st : Pump) (t : TermPtr)
    (msg : GoString) (resizeFails : Bool) (e : ParseError)
    (hrej : ParseMessage json msg = .error e) :
    readFromWebSocketStep json st t false (.msg TextMessage msg) resizeFails = (st, true) ∧
    (readFromWebSocketStep json st t false (.msg TextMessage msg) resizeFails).1.world.writes
      = st.world.writes ∧
    (readFromWebSocketStep json st t false (.msg TextMessage msg) resizeFails).1.resizes
      = st.resizes ∧
    (readFromWebSocketStep json st t false (.msg TextMessage msg) resizeFails).1.world.heap
      = st.world.heap ∧
    (readFromWebSocketStep json st t false (.msg TextMessage msg) resizeFails).1.world.tm
      = st.world.tm ∧
    (readFromWebSocketStep json st t false (.msg TextMessage msg) resizeFails).1.tom
      = st.tom := by
  have h : readFromWebSocketStep json st t false (.msg TextMessage msg) resizeFails
      = (st, true) := by
    unfold readFromWebSocketStep
    simp only [hrej]
    rfl
  rw [h]
  exact ⟨rfl, rfl, rfl, rfl, rfl, rfl⟩

theorem C17_rejected_frame_skipped_witness :
    readFromWebSocketStep jsonSample pumpBusy 0 false (.msg TextMessage frameUnknown) false
      = (pumpBusy, true) :=
  (C17_rejected_frame_skipped jsonSample pumpBusy 0 frameUnknown false
    (.unknownType "Nope") rfl).1

/-- Claim C18: on a started terminal (the resource `k` of its kind is there), one
iteration of the inbound loop on a `TermInput` frame with data `d`, or on a binary
frame with payload `d`, issues exactly one backend write; its payload is `d` and it
goes to the pty when the kind is local and to the remote input stream when the kind is
the remote shell.  No other write is issued. -/
theorem C18_input_forwarded (json : JsonDecoder) (st : Pump) (t : TermPtr) (d msg : GoString)
    (resizeFails : Bool) (k : BackendSink) (hsink : (st.world.heap t).sink = some k) :
    (∀ m : TermInput, ParseMessage json msg = .ok (.input m) → m.Data = d →
      (readFromWebSocketStep json st t false (.msg TextMessage msg) resizeFails).1.world.writes
        = st.world.writes ++ [⟨t, k, d⟩]) ∧
    (readFromWebSocketStep json st t false (.msg BinaryMessage d) resizeFails).1.world.writes
      = st.world.writes ++ [⟨t, k, d⟩] ∧
    ((st.world.heap t).connType = .ConnectionTypeLocal → k = .localTty) ∧
    ((st.world.heap t).connType = .ConnectionTypeSSH → k = .sshStdin) := by
  refine ⟨?_, ?_, ?_, ?_⟩
  · intro m hm hd
    unfold readFromWebSocketStep
    simp only [hm]
    rw [if_pos trivial]
    show (writeToTerminal st.world t m.Data).writes = _
    rw [writeToTerminal_writes, hsink, hd]
  · unfold readFromWebSocketStep
    rw [if_neg (by decide)]
    dsimp only
    rw [if_neg (by decide), if_pos rfl]
    show (writeToTerminal st.world t d).writes = _
    rw [writeToTerminal_writes, hsink]
  · intro hc
    unfold Terminal.sink at hsink
    rw [hc] at hsink
    dsimp only at hsink
    split at hsink
    · cases hsink
      rfl
    · cases hsink
  · intro hc
    unfold Terminal.sink at hsink
    rw [hc] at hsink
    dsimp only at hsink
    split at hsink
    · cases hsink
      rfl
    · cases hsink

theorem C18_input_forwarded_witness :
    (readFromWebSocketStep jsonSample pumpBusy 0 false (.msg TextMessage frameInput)
        false).1.world.writes = pumpBusy.world.writes ++ [⟨0, .localTty, ascii "ls"⟩] ∧
    (readFromWebSocketStep jsonSample pumpSSH 0 false (.msg BinaryMessage (ascii "ls"))
        false).1.world.writes = pumpSSH.world.writes ++ [⟨0, .sshStdin, ascii "ls"⟩] :=
  ⟨(C18_input_forwarded jsonSample pumpBusy 0 (ascii "ls") frameInput false .localTty
      rfl).1 { Type_ := "TermInput", Data := ascii "ls" } rfl rfl,
   (C18_input_forwarded jsonSample pumpSSH 0 (ascii "ls") frameInput false .sshStdin
      rfl).2.1⟩

/-! ### Resizing -/

/-- The state `resizeTerminal` leaves: the geometry recorded in the terminal, the resize
calls of its kind appended, whatever the backend call returns. -/
theorem resizeTerminal_eq (st : Pump) (t : TermPtr) (rows cols : Int) (resizeFails : Bool) :
    resizeTerminal st t rows cols resizeFails =
      { world :=
          { st.world with
            heap := fun p =>
              if p = t then { st.world.heap t with rows := rows, cols := cols }
              else st.world.heap p },
        tom := st.tom,
        resizes := st.resizes ++ resizeCalls (st.world.heap t) t rows cols } := by
  unfold resizeTerminal resizeCalls
  dsimp only
  cases (st.world.heap t).connType with
  | ConnectionTypeLocal =>
    dsimp only
    cases (st.world.heap t).localTty <;> cases resizeFails <;> simp
  | ConnectionTypeSSH =>
    dsimp only
    cases (st.world.heap t).sshSession <;> cases resizeFails <;> simp
  | unset => simp

/-- Claim C19: for a started terminal of either kind (the pty of a local terminal, the
session of a remote shell is there) and every `rows`, `cols`, the call
`resizeTerminal(rows, cols)` records the geometry `rows`, `cols` in the terminal and
issues exactly one resize call on the backend, with height `rows` and width `cols`: a
pty resize for the local kind, a window change for the remote shell.  It changes
nothing else, and whether the backend call fails makes no difference to the state. -/
theorem C19_resize_once (st : Pump) (t : TermPtr) (rows cols : Int) (resizeFails : Bool) :
    ((st.world.heap t).connType = .ConnectionTypeLocal → (st.world.heap t).localTty = true →
      ∃ call, (resizeTerminal st t rows cols resizeFails).resizes
          = st.resizes ++ [⟨t, call⟩] ∧
        call = .ptyResize cols rows ∧ call.height = rows ∧ call.width = cols) ∧
    ((st.world.heap t).connType = .ConnectionTypeSSH → (st.world.heap t).sshSession = true →
      ∃ call, (resizeTerminal st t rows cols resizeFails).resizes
          = st.resizes ++ [⟨t, call⟩] ∧
        call = .windowChange rows cols ∧ call.height = rows ∧ call.width = cols) ∧
    (resizeTerminal st t rows cols resizeFails).world.heap t
      = { st.world.heap t with rows := rows, cols := cols } ∧
    (∀ p, p ≠ t → (resizeTerminal st t rows cols resizeFails).world.heap p = st.world.heap p) ∧
    (resizeTerminal st t rows cols resizeFails).world.tm = st.world.tm ∧
    (resizeTerminal st t rows cols resizeFails).world.writes = st.world.writes ∧
    (resizeTerminal st t rows cols resizeFails).tom = st.tom ∧
    resizeTerminal st t rows cols true = resizeTerminal st t rows cols false := by
  rw [resizeTerminal_eq st t rows cols true, resizeTerminal_eq st t rows cols false,
    resizeTerminal_eq st t rows cols resizeFails]
  refine ⟨?_, ?_, ?_, ?_, rfl, rfl, rfl, rfl⟩
  · intro hc htty
    refine ⟨.ptyResize cols rows, ?_, rfl, rfl, rfl⟩
    simp only [resizeCalls, hc, htty, if_true]
  · intro hc hsess
    refine ⟨.windowChange rows cols, ?_, rfl, rfl, rfl⟩
    simp only [resizeCalls, hc, hsess, if_true]
  · simp only [if_true]
  · intro p hp
    simp only [if_neg hp]

theorem C19_resize_once_witness :
    (∃ call, (resizeTerminal pumpBusy 0 40 120 false).resizes
        = pumpBusy.resizes ++ [⟨0, call⟩] ∧
      call = .ptyResize 120 40 ∧ call.height = 40 ∧ call.width = 120) ∧
    (∃ call, (resizeTerminal pumpSSH 0 40 120 true).resizes
        = pumpSSH.resizes ++ [⟨0, call⟩] ∧
      call = .windowChange 40 120 ∧ call.height = 40 ∧ call.width = 120) :=
  ⟨(C19_resize_once pumpBusy 0 40 120 false).1 rfl rfl,
   (C19_resize_once pumpSSH 0 40 120 true).2.1 rfl rfl⟩

/-! ### Authentication methods of the remote shell -/

/-- Claim C20, as the code has it: the list of authentication methods that
`startSSHConnection` builds holds, in this order, the supplied password (if it is a
non-empty string), the key loaded from the supplied key path (if the file can be read
and parses), and the supplied inline key (if it parses); when that list is empty, and
only then, it is the single empty-password method.  So the empty-password method is in
the list exactly when no non-empty password was supplied and no key was obtained. -/
theorem C20_auth_methods (env : KeyEnv) (config : Config) :
    sshAuthMethods env config =
      (if credentialMethods env config = [] then [AuthMethod.Password []]
        else credentialMethods env config) ∧
    (AuthMethod.Password [] ∈ sshAuthMethods env config ↔
      (config.supplied "password" = none ∧
        (config.supplied "private_key_path").bind (loadPrivateKey env) = none ∧
        (config.supplied "private_key").bind (parsePrivateKey env) = none)) := by
  have h1 : sshAuthMethods env config =
      (if credentialMethods env config = [] then [AuthMethod.Password []]
        else credentialMethods env config) := by
    unfold sshAuthMethods credentialMethods Config.supplied
    cases config.string "password" with
    | none =>
      cases config.string "private_key_path" with
      | none =>
        cases config.string "private_key" with
        | none => simp
        | some i =>
          by_cases hi : i = []
          · simp [hi]
          · cases hpi : parsePrivateKey env i <;> simp [hi, hpi]
      | some q =>
        by_cases hq : q = []
        · cases config.string "private_key" with
          | none => simp [hq]
          | some i =>
            by_cases hi : i = []
            · simp [hq, hi]
            · cases hpi : parsePrivateKey env i <;> simp [hq, hi, hpi]
        · cases hlq : loadPrivateKey env q <;>
          cases config.string "private_key" with
          | none => simp [hq, hlq]
          | some i =>
            by_cases hi : i = []
            · simp [hq, hlq, hi]
            · cases hpi : parsePrivateKey env i <;> simp [hq, hlq, hi, hpi]
    | some pw =>
      by_cases hpw : pw = []
      · cases config.string "private_key_path" with
        | none =>
          cases config.string "private_key" with
          | none => simp [hpw]
          | some i =>
            by_cases hi : i = []
            · simp [hpw, hi]
            · cases hpi : parsePrivateKey env i <;> simp [hpw, hi, hpi]
        | some q =>
          by_cases hq : q = []
          · cases config.string "private_key" with
            | none => simp [hpw, hq]
            | some i =>
              by_cases hi : i = []
              · simp [hpw, hq, hi]
              · cases hpi : parsePrivateKey env i <;> simp [hpw, hq, hi, hpi]
          · cases hlq : loadPrivateKey env q <;>
            cases config.string "private_key" with
            | none => simp [hpw, hq, hlq]
            | some i =>
              by_cases hi : i = []
              · simp [hpw, hq, hlq, hi]
              · cases hpi : parsePrivateKey env i <;> simp [hpw, hq, hlq, hi, hpi]
      · cases config.string "private_key_path" with
        | none =>
          cases config.string "private_key" with
          | none => simp [hpw]
          | some i =>
            by_cases hi : i = []
            · simp [hpw, hi]
            · cases hpi : parsePrivateKey env i <;> simp [hpw, hi, hpi]
        | some q =>
          by_cases hq : q = []
          · cases config.string "private_key" with
            | none => simp [hpw, hq]
            | some i =>
              by_cases hi : i = []
              · simp [hpw, hq, hi]
              · cases hpi : parsePrivateKey env i <;> simp [hpw, hq, hi, hpi]
          · cases hlq : loadPrivateKey env q <;>
            cases config.string "private_key" with
            | none => simp [hpw, hq, hlq]
            | some i =>
              by_cases hi : i = []
              · simp [hpw, hq, hlq, hi]
              · cases hpi : parsePrivateKey env i <;> simp [hpw, hq, hlq, hi, hpi]
  refine ⟨h1, ?_⟩
  rw [h1]
  have hpwne : ∀ p, config.supplied "password" = some p → p ≠ [] := by
    intro p hp
    unfold Config.supplied at hp
    split at hp
    · split at hp
      · cases hp
        assumption
      · cases hp
    · cases hp
  unfold credentialMethods
  cases hp : config.supplied "password" with
  | none =>
    cases hk1 : (config.supplied "private_key_path").bind (loadPrivateKey env) <;>
      cases hk2 : (config.supplied "private_key").bind (parsePrivateKey env) <;> simp
  | some p =>
    have := hpwne p hp
    cases hk1 : (config.supplied "private_key_path").bind (loadPrivateKey env) <;>
      cases hk2 : (config.supplied "private_key").bind (parsePrivateKey env) <;>
      simp [Ne.symm this]

/-- Claim C20 fails as stated: the profile `configKeyPath` supplies a key path (and no
password, no inline key), the key file cannot be read, and the list of authentication
methods is the single empty-password method. -/
theorem C20_empty_password_despite_key_path :
    configKeyPath.supplied "private_key_path" = some (ascii "missing") ∧
    sshAuthMethods keyEnvNone configKeyPath = [AuthMethod.Password []] ∧
    AuthMethod.Password [] ∈ sshAuthMethods keyEnvNone configKeyPath := by
  refine ⟨by decide, by decide, by decide⟩

/-! ### Masking -/

/-- Claim C24: `MaskSensitiveString s` is the first 4 bytes of `s`, six asterisks and the
last 4 bytes of `s` when `s` is longer than 8 bytes, `****` when `s` is non-empty and at
most 8 bytes long, and empty when `s` is empty; so it is 14, 4 or 0 bytes long, and any
two non-empty inputs of at most 8 bytes have the same mask. -/
theorem C24_mask_sensitive_string (s : GoString) :
    (8 < s.length →
      ∃ first rest last front : GoString,
        s = first ++ rest ∧ s = front ++ last ∧ first.length = 4 ∧ last.length = 4 ∧
        MaskSensitiveString s = first ++ ascii "******" ++ last) ∧
    (s ≠ [] → s.length ≤ 8 → MaskSensitiveString s = ascii "****") ∧
    (s = [] → MaskSensitiveString s = []) ∧
    ((MaskSensitiveString s).length = 14 ∨ (MaskSensitiveString s).length = 4 ∨
      (MaskSensitiveString s).length = 0) ∧
    (∀ s2 : GoString, s ≠ [] → s.length ≤ 8 → s2 ≠ [] → s2.length ≤ 8 →
      MaskSensitiveString s = MaskSensitiveString s2) := by
  have hlong : 8 < s.length →
      MaskSensitiveString s = s.take 4 ++ ascii "******" ++ s.drop (s.length - 4) := by
    intro h
    unfold MaskSensitiveString
    rw [if_pos h]
  have hshort : ∀ u : GoString, u ≠ [] → u.length ≤ 8 →
      MaskSensitiveString u = ascii "****" := by
    intro u hne hle
    unfold MaskSensitiveString
    rw [if_neg (by omega), if_pos hne]
  have hempty : s = [] → MaskSensitiveString s = [] := by
    rintro rfl
    rfl
  refine ⟨?_, hshort s, hempty, ?_, ?_⟩
  · intro h
    refine ⟨s.take 4, s.drop 4, s.drop (s.length - 4), s.take (s.length - 4),
      (List.take_append_drop 4 s).symm, (List.take_append_drop _ s).symm, ?_, ?_, hlong h⟩
    · rw [List.length_take]
      omega
    · rw [List.length_drop]
      omega
  · by_cases h : 8 < s.length
    · left
      rw [hlong h, List.length_append, List.length_append, List.length_take,
        List.length_drop]
      have h6 : (ascii "******").length = 6 := rfl
      omega
    · by_cases hne : s = []
      · right
        right
        rw [hempty hne]
        rfl
      · right
        left
        rw [hshort s hne (by omega)]
        rfl
  · intro s2 hne hle hne2 hle2
    rw [hshort s hne hle, hshort s2 hne2 hle2]

theorem C24_mask_sensitive_string_witness :
    (∃ first rest last front : GoString,
        ascii "sk-0123456789" = first ++ rest ∧ ascii "sk-0123456789" = front ++ last ∧
        first.length = 4 ∧ last.length = 4 ∧
        MaskSensitiveString (ascii "sk-0123456789") = first ++ ascii "******" ++ last) ∧
    MaskSensitiveString (ascii "secret") = MaskSensitiveString (ascii "pw") :=
  ⟨(C24_mask_sensitive_string (ascii "sk-0123456789")).1 (by decide),
   (C24_mask_sensitive_string (ascii "secret")).2.2.2.2 (ascii "pw") (by decide) (by decide)
     (by decide) (by decide)⟩

/-! ### Chat model selection -/

/-- When the models load and none has the selected name as `Name` or `Model`,
`GetModelConfig` returns the pair `nil, nil`. -/
theorem GetModelConfig_no_match (currentModels : List ModelConfig) (modelName : GoString)
    (h : ∀ mm ∈ currentModels, mm.Name ≠ modelName ∧ mm.Model ≠ modelName) :
    GetModelConfig (some currentModels) modelName = .ok none := by
  unfold GetModelConfig
  have hnone : currentModels.find? (fun mm => mm.Name = modelName || mm.Model = modelName)
      = none := by
    rw [List.find?_eq_none]
    intro mm hmm
    have := h mm hmm
    simp [this.1, this.2]
  dsimp only
  rw [hnone]

/-- For every non-empty selected name that no loaded model matches, `getChatModel`
reads the provider through the nil configuration. -/
theorem getChatModel_no_match (currentModels : List ModelConfig) (selectedModel : GoString)
    (newChatModelFails : Bool) (hne : selectedModel ≠ [])
    (h : ∀ mm ∈ currentModels, mm.Name ≠ selectedModel ∧ mm.Model ≠ selectedModel) :
    getChatModel (some currentModels) selectedModel newChatModelFails = .nilDereference := by
  unfold getChatModel
  rw [if_neg hne, GetModelConfig_no_match currentModels selectedModel h]

/-- Claim C30 fails on the code: with the models loaded and no model named `gpt-4`,
`GetModelConfig` reports not found as the pair `nil, nil`, and `getChatModel` then reads
`modelConfig.Provider` through the nil pointer instead of returning an error.  The same
happens with no model file at all (the empty list).  For a name that matches, it
returns the chat model. -/
theorem C30_missing_config_dereferenced :
    GetModelConfig (some [modelArk]) (ascii "gpt-4") = .ok none ∧
    getChatModel (some [modelArk]) (ascii "gpt-4") false = .nilDereference ∧
    getChatModel (some []) (ascii "Doubao") false = .nilDereference ∧
    getChatModel (some [modelArk]) (ascii "Doubao") false =
      .model { BaseURL := ascii "https://ark.example/api", Region := ascii "cn-beijing",
               Timeout := 120, RetryTimes := 3, APIKey := ascii "sk-0123456789",
               Model := ascii "doubao-pro" } :=
  ⟨rfl, rfl, rfl, rfl⟩

/-! ### The low-water mark -/

/-- With the history of the session within the cap, no slice of `ExecTerminalCommand`
is out of range, whatever is appended while it runs. -/
theorem exec_no_slice_panic (w : World) (params : ExecCommandInput) (env : ExecEnv)
    (hcap : ∀ s, w.tm.terminals params.TerminalId = some s → s.Output.length ≤ outputCap) :
    (ExecTerminalCommand w params env).2 ≠ .slicePanic := by
  by_cases h0 : params.TerminalId = "" ∨ params.Command = []
  · unfold ExecTerminalCommand
    rw [if_pos h0]
    simp
  · cases hs : w.tm.terminals params.TerminalId with
    | none =>
      unfold ExecTerminalCommand
      rw [if_neg h0]
      simp only [hs]
      simp
    | some s =>
      cases ht : s.term with
      | none =>
        unfold ExecTerminalCommand
        rw [if_neg h0]
        simp only [hs, ht]
        simp
      | some t =>
        have hid : params.TerminalId ≠ "" := fun h => h0 (Or.inl h)
        have hcmd : params.Command ≠ [] := fun h => h0 (Or.inr h)
        rw [exec_start w params env s t hid hcmd hs ht]
        obtain ⟨s1, hs1, hout, _⟩ :=
          writeToTerminal_lookup w t (augmented params.Command) params.TerminalId s hs
        have hcap1 : s1.Output.length ≤ outputCap := by
          rw [hout]
          exact hcap s hs
        obtain ⟨report, hrep⟩ :=
          execAwait_ok (writeToTerminal w t (augmented params.Command)) params.TerminalId
            params.Command env s1 hs1 hcap1
        rw [hout] at hrep
        rw [hrep]
        simp

/-- Claim C29: every `AppendOutput` leaves the history of the entry with
`min (previous length + 1) cap` chunks; for a history within the cap (as every history
grown by `AppendOutput` is) the length therefore never decreases and stays within the
cap, the slice of the history from the recorded length onward is within bounds
whatever has been appended since, and `ExecTerminalCommand` never takes a slice out of
range. -/
theorem C29_low_water_mark_valid (tm : TerminalManager) (id : String) (s : TerminalSession)
    (hs : tm.terminals id = some s) :
    (∀ c, ∃ s1, (tm.AppendOutput id c).terminals id = some s1 ∧
      s1.Output.length = min (s.Output.length + 1) outputCap) ∧
    (s.Output.length ≤ outputCap →
      (∀ c, ∃ s1, (tm.AppendOutput id c).terminals id = some s1 ∧
        s.Output.length ≤ s1.Output.length ∧ s1.Output.length ≤ outputCap) ∧
      (∀ cs, sliceFrom ((tm.appendAll id cs).output id) s.Output.length =
        some (((tm.appendAll id cs).output id).drop s.Output.length)) ∧
      (∀ heap writes params env, params.TerminalId = id →
        (ExecTerminalCommand ⟨tm, heap, writes⟩ params env).2 ≠ .slicePanic)) := by
  have hlen : ∀ c, ∃ s1, (tm.AppendOutput id c).terminals id = some s1 ∧
      s1.Output.length = min (s.Output.length + 1) outputCap := by
    intro c
    refine ⟨_, AppendOutput_lookup tm id s c hs, ?_⟩
    simp only [List.length_drop, List.length_append, List.length_singleton]
    omega
  refine ⟨hlen, ?_⟩
  intro hcap
  refine ⟨?_, ?_, ?_⟩
  · intro c
    obtain ⟨s1, h1, h2⟩ := hlen c
    exact ⟨s1, h1, by omega, by omega⟩
  · intro cs
    exact sliceFrom_appendAll tm id s cs hs hcap
  · intro heap writes params env hid
    apply exec_no_slice_panic
    intro s2 hs2
    rw [hid] at hs2
    rw [hs] at hs2
    cases hs2
    exact hcap

theorem C29_low_water_mark_valid_witness :
    (∀ c, ∃ s1, (tmBusy.AppendOutput "s1" c).terminals "s1" = some s1 ∧
      s1.Output.length = min (1 + 1) outputCap) ∧
    (ExecTerminalCommand worldBusy paramsEchoHi envHuge).2 ≠ .slicePanic :=
  ⟨(C29_low_water_mark_valid tmBusy "s1"
      { ID := "s1", AssetID := "a1", Output := [ascii "x"], LastCmd := ascii "ls",
        conn := some 1, term := some 0 } rfl).1,
   ((C29_low_water_mark_valid tmBusy "s1"
      { ID := "s1", AssetID := "a1", Output := [ascii "x"], LastCmd := ascii "ls",
        conn := some 1, term := some 0 } rfl).2 (by rw [outputCap_eq]; decide)).2.2
      (fun _ => termLocal) [] paramsEchoHi envHuge rfl⟩

/-! ### Trimming white space -/

theorem trimLeftSpace_succ (encs : List GoString) (fuel : Nat) (s : GoString) :
    trimLeftSpace encs (fuel + 1) s =
      if leadingSpaceWidth encs s = 0 then s
      else trimLeftSpace encs fuel (s.drop (leadingSpaceWidth encs s)) := by
  rw [trimLeftSpace]
  split
  · rename_i h
    rw [if_pos h]
  · rename_i h
    rw [if_neg h]

/-- A string starts with none of the encodings exactly when the width found is `0`. -/
theorem leadingSpaceWidth_eq_zero_iff (encs : List GoString) (hne : ∀ e ∈ encs, e ≠ [])
    (s : GoString) : leadingSpaceWidth encs s = 0 ↔ ∀ e ∈ encs, ¬ e <+: s := by
  unfold leadingSpaceWidth
  cases hf : encs.find? (fun e => e.isPrefixOf s) with
  | none =>
    rw [List.find?_eq_none] at hf
    simp only [true_iff]
    intro e he hpre
    exact hf e he (by simpa using hpre)
  | some e =>
    have hmem := List.mem_of_find?_eq_some hf
    have hp := List.find?_some hf
    constructor
    · intro h0
      exact absurd (List.length_eq_zero.1 h0) (hne e hmem)
    · intro hall
      exact absurd (by simpa using hp) (hall e hmem)

/-- A non-zero width is the length of an encoding the string starts with. -/
theorem leadingSpaceWidth_pos (encs : List GoString) (s : GoString)
    (h : leadingSpaceWidth encs s ≠ 0) :
    ∃ e ∈ encs, e <+: s ∧ e.length = leadingSpaceWidth encs s := by
  unfold leadingSpaceWidth at h ⊢
  cases hf : encs.find? (fun e => e.isPrefixOf s) with
  | none =>
    rw [hf] at h
    exact absurd rfl h
  | some e =>
    exact ⟨e, List.mem_of_find?_eq_some hf, by simpa using List.find?_some hf, rfl⟩

/-- What `trimLeftSpace` strips is a run of encodings, and what it leaves starts with
none (given fuel for every byte). -/
theorem trimLeftSpace_spec (encs : List GoString) :
    ∀ (fuel : Nat) (s : GoString), s.length ≤ fuel →
      ∃ ws : List GoString, (∀ e ∈ ws, e ∈ encs) ∧
        s = ws.flatten ++ trimLeftSpace encs fuel s ∧
        leadingSpaceWidth encs (trimLeftSpace encs fuel s) = 0 := by
  intro fuel
  induction fuel with
  | zero =>
    intro s hs
    have h0 : s = [] := List.length_eq_zero.1 (by omega)
    subst h0
    refine ⟨[], by simp, by simp [trimLeftSpace], ?_⟩
    simp only [trimLeftSpace]
    by_contra hw
    obtain ⟨e, _, hpre, hlen⟩ := leadingSpaceWidth_pos encs [] hw
    have he : e = [] := List.prefix_nil.1 hpre
    rw [he] at hlen
    exact hw hlen.symm
  | succ fuel ih =>
    intro s hs
    rw [trimLeftSpace_succ]
    by_cases hw : leadingSpaceWidth encs s = 0
    · rw [if_pos hw]
      exact ⟨[], by simp, by simp, hw⟩
    · rw [if_neg hw]
      obtain ⟨e, hmem, hpre, hlen⟩ := leadingSpaceWidth_pos encs s hw
      obtain ⟨rest, hrest⟩ := hpre
      have hdrop : s.drop (leadingSpaceWidth encs s) = rest := by
        rw [← hlen, ← hrest, List.drop_left]
      rw [hdrop]
      have hlt : rest.length ≤ fuel := by
        have h1 : s.length = e.length + rest.length := by
          rw [← hrest, List.length_append]
        omega
      obtain ⟨ws, hws, hdec, hzero⟩ := ih rest hlt
      refine ⟨e :: ws, ?_, ?_, hzero⟩
      · intro x hx
        rcases List.mem_cons.1 hx with rfl | hx
        · exact hmem
        · exact hws x hx
      · rw [List.flatten_cons, List.append_assoc, ← hdec, hrest]

/-- No white-space encoding is empty. -/
theorem spaceEncodings_ne_nil : ∀ e ∈ spaceEncodings, e ≠ [] := by
  decide

/-- No white-space encoding starts with another one. -/
theorem spaceEncodings_prefix_free :
    ∀ e1 ∈ spaceEncodings, ∀ e2 ∈ spaceEncodings, e1.isPrefixOf e2 = true → e1 = e2 := by
  decide

/-- Stripping from the front consumes a string made of white-space runes entirely. -/
theorem trimLeftSpace_whitespace (ws : List GoString) :
    (∀ e ∈ ws, e ∈ spaceEncodings) → ∀ fuel, ws.flatten.length ≤ fuel →
      trimLeftSpace spaceEncodings fuel ws.flatten = [] := by
  induction ws with
  | nil =>
    intro _ fuel hfuel
    obtain ⟨ws, _, hdec, _⟩ := trimLeftSpace_spec spaceEncodings fuel [] hfuel
    have h := (List.append_eq_nil.1 hdec.symm).2
    simpa using h
  | cons e ws ih =>
    intro hall fuel hfuel
    have he : e ∈ spaceEncodings := hall e (List.mem_cons_self _ _)
    have hne : e ≠ [] := spaceEncodings_ne_nil e he
    have hpos : 0 < e.length := List.length_pos.2 hne
    rw [List.flatten_cons] at hfuel ⊢
    rw [List.length_append] at hfuel
    cases fuel with
    | zero => omega
    | succ fuel =>
      rw [trimLeftSpace_succ]
      have hw : leadingSpaceWidth spaceEncodings (e ++ ws.flatten) ≠ 0 := by
        intro h0
        exact (leadingSpaceWidth_eq_zero_iff _ spaceEncodings_ne_nil _).1 h0 e he
          (List.prefix_append _ _)
      rw [if_neg hw]
      obtain ⟨e2, he2, hpre2, hlen2⟩ := leadingSpaceWidth_pos _ _ hw
      have heq : e2 = e := by
        rcases List.prefix_or_prefix_of_prefix hpre2 (List.prefix_append e ws.flatten) with h | h
        · exact spaceEncodings_prefix_free e2 he2 e he (by simpa using h)
        · exact (spaceEncodings_prefix_free e he e2 he2 (by simpa using h)).symm
      rw [← hlen2, heq, List.drop_left]
      exact ih (fun x hx => hall x (List.mem_cons_of_mem _ hx)) fuel (by omega)

/-- The library function `strings.TrimSpace` strips a run of white-space runes from
each end, and what it leaves neither starts nor ends with a white-space rune. -/
theorem TrimSpace_spec (s : GoString) :
    ∃ pre post : GoString, WhitespaceOnly pre ∧ WhitespaceOnly post ∧
      s = pre ++ TrimSpace s ++ post ∧
      (∀ e ∈ spaceEncodings, ¬ e <+: TrimSpace s) ∧
      (∀ e ∈ spaceEncodings, ¬ e <:+ TrimSpace s) := by
  obtain ⟨ws1, hws1, hdec1, hz1⟩ :=
    trimLeftSpace_spec spaceEncodings s.length s (Nat.le_refl _)
  obtain ⟨ws2, hws2, hdec2, hz2⟩ :=
    trimLeftSpace_spec (spaceEncodings.map List.reverse)
      (trimLeftSpace spaceEncodings s.length s).length
      (trimLeftSpace spaceEncodings s.length s).reverse (by rw [List.length_reverse])
  have hrevne : ∀ e ∈ spaceEncodings.map List.reverse, e ≠ [] := by
    decide
  have hT : TrimSpace s =
      (trimLeftSpace (spaceEncodings.map List.reverse)
        (trimLeftSpace spaceEncodings s.length s).length
        (trimLeftSpace spaceEncodings s.length s).reverse).reverse := rfl
  have hl : trimLeftSpace spaceEncodings s.length s =
      TrimSpace s ++ (ws2.reverse.map List.reverse).flatten := by
    have h := congrArg List.reverse hdec2
    rw [List.reverse_reverse, List.reverse_append, List.reverse_flatten] at h
    rw [hT, List.map_reverse]
    exact h
  refine ⟨ws1.flatten, (ws2.reverse.map List.reverse).flatten, ⟨ws1, hws1, rfl⟩,
    ⟨ws2.reverse.map List.reverse, ?_, rfl⟩, ?_, ?_, ?_⟩
  · intro e he
    obtain ⟨e2, he2, rfl⟩ := List.mem_map.1 he
    have h2 := hws2 e2 (List.mem_reverse.1 he2)
    obtain ⟨e3, he3, rfl⟩ := List.mem_map.1 h2
    rw [List.reverse_reverse]
    exact he3
  · rw [List.append_assoc, ← hl]
    exact hdec1
  · intro e he hpre
    have hall := (leadingSpaceWidth_eq_zero_iff _ spaceEncodings_ne_nil _).1 hz1
    apply hall e he
    rw [hl]
    exact hpre.trans (List.prefix_append _ _)
  · intro e he hsuf
    have hall := (leadingSpaceWidth_eq_zero_iff _ hrevne _).1 hz2
    apply hall e.reverse (List.mem_map_of_mem _ he)
    rw [hT] at hsuf
    have := List.reverse_prefix.2 hsuf
    rwa [List.reverse_reverse] at this

/-- The trimmed string is empty exactly when the string is white space only. -/
theorem TrimSpace_eq_nil_iff (s : GoString) : TrimSpace s = [] ↔ WhitespaceOnly s := by
  constructor
  · intro h
    obtain ⟨pre, post, ⟨ws1, hws1, rfl⟩, ⟨ws2, hws2, rfl⟩, hdec, _, _⟩ := TrimSpace_spec s
    rw [h, List.append_nil] at hdec
    refine ⟨ws1 ++ ws2, ?_, ?_⟩
    · intro e he
      rcases List.mem_append.1 he with h1 | h2
      · exact hws1 e h1
      · exact hws2 e h2
    · rw [hdec, List.flatten_append]
  · rintro ⟨ws, hws, rfl⟩
    have h := trimLeftSpace_whitespace ws hws ws.flatten.length (Nat.le_refl _)
    unfold TrimSpace
    simp only [h]
    rfl

/-! ### The last command -/

/-- The registry `writeToTerminal` leaves: the last command of the terminal's session
is set to the trimmed input when the input holds a line terminator and is not white
space only, and nothing changes otherwise. -/
theorem writeToTerminal_tm (w : World) (t : TermPtr) (data : GoString) :
    ((((0x0D : UInt8) ∈ data ∨ (0x0A : UInt8) ∈ data) ∧ ¬ WhitespaceOnly data) →
      (writeToTerminal w t data).tm =
        w.tm.SetLastCommand (w.heap t).sessionID (TrimSpace data)) ∧
    (¬ (((0x0D : UInt8) ∈ data ∨ (0x0A : UInt8) ∈ data) ∧ ¬ WhitespaceOnly data) →
      (writeToTerminal w t data).tm = w.tm) := by
  have hlen : (TrimSpace data).length > 0 ↔ ¬ WhitespaceOnly data := by
    rw [← TrimSpace_eq_nil_iff, gt_iff_lt, List.length_pos]
  have hcont : (data.contains 0x0D || data.contains 0x0A) = true ↔
      ((0x0D : UInt8) ∈ data ∨ (0x0A : UInt8) ∈ data) := by
    simp
  unfold writeToTerminal
  dsimp only
  by_cases h1 : (data.contains 0x0D || data.contains 0x0A) = true
  · rw [if_pos h1]
    by_cases h2 : (TrimSpace data).length > 0
    · rw [if_pos h2]
      exact ⟨fun _ => rfl, fun h => absurd ⟨hcont.1 h1, hlen.1 h2⟩ h⟩
    · rw [if_neg h2]
      exact ⟨fun h => absurd (hlen.2 h.2) h2, fun _ => rfl⟩
  · rw [if_neg h1]
    exact ⟨fun h => absurd (hcont.2 h.1) h1, fun _ => rfl⟩

/-- Claim C27: for every input written through `writeToTerminal` on a terminal whose
session is registered, the last command of that session is updated exactly when the
input holds a carriage return or a line feed and is not white space only; the new last
command is then the input without its leading and trailing white-space runes, which
`GetLastCommand` returns, and every other entry is as before.  Otherwise the whole
registry is unchanged.  The trimmed input is the input between a leading and a
trailing run of white-space runes and neither starts nor ends with one. -/
theorem C27_last_command (w : World) (t : TermPtr) (data : GoString) (s : TerminalSession)
    (hs : w.tm.terminals (w.heap t).sessionID = some s) :
    ((((0x0D : UInt8) ∈ data ∨ (0x0A : UInt8) ∈ data) ∧ ¬ WhitespaceOnly data) →
      (writeToTerminal w t data).tm.terminals (w.heap t).sessionID =
        some { s with LastCmd := TrimSpace data } ∧
      (writeToTerminal w t data).tm.GetLastCommand (w.heap t).sessionID = TrimSpace data ∧
      ∀ k, k ≠ (w.heap t).sessionID →
        (writeToTerminal w t data).tm.terminals k = w.tm.terminals k) ∧
    (¬ (((0x0D : UInt8) ∈ data ∨ (0x0A : UInt8) ∈ data) ∧ ¬ WhitespaceOnly data) →
      (writeToTerminal w t data).tm = w.tm ∧
      (writeToTerminal w t data).tm.GetLastCommand (w.heap t).sessionID = s.LastCmd) ∧
    (∃ pre post : GoString, WhitespaceOnly pre ∧ WhitespaceOnly post ∧
      data = pre ++ TrimSpace data ++ post ∧
      (∀ e ∈ spaceEncodings, ¬ e <+: TrimSpace data) ∧
      (∀ e ∈ spaceEncodings, ¬ e <:+ TrimSpace data)) := by
  refine ⟨?_, ?_, TrimSpace_spec data⟩
  · intro h
    rw [(writeToTerminal_tm w t data).1 h]
    unfold TerminalManager.SetLastCommand TerminalManager.GetLastCommand
    rw [hs]
    dsimp only
    rw [set_same]
    refine ⟨rfl, rfl, ?_⟩
    intro k hk
    exact set_other _ _ _ _ hk
  · intro h
    rw [(writeToTerminal_tm w t data).2 h]
    refine ⟨rfl, ?_⟩
    unfold TerminalManager.GetLastCommand
    rw [hs]

theorem C27_last_command_witness :
    ((writeToTerminal worldBusy 0 (ascii "  pwd \r")).tm.terminals "s1" =
        some { ID := "s1", AssetID := "a1", Output := [ascii "x"],
               LastCmd := TrimSpace (ascii "  pwd \r"), conn := some 1, term := some 0 } ∧
      (writeToTerminal worldBusy 0 (ascii "  pwd \r")).tm.GetLastCommand "s1" =
        TrimSpace (ascii "  pwd \r") ∧
      ∀ k, k ≠ "s1" →
        (writeToTerminal worldBusy 0 (ascii "  pwd \r")).tm.terminals k =
          worldBusy.tm.terminals k) ∧
    ((writeToTerminal worldBusy 0 (ascii "pw")).tm = worldBusy.tm ∧
      (writeToTerminal worldBusy 0 (ascii "pw")).tm.GetLastCommand "s1" = ascii "ls") ∧
    TrimSpace (ascii "  pwd \r") = ascii "pwd" :=
  ⟨(C27_last_command worldBusy 0 (ascii "  pwd \r")
      { ID := "s1", AssetID := "a1", Output := [ascii "x"], LastCmd := ascii "ls",
        conn := some 1, term := some 0 } rfl).1
      ⟨Or.inl (by decide), fun h => by
        have h2 := (TrimSpace_eq_nil_iff (ascii "  pwd \r")).2 h
        revert h2
        decide⟩,
   (C27_last_command worldBusy 0 (ascii "pw")
      { ID := "s1", AssetID := "a1", Output := [ascii "x"], LastCmd := ascii "ls",
        conn := some 1, term := some 0 } rfl).2.1
      (fun h => by
        have h2 := h.1
        revert h2
        decide),
   by decide⟩

/-! ### Starting the backend -/

theorem startLocalShell_released (t : Terminal) (fails : SetupStep → Bool) :
    (startLocalShell t fails).err = none ∨ (startLocalShell t fails).released := by
  unfold startLocalShell StartOutcome.released
  dsimp only
  repeat' split
  all_goals simp [openResources, attempts, SetupStep.acquires]

theorem startSSHConnection_released (t : Terminal) (asset : Asset)
    (fails : SetupStep → Bool) :
    (startSSHConnection t asset fails).err = none ∨
      (startSSHConnection t asset fails).released := by
  unfold startSSHConnection StartOutcome.released
  dsimp only
  repeat' split
  all_goals simp [openResources, attempts, SetupStep.acquires]

theorem Start_released (s : AssetService) (t : Terminal) (fails : SetupStep → Bool) :
    (Start s t fails).err = none ∨ (Start s t fails).released := by
  unfold Start
  split
  · right
    simp [StartOutcome.released, openResources, attempts]
  · split
    · exact startLocalShell_released _ _
    · exact startSSHConnection_released _ _ _
    · right
      simp [StartOutcome.released, openResources, attempts]

/-- A call of `Start` that returns no error has signalled readiness and holds the
resources of its kind: the pty and the process, or the client and the session. -/
theorem Start_ok (s : AssetService) (t : Terminal) (fails : SetupStep → Bool)
    (h : (Start s t fails).err = none) :
    (Start s t fails).ready = true ∧
    (((Start s t fails).term.connType = .ConnectionTypeLocal ∧
        (Start s t fails).term.localCmd = true ∧ (Start s t fails).term.localTty = true ∧
        openResources [] (Start s t fails).events = [.pty, .process]) ∨
      ((Start s t fails).term.connType = .ConnectionTypeSSH ∧
        (Start s t fails).term.sshSession = true ∧ (Start s t fails).term.sshClient = true ∧
        openResources [] (Start s t fails).events = [.client, .session])) := by
  unfold Start at h ⊢
  split at h
  · simp at h
  · split at h
    · unfold startLocalShell at h ⊢
      dsimp only at h ⊢
      split at h
      · simp at h
      · split at h
        · simp at h
        · rename_i h1 h2
          simp [h1, h2, openResources, SetupStep.acquires]
    · unfold startSSHConnection at h ⊢
      dsimp only at h ⊢
      repeat' split at h
      all_goals first
        | (simp at h; done)
        | (simp_all [openResources, SetupStep.acquires])
    · simp at h

/-- Claim C21: whichever setup step of `Start` fails (pty allocation, process start,
dial, session creation, remote pty request, one of the three pipes, shell start), and
also when the asset is missing, of another type or lacks host or user name: when `Start`
returns an error, every backend resource the attempt acquired (the pty, the SSH client,
the SSH session) has been closed by then, readiness has not been signalled, and every
setup step was attempted at most once. -/
theorem C21_start_failure_releases (s : AssetService) (t : Terminal)
    (fails : SetupStep → Bool) (e : StartError) (herr : (Start s t fails).err = some e) :
    openResources [] (Start s t fails).events = [] ∧
    (Start s t fails).ready = false ∧
    (attempts (Start s t fails).events).Nodup := by
  rcases Start_released s t fails with h | h
  · rw [herr] at h
    cases h
  · exact h

theorem C21_start_failure_releases_witness :
    openResources []
        (Start storeHosts (termFresh "a2") (fun step => decide (step = .shell))).events = [] ∧
    (Start storeHosts (termFresh "a2") (fun step => decide (step = .shell))).ready = false ∧
    (attempts
      (Start storeHosts (termFresh "a2") (fun step => decide (step = .shell))).events).Nodup :=
  C21_start_failure_releases storeHosts (termFresh "a2") (fun step => decide (step = .shell))
    .startRemoteShell rfl

/-! ### Releasing the backend -/

/-- The method `cleanup` leaves the terminal as it is and appends its release calls to
those issued before. -/
theorem cleanup_append (t : Terminal) (calls : List ReleaseCall) :
    (cleanup t calls).1 = t ∧ (cleanup t calls).2 = calls ++ (cleanup t []).2 := by
  unfold cleanup
  cases t.connType <;> cases t.localCmd <;> cases t.localTty <;> cases t.sshSession <;>
    cases t.sshClient <;> simp

/-- Claim C22 fails as stated: on the local terminal that `Start` has started, one
`cleanup` signals the process, waits for it and closes the pty, and a second `cleanup`
issues the same three calls again; on the started remote terminal the session and the
client are closed a second time. -/
theorem C22_second_cleanup_repeats :
    (Start storeHosts (termFresh "a1") (fun _ => false)).err = none ∧
    (cleanup (Start storeHosts (termFresh "a1") (fun _ => false)).term []).2 =
      [.processKill, .processWait, .ttyClose] ∧
    (cleanup
      (cleanup (Start storeHosts (termFresh "a1") (fun _ => false)).term []).1
      (cleanup (Start storeHosts (termFresh "a1") (fun _ => false)).term []).2).2 =
      [.processKill, .processWait, .ttyClose, .processKill, .processWait, .ttyClose] ∧
    (cleanup
      (cleanup (Start storeHosts (termFresh "a2") (fun _ => false)).term []).1
      (cleanup (Start storeHosts (termFresh "a2") (fun _ => false)).term []).2).2 =
      [.sessionClose, .clientClose, .sessionClose, .clientClose] := by
  decide

/-- Claim C22, as the code has it: on every terminal that `Start` has started, one `cleanup`
issues exactly the release calls of its kind, each once and in order: the process is
signalled, then waited for, then the pty is closed (local); the session is closed, then
the client (remote).  The method changes no field of the terminal and keeps no record
of having run, so every further invocation appends the same calls again. -/
theorem C22_cleanup_once (s : AssetService) (t : Terminal) (fails : SetupStep → Bool)
    (hok : (Start s t fails).err = none) :
    (((Start s t fails).term.connType = .ConnectionTypeLocal ∧
        (cleanup (Start s t fails).term []).2 = [.processKill, .processWait, .ttyClose]) ∨
      ((Start s t fails).term.connType = .ConnectionTypeSSH ∧
        (cleanup (Start s t fails).term []).2 = [.sessionClose, .clientClose])) ∧
    (∀ calls, (cleanup (Start s t fails).term calls).1 = (Start s t fails).term ∧
      (cleanup (Start s t fails).term calls).2 =
        calls ++ (cleanup (Start s t fails).term []).2) := by
  refine ⟨?_, fun calls => cleanup_append _ calls⟩
  rcases (Start_ok s t fails hok).2 with ⟨h1, h2, h3, _⟩ | ⟨h1, h2, h3, _⟩
  · left
    refine ⟨h1, ?_⟩
    unfold cleanup
    rw [h1]
    simp [h2, h3]
  · right
    refine ⟨h1, ?_⟩
    unfold cleanup
    rw [h1]
    simp [h2, h3]

theorem C22_cleanup_once_witness :
    (((Start storeHosts (termFresh "a2") (fun _ => false)).term.connType
          = .ConnectionTypeLocal ∧
        (cleanup (Start storeHosts (termFresh "a2") (fun _ => false)).term []).2 =
          [.processKill, .processWait, .ttyClose]) ∨
      ((Start storeHosts (termFresh "a2") (fun _ => false)).term.connType
          = .ConnectionTypeSSH ∧
        (cleanup (Start storeHosts (termFresh "a2") (fun _ => false)).term []).2 =
          [.sessionClose, .clientClose])) ∧
    (∀ calls,
      (cleanup (Start storeHosts (termFresh "a2") (fun _ => false)).term calls).1 =
        (Start storeHosts (termFresh "a2") (fun _ => false)).term ∧
      (cleanup (Start storeHosts (termFresh "a2") (fun _ => false)).term calls).2 =
        calls ++ (cleanup (Start storeHosts (termFresh "a2") (fun _ => false)).term []).2) :=
  C22_cleanup_once storeHosts (termFresh "a2") (fun _ => false) rfl

/-! ### Moving an asset: the sibling links -/

/-- Claim C28 fails on the code.  In the well-linked store of the folder `f` followed by
the asset `x`, moving `x` into the empty folder `f` with position `append` succeeds and
leaves `x` as its own previous and next sibling: `insertAppend` looks for the tail
under `f` after `x` has been given that parent, finds `x` itself and links it to
itself.  Moving `x` before itself (the asset as its own target sibling) succeeds with the
same self-links.  In both cases the store is no longer well linked.  The first move
ends the same way when the loops visit the map in the other order. -/
theorem C28_move_links_asset_to_itself :
    storeFolder.wellLinked = true ∧
    (storeFolder.MoveAsset "x" ⟨some "f", none, ascii "append"⟩ 7 false).2 = .ok "x" ∧
    (storeFolder.MoveAsset "x" ⟨some "f", none, ascii "append"⟩ 7 false).1.linksOf "x" =
      some (some "f", some "x", some "x") ∧
    (storeFolder.MoveAsset "x" ⟨some "f", none, ascii "append"⟩ 7 false).1.wellLinked
      = false ∧
    (storeFolder.MoveAsset "x" ⟨none, some "x", ascii "before"⟩ 7 false).2 = .ok "x" ∧
    (storeFolder.MoveAsset "x" ⟨none, some "x", ascii "before"⟩ 7 false).1.linksOf "x" =
      some (none, some "x", some "x") ∧
    (storeFolder.MoveAsset "x" ⟨none, some "x", ascii "before"⟩ 7 false).1.wellLinked
      = false ∧
    ((⟨storeFolder.assets.reverse⟩ : AssetService).MoveAsset "x"
      ⟨some "f", none, ascii "append"⟩ 7 false).1.linksOf "x" =
      some (some "f", some "x", some "x") := by
  decide

/-! ### The asset store as a map -/

theorem lookup_ID {s : AssetService} {x : String} {a : Asset} (h : s.lookup x = some a) :
    a.ID = x := by
  have := List.find?_some h
  simpa using this

theorem lookup_update (s : AssetService) (k : String) (f : Asset → Asset)
    (hf : ∀ a, (f a).ID = a.ID) (x : String) :
    (s.update k f).lookup x = if x = k then (s.lookup x).map f else s.lookup x := by
  obtain ⟨assets⟩ := s
  unfold AssetService.lookup AssetService.update
  dsimp only
  induction assets with
  | nil => simp
  | cons a l ih =>
    rw [List.map_cons, List.find?_cons, List.find?_cons]
    by_cases hak : a.ID = k
    · rw [if_pos hak]
      by_cases hax : a.ID = x
      · have hxk : x = k := hax.symm.trans hak
        simp [hf, hax, hxk]
      · simp only [hf, hax, decide_False]
        exact ih
    · rw [if_neg hak]
      by_cases hax : a.ID = x
      · have hxk : ¬ x = k := fun h => hak (hax.trans h)
        simp [hax, hxk]
      · simp only [hax, decide_False]
        exact ih

theorem lookup_remove (s : AssetService) (k x : String) :
    (s.remove k).lookup x = if x = k then none else s.lookup x := by
  obtain ⟨assets⟩ := s
  unfold AssetService.lookup AssetService.remove
  dsimp only
  induction assets with
  | nil => simp
  | cons a l ih =>
    by_cases hak : a.ID = k
    · rw [List.filter_cons_of_neg (by simpa using hak), ih, List.find?_cons]
      by_cases hax : a.ID = x
      · have hxk : x = k := hax.symm.trans hak
        simp [hxk]
      · simp [hax]
    · rw [List.filter_cons_of_pos (by simpa using hak), List.find?_cons, List.find?_cons, ih]
      by_cases hax : a.ID = x
      · have hxk : ¬ x = k := fun h => hak (hax.trans h)
        simp [hax, hxk]
      · simp [hax]

theorem lookup_isSome_iff (s : AssetService) (x : String) :
    (s.lookup x).isSome = true ↔ x ∈ s.keys := by
  unfold AssetService.lookup AssetService.keys
  rw [List.find?_isSome, List.mem_map]
  constructor
  · rintro ⟨a, ha, h⟩
    exact ⟨a, ha, by simpa using h⟩
  · rintro ⟨a, ha, h⟩
    exact ⟨a, ha, by simpa using h⟩

theorem keys_update (s : AssetService) (k : String) (f : Asset → Asset)
    (hf : ∀ a, (f a).ID = a.ID) : (s.update k f).keys = s.keys := by
  unfold AssetService.keys AssetService.update
  rw [List.map_map]
  apply List.map_congr_left
  intro a _
  simp only [Function.comp]
  split
  · exact hf a
  · rfl

/-- An assignment to the sibling links of one asset changes no asset apart from its
links. -/
theorem node_update (s : AssetService) (k : String) (f : Asset → Asset)
    (hf : ∀ a, (f a).unlink = a.unlink) (x : String) :
    (s.update k f).node x = s.node x := by
  have hid : ∀ a, (f a).ID = a.ID := by
    intro a
    have h := congrArg Asset.ID (hf a)
    exact h
  unfold AssetService.node
  rw [lookup_update s k f hid]
  split
  · rw [Option.map_map]
    congr 1
    funext a
    exact hf a
  · rfl

theorem node_update_next (s : AssetService) (k : String) (v : Option String) (x : String) :
    (s.update k (fun a => { a with NextID := v })).node x = s.node x :=
  node_update s k (fun a => { a with NextID := v }) (fun _ => rfl) x

theorem node_update_prev (s : AssetService) (k : String) (v : Option String) (x : String) :
    (s.update k (fun a => { a with PrevID := v })).node x = s.node x :=
  node_update s k (fun a => { a with PrevID := v }) (fun _ => rfl) x

theorem node_update_links (s : AssetService) (k : String) (v1 v2 : Option String)
    (x : String) :
    (s.update k (fun a => { a with PrevID := v1, NextID := v2 })).node x = s.node x :=
  node_update s k (fun a => { a with PrevID := v1, NextID := v2 }) (fun _ => rfl) x

theorem node_detach (s : AssetService) (id x : String) :
    (s.detach id).node x = s.node x := by
  unfold AssetService.detach
  dsimp only
  repeat' split
  all_goals
    first
    | rfl
    | simp only [node_update_next, node_update_prev, node_update_links]

theorem node_insertAppend (s : AssetService) (id x : String) :
    (s.insertAppend id).node x = s.node x := by
  unfold AssetService.insertAppend
  repeat' split
  all_goals
    first
    | rfl
    | simp only [node_update_next, node_update_prev, node_update_links]

theorem node_link (s s1 : AssetService) (id : String) (parentID : Option String)
    (ref : Option Asset) (pos : GoString) (h : s.link id parentID ref pos = some s1)
    (x : String) : s1.node x = s.node x := by
  unfold AssetService.link at h
  dsimp only at h
  repeat' split at h
  all_goals
    cases h <;> first
      | rfl
      | simp only [node_update_next, node_update_prev, node_update_links,
          node_insertAppend]

theorem parents_eq_node (s : AssetService) (x : String) :
    s.parents x = (s.node x).map (fun a => a.ParentID) := by
  unfold AssetService.parents AssetService.node
  rw [Option.map_map]
  rfl

theorem ParentOf_iff (s : AssetService) (x y : String) :
    ParentOf s x y ↔ s.parents x = some (some y) := by
  unfold ParentOf AssetService.parents
  constructor
  · rintro ⟨a, ha, hp⟩
    rw [ha, Option.map_some', hp]
  · intro h
    cases hl : s.lookup x with
    | none =>
      rw [hl] at h
      cases h
    | some a =>
      rw [hl, Option.map_some'] at h
      exact ⟨a, rfl, Option.some.inj h⟩

/-! ### Paths of a relation that differs at one source -/

/-- A path to `a` in a relation that agrees with `r` away from the source `a` is a path
to `a` in `r`. -/
theorem reflTransGen_to_of_agree {α : Type} {r r2 : α → α → Prop} {a : α}
    (hagree : ∀ x y, x ≠ a → r2 x y → r x y) :
    ∀ x, Relation.ReflTransGen r2 x a → Relation.ReflTransGen r x a := by
  intro x h
  induction h using Relation.ReflTransGen.head_induction_on with
  | refl => exact Relation.ReflTransGen.refl
  | @head x y hxy _ ih =>
    by_cases hx : x = a
    · rw [hx]
    · exact Relation.ReflTransGen.head (hagree x y hx hxy) ih

/-- A path in the changed relation either avoids the source `a` or passes through it. -/
theorem transGen_split_at {α : Type} {r r2 : α → α → Prop} {a : α}
    (hagree : ∀ x y, x ≠ a → r2 x y → r x y) :
    ∀ x z, Relation.TransGen r2 x z →
      Relation.TransGen r x z ∨
        (Relation.ReflTransGen r2 x a ∧ Relation.TransGen r2 a z) := by
  intro x z h
  induction h with
  | single hxz =>
    rename_i z
    by_cases hx : x = a
    · right
      subst hx
      exact ⟨Relation.ReflTransGen.refl, Relation.TransGen.single hxz⟩
    · left
      exact Relation.TransGen.single (hagree x z hx hxz)
  | tail hxw hwz ih =>
    rename_i w z
    rcases ih with h1 | ⟨h1, h2⟩
    · by_cases hw : w = a
      · right
        subst hw
        exact ⟨hxw.to_reflTransGen, Relation.TransGen.single hwz⟩
      · left
        exact Relation.TransGen.tail h1 (hagree w z hw hwz)
    · right
      exact ⟨h1, Relation.TransGen.tail h2 hwz⟩

/-- Redirecting the edges that leave `a` to targets from which `a` cannot be reached
keeps a relation free of cycles. -/
theorem acyclic_of_redirect {α : Type} {r r2 : α → α → Prop} {a : α}
    (hagree : ∀ x y, x ≠ a → r2 x y → r x y)
    (hacyc : ∀ x, ¬ Relation.TransGen r x x)
    (hnew : ∀ y, r2 a y → ¬ Relation.ReflTransGen r y a) :
    ∀ x, ¬ Relation.TransGen r2 x x := by
  have ha : ¬ Relation.TransGen r2 a a := by
    intro h
    obtain ⟨y, hay, hya⟩ := Relation.TransGen.head'_iff.1 h
    exact hnew y hay (reflTransGen_to_of_agree hagree y hya)
  intro x h
  rcases transGen_split_at hagree x x h with h1 | ⟨h1, h2⟩
  · exact hacyc x h1
  · exact ha (Relation.TransGen.trans_left h2 h1)

/-! ### The walk up the ancestors -/

/-- The walk stops at the moved asset only when that asset is the start or one of its
ancestors. -/
theorem ancestorWalk_found (s : AssetService) (id : String) :
    ∀ (fuel : Nat) (visited : List String) (cur : String),
      s.ancestorWalk id fuel visited cur = .found →
      Relation.ReflTransGen (ParentOf s) cur id := by
  intro fuel
  induction fuel with
  | zero =>
    intro visited cur h
    simp [AssetService.ancestorWalk] at h
  | succ fuel ih =>
    intro visited cur h
    unfold AssetService.ancestorWalk at h
    split at h
    · cases h
    · split at h
      · rename_i hid
        rw [hid]
      · split at h
        · cases h
        · rename_i curAsset hl
          split at h
          · cases h
          · rename_i parentID hp
            exact Relation.ReflTransGen.head ⟨curAsset, hl, hp⟩ (ih _ _ h)

/-- Distinct stored keys are at most as many as the store has assets. -/
theorem visited_length_le (s : AssetService) (visited : List String)
    (hnd : visited.Nodup) (hkeys : ∀ v ∈ visited, v ∈ s.keys) :
    visited.length ≤ s.assets.length := by
  have h := (List.Nodup.subperm hnd (fun v hv => hkeys v hv)).length_le
  unfold AssetService.keys at h
  rwa [List.length_map] at h

/-- The walk ends within as many steps as the store has assets, plus one. -/
theorem ancestorWalk_ends (s : AssetService) (id : String) :
    ∀ (fuel : Nat) (visited : List String) (cur : String),
      visited.Nodup → (∀ v ∈ visited, v ∈ s.keys) →
      s.assets.length + 1 ≤ fuel + visited.length →
      s.ancestorWalk id fuel visited cur ≠ .outOfFuel := by
  intro fuel
  induction fuel with
  | zero =>
    intro visited cur hnd hkeys hlen
    have := visited_length_le s visited hnd hkeys
    omega
  | succ fuel ih =>
    intro visited cur hnd hkeys hlen
    unfold AssetService.ancestorWalk
    split
    · simp
    · rename_i hvis
      split
      · simp
      · split
        · simp
        · rename_i curAsset hl
          split
          · simp
          · apply ih
            · exact List.nodup_cons.2 ⟨hvis, hnd⟩
            · intro v hv
              rcases List.mem_cons.1 hv with rfl | hv
              · exact (lookup_isSome_iff s _).1 (by rw [hl]; rfl)
              · exact hkeys v hv
            · rw [List.length_cons]
              omega

/-- In a store without cycles the walk reaches the moved asset whenever it is the
start or one of its ancestors. -/
theorem ancestorWalk_complete (s : AssetService) (id : String) (hacyc : Acyclic s) :
    ∀ (fuel : Nat) (visited : List String) (cur : String),
      visited.Nodup → (∀ v ∈ visited, v ∈ s.keys) →
      (∀ v ∈ visited, Relation.TransGen (ParentOf s) v cur) →
      s.assets.length + 1 ≤ fuel + visited.length →
      Relation.ReflTransGen (ParentOf s) cur id →
      s.ancestorWalk id fuel visited cur = .found := by
  intro fuel
  induction fuel with
  | zero =>
    intro visited cur hnd hkeys _ hlen
    have := visited_length_le s visited hnd hkeys
    omega
  | succ fuel ih =>
    intro visited cur hnd hkeys hreach hlen hpath
    unfold AssetService.ancestorWalk
    have hvis : cur ∉ visited := fun hmem => hacyc cur (hreach cur hmem)
    rw [if_neg hvis]
    by_cases hid : cur = id
    · rw [if_pos hid]
    · rw [if_neg hid]
      rcases Relation.ReflTransGen.cases_head hpath with h | ⟨p, ⟨a, hl, hp⟩, hrest⟩
      · exact absurd h hid
      · simp only [hl, hp]
        apply ih
        · exact List.nodup_cons.2 ⟨hvis, hnd⟩
        · intro v hv
          rcases List.mem_cons.1 hv with rfl | hv
          · exact (lookup_isSome_iff s _).1 (by rw [hl]; rfl)
          · exact hkeys v hv
        · intro v hv
          rcases List.mem_cons.1 hv with rfl | hv
          · exact Relation.TransGen.single ⟨a, hl, hp⟩
          · exact Relation.TransGen.tail (hreach v hv) ⟨a, hl, hp⟩
        · rw [List.length_cons]
          omega
        · exact hrest

/-! ### Moving an asset: the parent relation -/

theorem parents_update (s : AssetService) (k : String) (f : Asset → Asset)
    (hf : ∀ a, (f a).ID = a.ID) (x : String) :
    (s.update k f).parents x =
      if x = k then (s.lookup x).map (fun a => (f a).ParentID) else s.parents x := by
  unfold AssetService.parents
  rw [lookup_update s k f hf]
  split
  · rw [Option.map_map]
    rfl
  · rfl

theorem parents_update_keep (s : AssetService) (k : String) (f : Asset → Asset)
    (hf : ∀ a, (f a).ID = a.ID) (hp : ∀ a, (f a).ParentID = a.ParentID) (x : String) :
    (s.update k f).parents x = s.parents x := by
  rw [parents_update s k f hf]
  split
  · unfold AssetService.parents
    congr 1
    funext a
    exact hp a
  · rfl

/-- The parents after the detached asset `id` has been given its new parent. -/
theorem parents_reparent (s : AssetService) (id : String) (a : Asset)
    (hl : s.lookup id = some a) (newParentID : Option String) (x : String) :
    ((s.detach id).update id (fun a => { a with ParentID := newParentID })).parents x =
      if x = id then some newParentID else s.parents x := by
  rw [parents_update _ _ (fun a => { a with ParentID := newParentID }) (fun _ => rfl)]
  by_cases hx : x = id
  · rw [if_pos hx, if_pos hx, hx]
    have h := node_detach s id id
    unfold AssetService.node at h
    rw [hl] at h
    cases hd : (s.detach id).lookup id with
    | none =>
      rw [hd] at h
      cases h
    | some b => rfl
  · rw [if_neg hx, if_neg hx, parents_eq_node, node_detach, ← parents_eq_node]

/-- The ways a call of `MoveAsset` ends: it leaves the store as it was and returns an
error of the checks (or the walk did not end), or the checks passed and it leaves a
store in which only the parent of `id` has changed. -/
theorem MoveAsset_cases (s : AssetService) (id : String) (req : MoveAssetRequest)
    (now : Nat) (saveFails : Bool) (P : AssetService × MoveResult → Prop)
    (hnf : s.lookup id = none → P (s, .err .notFound))
    (hself : req.NewParentID = some id → P (s, .err .intoItself))
    (hdesc : ∀ np, req.NewParentID = some np → np ≠ id →
      s.ancestorWalk id (s.assets.length + 1) [] np = .found → P (s, .err .intoDescendant))
    (hfuel : ∀ np, req.NewParentID = some np → np ≠ id →
      s.ancestorWalk id (s.assets.length + 1) [] np = .outOfFuel → P (s, .outOfFuel))
    (hmoved : (∀ np, req.NewParentID = some np →
        np ≠ id ∧ s.ancestorWalk id (s.assets.length + 1) [] np = .done) →
      ∀ s3 r, r ≠ .outOfFuel →
        (∀ x, s3.parents x = if x = id then some req.NewParentID else s.parents x) →
        P (s3, r)) :
    P (s.MoveAsset id req now saveFails) := by
  unfold AssetService.MoveAsset
  cases hl : s.lookup id with
  | none => exact hnf hl
  | some a =>
    dsimp only
    have h2 := parents_reparent s id a hl req.NewParentID
    cases hnp : req.NewParentID with
    | some np =>
      dsimp only
      by_cases hid : np = id
      · rw [if_pos hid]
        exact hself (by rw [hnp, hid])
      · rw [if_neg hid]
        cases hw : s.ancestorWalk id (s.assets.length + 1) [] np with
        | found => exact hdesc np hnp hid hw
        | outOfFuel => exact hfuel np hnp hid hw
        | done =>
          dsimp only
          rw [hnp] at h2
          have hpass : ∀ np2, some np = some np2 →
              np2 ≠ id ∧ s.ancestorWalk id (s.assets.length + 1) [] np2 = .done := by
            intro np2 h
            cases h
            exact ⟨hid, hw⟩
          rw [hnp] at hmoved
          repeat' split
          all_goals
            apply hmoved hpass _ _ (by simp)
          all_goals
            first
            | exact h2
            | (intro x
               rename_i s3 hlink _
               rw [parents_update_keep _ _ (fun a => { a with UpdatedAt := now })
                 (fun _ => rfl) (fun _ => rfl), parents_eq_node,
                 node_link _ _ _ _ _ _ hlink, ← parents_eq_node]
               exact h2 x)
    | none =>
      dsimp only
      rw [hnp] at h2
      have hpass : ∀ np2, (none : Option String) = some np2 →
          np2 ≠ id ∧ s.ancestorWalk id (s.assets.length + 1) [] np2 = .done := by
        intro np2 h
        cases h
      rw [hnp] at hmoved
      repeat' split
      all_goals
        apply hmoved hpass _ _ (by simp)
      all_goals
        first
        | exact h2
        | (intro x
           rename_i s3 hlink _
           rw [parents_update_keep _ _ (fun a => { a with UpdatedAt := now })
             (fun _ => rfl) (fun _ => rfl), parents_eq_node,
             node_link _ _ _ _ _ _ hlink, ← parents_eq_node]
           exact h2 x)

/-- A store in which every stored asset lies deeper than its parent, for some
measure of depth, has no cycle. -/
theorem acyclic_of_depth (s : AssetService) (depth : String → Nat)
    (h : ∀ a ∈ s.assets, ∀ p, a.ParentID = some p → depth p < depth a.ID) :
    Acyclic s := by
  have hstep : ∀ x y, ParentOf s x y → depth y < depth x := by
    rintro x y ⟨a, hl, hp⟩
    have hmem : a ∈ s.assets := List.mem_of_find?_eq_some hl
    have := h a hmem y hp
    rwa [lookup_ID hl] at this
  have hpath : ∀ x y, Relation.TransGen (ParentOf s) x y → depth y < depth x := by
    intro x y hxy
    induction hxy with
    | single h1 => exact hstep _ _ h1
    | tail _ h2 ih => exact lt_trans (hstep _ _ h2) ih
  intro x hx
  exact lt_irrefl _ (hpath x x hx)

theorem storeTree_acyclic : Acyclic storeTree :=
  acyclic_of_depth storeTree depthTree (by decide)

/-- Claim C25: in a store whose parent relation has no cycle, a move whose new parent
is the asset itself or has the asset among its ancestors returns an error and leaves
the store as it was; every call of `MoveAsset` returns (its walk up the ancestors
ends); and the store any call leaves, with or without an error, still has no cycle
in its parent relation. -/
theorem C25_move_keeps_tree_acyclic (s : AssetService) (id : String)
    (req : MoveAssetRequest) (now : Nat) (saveFails : Bool) (hacyc : Acyclic s) :
    (∀ np, req.NewParentID = some np →
      (np = id ∨ Relation.TransGen (ParentOf s) np id) →
      ∃ e, s.MoveAsset id req now saveFails = (s, .err e)) ∧
    (s.MoveAsset id req now saveFails).2 ≠ .outOfFuel ∧
    Acyclic (s.MoveAsset id req now saveFails).1 := by
  apply MoveAsset_cases s id req now saveFails
    (fun p => (∀ np, req.NewParentID = some np →
        (np = id ∨ Relation.TransGen (ParentOf s) np id) → ∃ e, p = (s, .err e)) ∧
      p.2 ≠ .outOfFuel ∧ Acyclic p.1)
  · intro _
    exact ⟨fun _ _ _ => ⟨_, rfl⟩, by simp, hacyc⟩
  · intro _
    exact ⟨fun _ _ _ => ⟨_, rfl⟩, by simp, hacyc⟩
  · intro _ _ _ _
    exact ⟨fun _ _ _ => ⟨_, rfl⟩, by simp, hacyc⟩
  · intro np _ _ hw
    exact absurd hw (ancestorWalk_ends s id _ [] np List.nodup_nil (by simp) (by simp))
  · intro hpass s3 r hr hparents
    have hwalk : ∀ np, req.NewParentID = some np →
        ¬ Relation.ReflTransGen (ParentOf s) np id := by
      intro np hnp hreach
      have hfound := ancestorWalk_complete s id hacyc (s.assets.length + 1) [] np
        List.nodup_nil (by simp) (by simp) (by simp) hreach
      rw [(hpass np hnp).2] at hfound
      cases hfound
    refine ⟨?_, hr, ?_⟩
    · intro np hnp hor
      exfalso
      rcases hor with h | h
      · exact (hpass np hnp).1 h
      · exact hwalk np hnp h.to_reflTransGen
    · apply acyclic_of_redirect (r := ParentOf s) (a := id) _ hacyc
      · intro y hy
        rw [ParentOf_iff, hparents, if_pos rfl] at hy
        exact hwalk y (Option.some.inj hy)
      · intro x y hx hxy
        rw [ParentOf_iff, hparents, if_neg hx] at hxy
        exact (ParentOf_iff s x y).2 hxy

theorem C25_move_keeps_tree_acyclic_witness :
    (∃ e, storeTree.MoveAsset "r" ⟨some "c", none, ascii "append"⟩ 7 false
      = (storeTree, .err e)) ∧
    (storeTree.MoveAsset "c" ⟨some "z", none, ascii "append"⟩ 7 false).2 ≠ .outOfFuel ∧
    Acyclic (storeTree.MoveAsset "c" ⟨some "z", none, ascii "append"⟩ 7 false).1 :=
  ⟨(C25_move_keeps_tree_acyclic storeTree "r" ⟨some "c", none, ascii "append"⟩ 7 false
      storeTree_acyclic).1 "c" rfl
      (Or.inr (Relation.TransGen.tail
        (Relation.TransGen.single ⟨_, rfl, rfl⟩)
        ⟨_, rfl, rfl⟩)),
   (C25_move_keeps_tree_acyclic storeTree "c" ⟨some "z", none, ascii "append"⟩ 7 false
      storeTree_acyclic).2⟩

/-! ### Deleting a subtree -/

theorem node_eq_none_iff (s : AssetService) (x : String) :
    s.node x = none ↔ s.lookup x = none := by
  unfold AssetService.node
  cases s.lookup x <;> simp

theorem lookup_remove_self (s : AssetService) (k : String) : (s.remove k).lookup k = none := by
  rw [lookup_remove, if_pos rfl]

theorem node_remove_other (s : AssetService) (k x : String) (h : x ≠ k) :
    (s.remove k).node x = s.node x := by
  unfold AssetService.node
  rw [lookup_remove, if_neg h]

theorem ParentOf_iff_node (s : AssetService) (x y : String) :
    ParentOf s x y ↔ ∃ a, s.node x = some a ∧ a.ParentID = some y := by
  rw [ParentOf_iff, parents_eq_node]
  cases s.node x with
  | none => simp
  | some a => simp

theorem Removed.of_node_eq {s t : AssetService} (h : ∀ x, t.node x = s.node x) :
    Removed s t (fun _ => False) :=
  ⟨fun _ hk => hk.elim, fun k _ => h k⟩

theorem Removed.congr {s t : AssetService} {D D2 : String → Prop}
    (h : Removed s t D) (hD : ∀ k, D k ↔ D2 k) : Removed s t D2 :=
  ⟨fun k hk => h.1 k ((hD k).2 hk), fun k hk => h.2 k (fun hd => hk ((hD k).1 hd))⟩

theorem Removed.trans {s t u : AssetService} {D E : String → Prop}
    (h1 : Removed s t D) (h2 : Removed t u E) : Removed s u (fun k => D k ∨ E k) := by
  constructor
  · intro k hk
    by_cases hE : E k
    · exact h2.1 k hE
    · rcases hk with hD | hE2
      · have := h2.2 k hE
        rw [(node_eq_none_iff t k).2 (h1.1 k hD)] at this
        exact (node_eq_none_iff u k).1 this
      · exact absurd hE2 hE
  · intro k hk
    rw [h2.2 k (fun h => hk (Or.inr h)), h1.2 k (fun h => hk (Or.inl h))]

theorem Removed.remove {s t : AssetService} {D : String → Prop} (h : Removed s t D)
    (id : String) : Removed s (t.remove id) (fun k => D k ∨ k = id) := by
  constructor
  · intro k hk
    by_cases hid : k = id
    · rw [hid]
      exact lookup_remove_self t id
    · rw [lookup_remove, if_neg hid]
      rcases hk with hD | h2
      · exact h.1 k hD
      · exact absurd h2 hid
  · intro k hk
    rw [node_remove_other t id k (fun h2 => hk (Or.inr h2))]
    exact h.2 k (fun hD => hk (Or.inl hD))

/-- The parent relation of what is left is the old one on the keys that are left. -/
theorem Removed.parentOf_iff {s t : AssetService} {D : String → Prop} (h : Removed s t D)
    (x y : String) : ParentOf t x y ↔ ParentOf s x y ∧ ¬ D x := by
  constructor
  · intro hp
    have hnD : ¬ D x := by
      intro hD
      obtain ⟨a, hl, _⟩ := hp
      rw [h.1 x hD] at hl
      cases hl
    refine ⟨?_, hnD⟩
    rw [ParentOf_iff_node] at hp ⊢
    rw [← h.2 x hnD]
    exact hp
  · rintro ⟨hp, hnD⟩
    rw [ParentOf_iff_node] at hp ⊢
    rw [h.2 x hnD]
    exact hp

theorem Removed.keys_subset {s t : AssetService} {D : String → Prop} (h : Removed s t D)
    (k : String) (hk : k ∈ t.keys) : k ∈ s.keys := by
  rw [← lookup_isSome_iff] at hk ⊢
  have hnD : ¬ D k := by
    intro hD
    rw [h.1 k hD] at hk
    cases hk
  have h2 := h.2 k hnD
  cases hs : s.lookup k with
  | some a => rfl
  | none =>
    rw [(node_eq_none_iff s k).2 hs, node_eq_none_iff] at h2
    rw [h2] at hk
    cases hk

/-- A path that ends outside a set closed under children stays outside it, so it is
a path of the store that is left. -/
theorem Removed.path {s t : AssetService} {D : String → Prop} (h : Removed s t D)
    (hclosed : ∀ x y, D x → ParentOf s y x → D y) (c : String) :
    ∀ k, Relation.ReflTransGen (ParentOf s) k c → ¬ D k →
      Relation.ReflTransGen (ParentOf t) k c := by
  intro k hk
  induction hk using Relation.ReflTransGen.head_induction_on with
  | refl => exact fun _ => Relation.ReflTransGen.refl
  | @head x y hxy _ ih =>
    intro hnD
    have hy : ¬ D y := fun hD => hnD (hclosed y x hD hxy)
    exact Relation.ReflTransGen.head ((h.parentOf_iff x y).2 ⟨hxy, hnD⟩) (ih hy)

theorem reflTransGen_mono_removed {s t : AssetService} {D : String → Prop}
    (h : Removed s t D) (k c : String) (hk : Relation.ReflTransGen (ParentOf t) k c) :
    Relation.ReflTransGen (ParentOf s) k c :=
  Relation.ReflTransGen.mono (fun x y hxy => ((h.parentOf_iff x y).1 hxy).1) hk

/-- The loop over the children: when every recursive call removes the subtree of the
child it is given, the loop removes the subtrees of all children of `id` among the
keys it visits. -/
theorem deleteChildren_spec (s : AssetService) (id : String)
    (del : AssetService → String → Option AssetService)
    (hdel : ∀ (t : AssetService) (c : String) (D : String → Prop), Removed s t D →
      (t.lookup c).isSome = true → ParentOf s c id →
      ∃ t2, del t c = some t2 ∧
        Removed t t2 (fun k => Relation.ReflTransGen (ParentOf t) k c)) :
    ∀ (K : List String) (t : AssetService) (D : String → Prop), Removed s t D →
      (∀ x y, D x → ParentOf s y x → D y) →
      ∃ t2, AssetService.deleteChildren del id K t = some t2 ∧
        Removed s t2 (fun k => D k ∨
          ∃ c ∈ K, ParentOf s c id ∧ Relation.ReflTransGen (ParentOf s) k c) := by
  intro K
  induction K with
  | nil =>
    intro t D hrem _
    exact ⟨t, rfl, hrem.congr (fun k => by simp)⟩
  | cons c K ih =>
    intro t D hrem hclosed
    have hclosedPath : ∀ k x, Relation.ReflTransGen (ParentOf s) k x → D x → D k := by
      intro k x hk
      induction hk using Relation.ReflTransGen.head_induction_on with
      | refl => exact fun h => h
      | @head u v huv _ ih2 => exact fun hD => hclosed v u (ih2 hD) huv
    unfold AssetService.deleteChildren
    cases hl : t.lookup c with
    | none =>
      dsimp only
      obtain ⟨t2, ht2, hrem2⟩ := ih t D hrem hclosed
      refine ⟨t2, ht2, hrem2.congr ?_⟩
      intro k
      constructor
      · rintro (hD | ⟨c2, hc2, hp, hk⟩)
        · exact Or.inl hD
        · exact Or.inr ⟨c2, List.mem_cons_of_mem _ hc2, hp, hk⟩
      · rintro (hD | ⟨c2, hc2, hp, hk⟩)
        · exact Or.inl hD
        · rcases List.mem_cons.1 hc2 with rfl | hc2
          · left
            have hDc : D c2 := by
              by_contra hnD
              have hpt := (hrem.parentOf_iff c2 id).2 ⟨hp, hnD⟩
              obtain ⟨a, ha, _⟩ := hpt
              rw [hl] at ha
              cases ha
            exact hclosedPath k c2 hk hDc
          · exact Or.inr ⟨c2, hc2, hp, hk⟩
    | some child =>
      dsimp only
      have hnD : ¬ D c := by
        intro hD
        rw [hrem.1 c hD] at hl
        cases hl
      by_cases hpar : child.ParentID = some id
      · rw [if_pos hpar]
        have hpt : ParentOf t c id := ⟨child, hl, hpar⟩
        have hps : ParentOf s c id := ((hrem.parentOf_iff c id).1 hpt).1
        obtain ⟨t1, ht1, hrem1⟩ := hdel t c D hrem (by rw [hl]; rfl) hps
        rw [ht1]
        dsimp only
        have hrem01 : Removed s t1
            (fun k => D k ∨ Relation.ReflTransGen (ParentOf s) k c) := by
          refine (hrem.trans hrem1).congr ?_
          intro k
          constructor
          · rintro (hD | hk)
            · exact Or.inl hD
            · exact Or.inr (reflTransGen_mono_removed hrem k c hk)
          · rintro (hD | hk)
            · exact Or.inl hD
            · by_cases hDk : D k
              · exact Or.inl hDk
              · exact Or.inr (hrem.path hclosed c k hk hDk)
        have hclosed1 : ∀ x y,
            (D x ∨ Relation.ReflTransGen (ParentOf s) x c) → ParentOf s y x →
            (D y ∨ Relation.ReflTransGen (ParentOf s) y c) := by
          rintro x y (hD | hx) hyx
          · exact Or.inl (hclosed x y hD hyx)
          · exact Or.inr (Relation.ReflTransGen.head hyx hx)
        obtain ⟨t2, ht2, hrem2⟩ := ih t1 _ hrem01 hclosed1
        refine ⟨t2, ht2, hrem2.congr ?_⟩
        intro k
        constructor
        · rintro ((hD | hk) | ⟨c2, hc2, hp, hk⟩)
          · exact Or.inl hD
          · exact Or.inr ⟨c, List.mem_cons_self _ _, hps, hk⟩
          · exact Or.inr ⟨c2, List.mem_cons_of_mem _ hc2, hp, hk⟩
        · rintro (hD | ⟨c2, hc2, hp, hk⟩)
          · exact Or.inl (Or.inl hD)
          · rcases List.mem_cons.1 hc2 with rfl | hc2
            · exact Or.inl (Or.inr hk)
            · exact Or.inr ⟨c2, hc2, hp, hk⟩
      · rw [if_neg hpar]
        obtain ⟨t2, ht2, hrem2⟩ := ih t D hrem hclosed
        refine ⟨t2, ht2, hrem2.congr ?_⟩
        intro k
        constructor
        · rintro (hD | ⟨c2, hc2, hp, hk⟩)
          · exact Or.inl hD
          · exact Or.inr ⟨c2, List.mem_cons_of_mem _ hc2, hp, hk⟩
        · rintro (hD | ⟨c2, hc2, hp, hk⟩)
          · exact Or.inl hD
          · rcases List.mem_cons.1 hc2 with rfl | hc2
            · exfalso
              have hpt := (hrem.parentOf_iff c2 id).2 ⟨hp, hnD⟩
              obtain ⟨a, ha, hpa⟩ := hpt
              rw [hl] at ha
              cases ha
              exact hpar hpa
            · exact Or.inr ⟨c2, hc2, hp, hk⟩

/-- In a store without cycles `DeleteAsset` returns when the depth it may reach covers
the assets under `id`, and it removes `id` and its descendants, nothing else. -/
theorem DeleteAsset_spec (saveFails : Bool) (order : AssetService → String → List String)
    (horder : ∀ st x k, k ∈ order st x ↔ k ∈ st.keys) :
    ∀ (fuel : Nat) (s : AssetService) (id : String), Acyclic s →
      (s.lookup id).isSome = true →
      (∃ L : List String, L.Nodup ∧ L.length ≤ fuel ∧
        ∀ k, k ∈ s.keys → Relation.ReflTransGen (ParentOf s) k id → k ∈ L) →
      ∃ s2, AssetService.DeleteAsset saveFails order fuel s id =
          some (s2, if saveFails then some .save else none) ∧
        Removed s s2 (fun k => Relation.ReflTransGen (ParentOf s) k id) := by
  intro fuel
  induction fuel with
  | zero =>
    rintro s id _ hid ⟨L, _, hlen, hL⟩
    have hmem : id ∈ L := hL id ((lookup_isSome_iff s id).1 hid) Relation.ReflTransGen.refl
    have hnil : L = [] := List.length_eq_zero.1 (by omega)
    rw [hnil] at hmem
    cases hmem
  | succ fuel ih =>
    rintro s id hacyc hid ⟨L, hnd, hlen, hL⟩
    have hidL : id ∈ L := hL id ((lookup_isSome_iff s id).1 hid) Relation.ReflTransGen.refl
    unfold AssetService.DeleteAsset
    cases hl : s.lookup id with
    | none =>
      rw [hl] at hid
      cases hid
    | some a =>
      dsimp only
      have hrem1 : Removed s (s.detach id) (fun _ => False) :=
        Removed.of_node_eq (node_detach s id)
      have hdel : ∀ (t : AssetService) (c : String) (D : String → Prop), Removed s t D →
          (t.lookup c).isSome = true → ParentOf s c id →
          ∃ t2, (fun st cid =>
              (AssetService.DeleteAsset saveFails order fuel st cid).map Prod.fst) t c
                = some t2 ∧
            Removed t t2 (fun k => Relation.ReflTransGen (ParentOf t) k c) := by
        intro t c D hrem hc hp
        have hsub : ∀ x y, ParentOf t x y → ParentOf s x y :=
          fun x y h => ((hrem.parentOf_iff x y).1 h).1
        have hacyc2 : Acyclic t := fun x hx => hacyc x (Relation.TransGen.mono hsub hx)
        obtain ⟨t2, h1, h2⟩ := ih t c hacyc2 hc
          ⟨L.erase id, hnd.erase id, by
            rw [List.length_erase_of_mem hidL]
            omega, by
            intro k hk hkc
            have hks : Relation.ReflTransGen (ParentOf s) k c :=
              Relation.ReflTransGen.mono hsub hkc
            have hne : k ≠ id := by
              rintro rfl
              exact hacyc k (Relation.TransGen.trans_right hks (Relation.TransGen.single hp))
            exact (List.mem_erase_of_ne hne).2
              (hL k (hrem.keys_subset k hk) (Relation.ReflTransGen.tail hks hp))⟩
        refine ⟨t2, ?_, h2⟩
        dsimp only
        rw [h1]
        rfl
      obtain ⟨t2, ht2, hrem2⟩ := deleteChildren_spec s id _ hdel (order (s.detach id) id)
        (s.detach id) (fun _ => False) hrem1 (fun _ _ h _ => h.elim)
      rw [ht2]
      dsimp only
      refine ⟨_, rfl, (hrem2.remove id).congr ?_⟩
      intro k
      constructor
      · rintro ((h | ⟨c, _, hp, hk⟩) | rfl)
        · exact h.elim
        · exact Relation.ReflTransGen.tail hk hp
        · exact Relation.ReflTransGen.refl
      · intro hk
        rcases Relation.ReflTransGen.cases_tail hk with h | ⟨c, hkc, hp⟩
        · exact Or.inr h.symm
        · left
          right
          refine ⟨c, ?_, hp, hkc⟩
          rw [horder, ← lookup_isSome_iff]
          obtain ⟨b, hb, _⟩ := hp
          have hn := node_detach s id c
          unfold AssetService.node at hn
          rw [hb] at hn
          cases hd : (s.detach id).lookup c with
          | none =>
            rw [hd] at hn
            cases hn
          | some _ => rfl

/-- Claim C26: in a store whose parent relation has no cycle, `DeleteAsset` on a stored
`id` returns (the recursion is never deeper than the store has assets), in whatever
order its loops visit the keys, with the error of the final save, if any, and leaves a
store that holds none of `id` and its descendants and holds every other asset as it
was up to its sibling links.  On an id that is not stored it returns the error
`asset not found` and leaves the store as it was. -/
theorem C26_delete_removes_subtree (s : AssetService) (id : String) (saveFails : Bool)
    (order : AssetService → String → List String)
    (horder : ∀ st x k, k ∈ order st x ↔ k ∈ st.keys) :
    (Acyclic s → ∀ a, s.lookup id = some a → ∀ fuel, s.assets.length ≤ fuel →
      ∃ s2, AssetService.DeleteAsset saveFails order fuel s id =
          some (s2, if saveFails then some .save else none) ∧
        (∀ k, (k = id ∨ Relation.TransGen (ParentOf s) k id) → s2.lookup k = none) ∧
        (∀ k, ¬ (k = id ∨ Relation.TransGen (ParentOf s) k id) → s2.node k = s.node k)) ∧
    (s.lookup id = none → ∀ fuel,
      AssetService.DeleteAsset saveFails order (fuel + 1) s id =
        some (s, some .notFound)) := by
  constructor
  · intro hacyc a ha fuel hfuel
    have hbound : ∃ L : List String, L.Nodup ∧ L.length ≤ fuel ∧
        ∀ k, k ∈ s.keys → Relation.ReflTransGen (ParentOf s) k id → k ∈ L := by
      refine ⟨s.keys.dedup, List.nodup_dedup _, ?_, fun k hk _ => List.mem_dedup.2 hk⟩
      have h1 := (List.dedup_sublist s.keys).length_le
      have h2 : s.keys.length = s.assets.length := by
        unfold AssetService.keys
        rw [List.length_map]
      omega
    obtain ⟨s2, hs2, hrem⟩ :=
      DeleteAsset_spec saveFails order horder fuel s id hacyc (by rw [ha]; rfl) hbound
    refine ⟨s2, hs2, ?_, ?_⟩
    · intro k hk
      apply hrem.1 k
      apply Relation.reflTransGen_iff_eq_or_transGen.2
      rcases hk with h | h
      · exact Or.inl h.symm
      · exact Or.inr h
    · intro k hk
      apply hrem.2 k
      intro hr
      rcases Relation.reflTransGen_iff_eq_or_transGen.1 hr with h | h
      · exact hk (Or.inl h.symm)
      · exact hk (Or.inr h)
  · intro hnone fuel
    unfold AssetService.DeleteAsset
    rw [hnone]

theorem C26_delete_removes_subtree_witness :
    (∃ s2, AssetService.DeleteAsset false (fun st _ => st.keys.reverse) 5 storeTree "a" =
          some (s2, if false = true then some .save else none) ∧
        (∀ k, (k = "a" ∨ Relation.TransGen (ParentOf storeTree) k "a") →
          s2.lookup k = none) ∧
        (∀ k, ¬ (k = "a" ∨ Relation.TransGen (ParentOf storeTree) k "a") →
          s2.node k = storeTree.node k)) ∧
    AssetService.DeleteAsset false (fun st _ => st.keys.reverse) (0 + 1) storeTree "q" =
      some (storeTree, some .notFound) :=
  ⟨(C26_delete_removes_subtree storeTree "a" false (fun st _ => st.keys.reverse)
      (fun _ _ _ => List.mem_reverse)).1 storeTree_acyclic _ rfl 5 (by decide),
   (C26_delete_removes_subtree storeTree "q" false (fun st _ => st.keys.reverse)
      (fun _ _ _ => List.mem_reverse)).2 rfl 0⟩

end Omniterm
